import Mathlib

/-!
# Minimal Blog: front-matter codec, session tokens and the edge gateway

A shallow embedding of `src/cloudflare-worker/worker.js` and of the codec in
`src/frontend/src/services/github.js`.

* A JavaScript string is the list of its characters. The string operations of
  the worker look at single characters below U+10000 only, so a character and a
  UTF-16 code unit need not be told apart.
* A function that can throw, or an `async` function whose promise can reject,
  returns `Except JSError`.
* The platform (JSON, HMAC, the clock) and the deployment configuration are
  explicit parameters; the content host is a function from calls to outcomes,
  and every call a handler issues is appended to a trace.
-/

namespace MinimalBlog

/-! ## Strings -/

/-- A JavaScript string. -/
abbrev JSString := List Char

/-- White space as `String.prototype.trim` understands it: the WhiteSpace and
LineTerminator code points of ECMAScript. -/
def isJSWhitespace (c : Char) : Bool :=
  let n := c.toNat
  n == 0x09 || n == 0x0A || n == 0x0B || n == 0x0C || n == 0x0D || n == 0x20 ||
  n == 0xA0 || n == 0x1680 || (0x2000 ≤ n && n ≤ 0x200A) || n == 0x2028 ||
  n == 0x2029 || n == 0x202F || n == 0x205F || n == 0x3000 || n == 0xFEFF

/-- The method `s.trimStart()`. -/
def trimStart (s : JSString) : JSString := s.dropWhile isJSWhitespace

/-- The method `s.trimEnd()`. -/
def trimEnd (s : JSString) : JSString := (s.reverse.dropWhile isJSWhitespace).reverse

/-- The method `s.trim()`. -/
def trim (s : JSString) : JSString := trimEnd (trimStart s)

/-- The method `s.split(sep)` for a separator of one character: the pieces
between the separators, always at least one piece. -/
def split (sep : Char) : JSString → List JSString
  | [] => [[]]
  | c :: cs =>
    if c = sep then [] :: split sep cs
    else
      match split sep cs with
      | [] => [[c]]
      | piece :: pieces => (c :: piece) :: pieces

/-- The method `parts.join(sep)`. -/
def join (sep : JSString) : List JSString → JSString
  | [] => []
  | [p] => p
  | p :: q :: ps => p ++ sep ++ join sep (q :: ps)

/-- The method `s.startsWith(p)`. -/
def startsWith (s p : JSString) : Bool := p.isPrefixOf s

/-- The method `s.endsWith(p)`. -/
def endsWith (s p : JSString) : Bool := p.isSuffixOf s

/-- The first place where `pat` occurs in `s`: the text before it and the text
after it. -/
def findFirst (pat : JSString) : JSString → Option (JSString × JSString)
  | [] => if pat.isPrefixOf [] then some ([], []) else none
  | c :: cs =>
    if pat.isPrefixOf (c :: cs) then some ([], (c :: cs).drop pat.length)
    else (findFirst pat cs).map (fun p => (c :: p.1, p.2))

/-- The method `s.replace(pat, rep)` with a string pattern: only the first
occurrence is replaced. (The replacement texts used by the worker contain no
`$`, so no replacement pattern is expanded.) -/
def replaceFirst (pat rep s : JSString) : JSString :=
  match findFirst pat s with
  | none => s
  | some (before, after) => before ++ rep ++ after

/-! ## Objects with string keys -/

/-- The own properties of a plain object, in the order in which JavaScript
enumerates them (`OrdinaryOwnPropertyKeys`): the keys that are array indices
first, in ascending order, then the other keys in the order of their creation.
The objects that the worker writes as literals have no array index among their
keys; `defineProp` keeps the order for the keys that come from data. -/
abbrev Props (α : Type) := List (JSString × α)

/-- Reading an own property: `o[k]`, `none` standing for `undefined`. -/
def getProp {α : Type} (o : Props α) (k : JSString) : Option α :=
  match o with
  | [] => none
  | (k', v) :: rest => if k' = k then some v else getProp rest k

/-- Whether `k` is an own property of `o`. -/
def hasProp {α : Type} (o : Props α) (k : JSString) : Bool :=
  (getProp o k).isSome

/-- The index that a key stands for when the key is an array index: the decimal
text, without a leading zero, of an integer from 0 to 2^32 - 2. -/
def arrayIndex (k : JSString) : Option Nat :=
  if k ≠ [] ∧ k.all Char.isDigit ∧ (k = ['0'] ∨ k.head? ≠ some '0') then
    let n := k.foldl (fun acc c => acc * 10 + (c.toNat - 48)) 0
    if n < 4294967295 then some n else none
  else none

/-- Whether a new key `k` is enumerated before the key `k'` of an object: an
array index comes before a larger array index and before every other key; a
key that is no array index comes after all the keys there are. -/
def comesBefore (k k' : JSString) : Bool :=
  match arrayIndex k, arrayIndex k' with
  | some i, some j => decide (i < j)
  | some _, none => true
  | none, _ => false

/-- Defining an own data property, as an object literal or a spread does: an
existing key keeps its place and takes the new value; a new key takes its place
in the order of enumeration, which for a key that is no array index is the last
place. -/
def defineProp {α : Type} (o : Props α) (k : JSString) (v : α) : Props α :=
  match o with
  | [] => [(k, v)]
  | (k', v') :: rest =>
    if k' = k then (k, v) :: rest
    else if comesBefore k k' && !hasProp rest k then (k, v) :: (k', v') :: rest
    else (k', v') :: defineProp rest k v

/-- The assignment `o[k] = v` on an object created by `{}`, for a value `v`
that is a string. The assignment goes through the object's prototype chain:
`Object.prototype` has an accessor named `__proto__` whose setter ignores a
value that is not an object, so that one key creates no own property. Every
other key becomes an own data property. -/
def assignProp {α : Type} (o : Props α) (k : JSString) (v : α) : Props α :=
  if k = "__proto__".toList then o else defineProp o k v

/-- The own keys of an object. -/
def keysOf {α : Type} (o : Props α) : List JSString := o.map (·.1)

/-! ## Front-matter codec -/

/-- The function `formatMarkdown` of `services/github.js`: a template literal with
three fixed metadata lines between two `---` lines, an empty line and the body. -/
def formatMarkdown (title date category content : JSString) : JSString :=
  "---\ntitle: ".toList ++ title ++ "\ndate: ".toList ++ date ++
  "\ncategory: ".toList ++ category ++ "\n---\n\n".toList ++ content

/-- The regular expression `/^---\n([\s\S]+?)\n---\n([\s\S]*)$/` applied to the whole
string: the two captured groups, or `none` when there is no match. The lazy
group takes one character and then as few more as possible before `\n---\n`;
the second group takes everything that is left. -/
def frontMatterRegex (markdown : JSString) : Option (JSString × JSString) :=
  if startsWith markdown "---\n".toList then
    match markdown.drop 4 with
    | [] => none
    | c :: cs => (findFirst "\n---\n".toList cs).map (fun p => (c :: p.1, p.2))
  else none

/-- The result of `parseMarkdown`. -/
structure Parsed where
  metadata : Props JSString
  content : JSString
  deriving DecidableEq, Repr

/-- The body of the `forEach` callback of `parseMarkdown`: the line is split at
every colon, the first piece is the key and the others, joined by colons again,
the value. -/
def parseLine (metadata : Props JSString) (line : JSString) : Props JSString :=
  match split ':' line with
  | [] => metadata
  | key :: valueParts =>
    if key ≠ [] ∧ valueParts.length ≠ 0 then
      assignProp metadata (trim key) (trim (join ":".toList valueParts))
    else metadata

/-- The function `parseMarkdown` (the worker and the front end carry the same text). -/
def parseMarkdown (markdown : JSString) : Parsed :=
  match frontMatterRegex markdown with
  | none => { metadata := [], content := markdown }
  | some (frontMatter, content) =>
    { metadata := (split '\n' frontMatter).foldl parseLine [],
      content := trim content }

/-- The metadata block that `formatMarkdown` writes. -/
def frontMatterOf (title date category : JSString) : JSString :=
  "title: ".toList ++ title ++ "\ndate: ".toList ++ date ++ "\ncategory: ".toList ++ category

/-! ## Values and errors -/

/-- A JavaScript value as far as the worker handles one: `undefined`, and what
`JSON.parse` can return. Numbers are the integral ones (times in milliseconds). -/
inductive JSValue
  | undefined
  | null
  | bool (b : Bool)
  | num (n : Int)
  | str (s : JSString)
  | arr (items : List JSValue)
  | obj (props : List (JSString × JSValue))

namespace JSValue

mutual
/-- Structural equality of values, as a Boolean. -/
def beq : JSValue → JSValue → Bool
  | undefined, undefined => true
  | null, null => true
  | bool a, bool b => a == b
  | num a, num b => a == b
  | str a, str b => a == b
  | arr a, arr b => beqList a b
  | obj a, obj b => beqProps a b
  | _, _ => false
/-- Structural equality of arrays. -/
def beqList : List JSValue → List JSValue → Bool
  | [], [] => true
  | a :: as, b :: bs => beq a b && beqList as bs
  | _, _ => false
/-- Structural equality of property lists. -/
def beqProps : List (JSString × JSValue) → List (JSString × JSValue) → Bool
  | [], [] => true
  | (k, a) :: as, (l, b) :: bs => k == l && beq a b && beqProps as bs
  | _, _ => false
end

mutual
theorem beq_iff : ∀ a b : JSValue, beq a b = true ↔ a = b
  | undefined, b => by cases b <;> simp [beq]
  | null, b => by cases b <;> simp [beq]
  | bool a, b => by cases b <;> simp [beq]
  | num a, b => by cases b <;> simp [beq]
  | str a, b => by cases b <;> simp [beq]
  | arr a, b => by cases b <;> simp [beq, beqList_iff a]
  | obj a, b => by cases b <;> simp [beq, beqProps_iff a]
theorem beqList_iff : ∀ a b : List JSValue, beqList a b = true ↔ a = b
  | [], b => by cases b <;> simp [beqList]
  | a :: as, b => by cases b <;> simp [beqList, beq_iff a, beqList_iff as]
theorem beqProps_iff :
    ∀ a b : List (JSString × JSValue), beqProps a b = true ↔ a = b
  | [], b => by cases b <;> simp [beqProps]
  | (k, a) :: as, b => by
    cases b with
    | nil => simp [beqProps]
    | cons hd tl =>
      obtain ⟨l, b⟩ := hd
      simp [beqProps, beq_iff a, beqProps_iff as, and_assoc]
end

instance : DecidableEq JSValue := fun a b => decidable_of_iff _ (beq_iff a b)

end JSValue

/-- A thrown value: an `Error` or a `DOMException`, with its name and message. -/
structure JSError where
  name : JSString
  message : JSString
  deriving DecidableEq, Repr

instance {ε α : Type} [DecidableEq ε] [DecidableEq α] : DecidableEq (Except ε α)
  | .ok a, .ok b => if h : a = b then isTrue (by rw [h]) else isFalse (fun e => h (by cases e; rfl))
  | .error a, .error b =>
    if h : a = b then isTrue (by rw [h]) else isFalse (fun e => h (by cases e; rfl))
  | .ok _, .error _ => isFalse (fun e => by cases e)
  | .error _, .ok _ => isFalse (fun e => by cases e)

/-- The value `new Error(message)`. -/
def mkError (message : JSString) : JSError := { name := "Error".toList, message := message }

/-- A `TypeError`, raised by the language itself. -/
def typeError (message : JSString) : JSError :=
  { name := "TypeError".toList, message := message }

/-- The `InvalidCharacterError` of `btoa` and `atob`. -/
def invalidCharacterError : JSError :=
  { name := "InvalidCharacterError".toList, message := "Invalid character".toList }

/-- The `RangeError` of a call with too many arguments. -/
def rangeError : JSError :=
  { name := "RangeError".toList, message := "Maximum call stack size exceeded".toList }

/-- The statement `try { body } catch (e) { handler }` around code that runs to
its end inside the block. -/
def tryCatch {α : Type} (body : Except JSError α) (handler : JSError → Except JSError α) :
    Except JSError α :=
  match body with
  | .ok v => .ok v
  | .error e => handler e

/-- Reading the property `k` of a value with `v.k` or by destructuring:
a `TypeError` on `undefined` and `null`, the own property of an object, and
`undefined` otherwise (none of the names the worker reads is a built-in property
of a string, a number, a Boolean or an array). -/
def getField (v : JSValue) (k : JSString) : Except JSError JSValue :=
  match v with
  | .undefined => .error (typeError "Cannot read properties of undefined".toList)
  | .null => .error (typeError "Cannot read properties of null".toList)
  | .obj props => .ok ((getProp props k).getD .undefined)
  | _ => .ok .undefined

/-- Whether a value is truthy. -/
def truthy : JSValue → Bool
  | .undefined => false
  | .null => false
  | .bool b => b
  | .num n => n != 0
  | .str s => s != []
  | .arr _ => true
  | .obj _ => true

/-! ## Base64: `btoa` and `atob` -/

/-- The base64 alphabet. -/
def b64Alphabet : List Char :=
  "ABCDEFGHIJKLMNOPQRSTUVWXYZabcdefghijklmnopqrstuvwxyz0123456789+/".toList

/-- The character for a six-bit number. -/
def b64Char (n : Nat) : Char := b64Alphabet.getD n 'A'

/-- The six-bit number of a character of the alphabet. -/
def b64Index (c : Char) : Option Nat :=
  let i := b64Alphabet.indexOf c
  if i < 64 then some i else none

/-- The six-bit groups of a byte sequence, the last group filled with zero bits. -/
def sextetsOf : List Nat → List Nat
  | a :: b :: c :: rest =>
    (a / 4) :: ((a % 4) * 16 + b / 16) :: ((b % 16) * 4 + c / 64) :: (c % 64) :: sextetsOf rest
  | [a, b] => [a / 4, (a % 4) * 16 + b / 16, (b % 16) * 4]
  | [a] => [a / 4, (a % 4) * 16]
  | [] => []

/-- The padding after the groups of `n` bytes. -/
def b64Padding (n : Nat) : List Char :=
  if n % 3 = 1 then ['=', '='] else if n % 3 = 2 then ['='] else []

/-- Base64 of a byte sequence. -/
def encodeBytes (bytes : List Nat) : JSString :=
  (sextetsOf bytes).map b64Char ++ b64Padding bytes.length

/-- The function `btoa`: base64 of a string of characters up to U+00FF, an
`InvalidCharacterError` for any other string. -/
def btoa (s : JSString) : Except JSError JSString :=
  if s.all (fun c => c.toNat < 256) then .ok (encodeBytes (s.map Char.toNat))
  else .error invalidCharacterError

/-- ASCII white space, which `atob` removes before it decodes. -/
def isAsciiWhitespace (c : Char) : Bool :=
  c == '\t' || c == '\n' || c == '\x0c' || c == '\r' || c == ' '

/-- Removal of one or two `=` at the end. -/
def stripPadding (d : JSString) : JSString :=
  match d.reverse with
  | '=' :: '=' :: r => r.reverse
  | '=' :: r => r.reverse
  | _ => d

/-- The bytes of a sequence of six-bit groups. Of a last group of two the low
four bits are dropped, of a last group of three the low two bits. -/
def decodeSextets : List Nat → List Nat
  | a :: b :: c :: d :: rest =>
    (a * 4 + b / 16) :: ((b % 16) * 16 + c / 4) :: ((c % 4) * 64 + d) :: decodeSextets rest
  | [a, b, c] => [a * 4 + b / 16, (b % 16) * 16 + c / 4]
  | [a, b] => [a * 4 + b / 16]
  | _ => []

/-- The six-bit numbers of a text, `none` when a character is outside the alphabet. -/
def sextetsOfText : JSString → Option (List Nat)
  | [] => some []
  | c :: cs =>
    match b64Index c, sextetsOfText cs with
    | some i, some rest => some (i :: rest)
    | _, _ => none

/-- The function `atob`, the forgiving base64 decoding of the HTML standard:
ASCII white space is removed; if the length is then a multiple of four, up to
two `=` at the end are removed; a length of one more than a multiple of four, or
any character outside the alphabet, is an `InvalidCharacterError`. -/
def atob (data : JSString) : Except JSError JSString :=
  let d1 := data.filter (fun c => !isAsciiWhitespace c)
  let d2 := if d1.length % 4 = 0 then stripPadding d1 else d1
  if d2.length % 4 = 1 then .error invalidCharacterError
  else
    match sextetsOfText d2 with
    | none => .error invalidCharacterError
    | some sextets => .ok ((decodeSextets sextets).map Char.ofNat)
/-! ## String conversion -/

/-- The decimal digits of a natural number, `fuel` bounding their count. -/
def natDigits : Nat → Nat → List Char → List Char
  | 0, _, acc => acc
  | fuel + 1, n, acc =>
    let acc := Char.ofNat (48 + n % 10) :: acc
    if n / 10 = 0 then acc else natDigits fuel (n / 10) acc

/-- The decimal text of a natural number. -/
def natToString (n : Nat) : JSString := natDigits 40 n []

/-- The decimal text of an integer. -/
def intToString : Int → JSString
  | .ofNat n => natToString n
  | .negSucc n => '-' :: natToString (n + 1)

mutual
/-- The conversion to a string that a template literal applies. An integer is
written in decimal, which is the text of JavaScript for the integers below 10^21
that a number holds exactly. -/
def toStr : JSValue → JSString
  | .undefined => "undefined".toList
  | .null => "null".toList
  | .bool true => "true".toList
  | .bool false => "false".toList
  | .num n => intToString n
  | .str s => s
  | .arr items => join ",".toList (toStrItems items)
  | .obj _ => "[object Object]".toList
/-- The texts of the items of an array as `Array.prototype.join` takes them. -/
def toStrItems : List JSValue → List JSString
  | [] => []
  | .undefined :: rest => [] :: toStrItems rest
  | .null :: rest => [] :: toStrItems rest
  | v :: rest => toStr v :: toStrItems rest
end
/-! ## Platform and configuration -/

/-- The platform functions the worker calls and this development does not
define: they are parameters, and every theorem holds for each of them. -/
structure Runtime where
  /-- The function `JSON.stringify` on a value that has a JSON text. -/
  stringify : JSValue → JSString
  /-- The function `JSON.parse`: the value, or the `SyntaxError` it throws. -/
  parse : JSString → Except JSError JSValue
  /-- HMAC-SHA-256 of the UTF-8 bytes of a text under the UTF-8 bytes of a secret:
  `crypto.subtle.importKey` followed by the computation of the code, or the
  error with which the key is refused. -/
  hmac : JSString → JSString → Except JSError (List Nat)
  /-- The conversion to a number of a string, an array or an object, `none`
  standing for `NaN`. -/
  toNumber : JSValue → Option Int
  /-- The text `new Date(ms).toISOString()`. -/
  toISOString : Nat → JSString
  /-- The function `encodeURIComponent` on a value: the escaped text of the string
  of the value, or the `URIError` that is thrown when that string has a lone
  surrogate. -/
  encodeURIComponent : JSValue → Except JSError JSString
  /-- The function `unescape`. -/
  unescape : JSString → JSString
  /-- The largest number of arguments that a call can take: a call with a
  spread of more elements throws a `RangeError`. -/
  maxArguments : Nat

/-- The bindings of the worker: its secrets and configuration. -/
structure Env where
  GITHUB_TOKEN : JSString
  AUTH_SECRET : JSString
  ALLOWED_EMAILS : JSString
  GITHUB_REPO : JSString

/-- The comparison `v < Date.now()`: both sides are converted to numbers, and
a comparison with `NaN` is false. -/
def lessThanNow (rt : Runtime) (v : JSValue) (now : Nat) : Bool :=
  match v with
  | .undefined => false
  | .null => decide ((0 : Int) < now)
  | .bool b => decide ((if b then 1 else 0 : Int) < now)
  | .num n => decide (n < (now : Int))
  | v =>
    match rt.toNumber v with
    | none => false
    | some n => decide (n < (now : Int))

/-! ## Session tokens -/

/-- Seven days in milliseconds: `7 * 24 * 60 * 60 * 1000`. -/
def sevenDays : Nat := 7 * 24 * 60 * 60 * 1000

/-- The object `{ email, exp: Date.now() + 7 * 24 * 60 * 60 * 1000 }`. -/
def tokenPayload (email : JSValue) (now : Nat) : JSValue :=
  .obj [("email".toList, email), ("exp".toList, .num ((now + sevenDays : Nat) : Int))]

/-- The bytes of a signature as a `Uint8Array` holds them. -/
def asBytes (signature : List Nat) : List Nat := signature.map (· % 256)

/-- The call `String.fromCharCode(...bytes)` on the bytes of a `Uint8Array`: every
byte is one argument of the call, and the call throws a `RangeError` when there
are more bytes than a call can take arguments. -/
def fromCharCodes (rt : Runtime) (bytes : List Nat) : Except JSError JSString :=
  if rt.maxArguments < bytes.length then .error rangeError
  else .ok (bytes.map Char.ofNat)

/-- The function `generateToken` at clock time `now`: the promise is rejected
when the key is refused or `btoa` throws. The signature of HMAC-SHA-256 has 32
bytes, which the call `String.fromCharCode(...)` takes as arguments on every
platform. -/
def generateToken (rt : Runtime) (env : Env) (now : Nat) (email : JSValue) :
    Except JSError JSString := do
  let payload := tokenPayload email now
  let data := rt.stringify payload
  let signature ← rt.hmac env.AUTH_SECRET data
  let base64Signature ← btoa ((asBytes signature).map Char.ofNat)
  let base64Payload ← btoa (rt.stringify payload)
  pure (base64Payload ++ '.' :: base64Signature)

/-- The element `parts[i]` of an array of strings. -/
def partAt (parts : List JSString) (i : Nat) : JSValue :=
  match parts.get? i with
  | some s => .str s
  | none => .undefined

/-- The body of the `try` block of `verifyToken`. -/
def verifyTokenBody (rt : Runtime) (env : Env) (now : Nat) (token : JSString) :
    Except JSError JSValue := do
  let parts := split '.' token
  let payloadB64 := partAt parts 0
  let signatureB64 := partAt parts 1
  let payload ← rt.parse (← atob (toStr payloadB64))
  let exp ← getField payload "exp".toList
  if lessThanNow rt exp now then pure .null
  else do
    let data := rt.stringify payload
    let mac ← rt.hmac env.AUTH_SECRET data
    let signature ← atob (toStr signatureB64)
    let valid := decide (signature.map Char.toNat = asBytes mac)
    pure (if valid then payload else .null)

/-- The function `verifyToken` at clock time `now`. -/
def verifyToken (rt : Runtime) (env : Env) (now : Nat) (token : JSString) :
    Except JSError JSValue :=
  if token = [] then .ok .null
  else tryCatch (verifyTokenBody rt env now token) (fun _ => .ok .null)

/-- The text that `verifyToken` decodes as the payload: `token.split('.')[0]`. -/
def payloadSegment (token : JSString) : JSString := toStr (partAt (split '.' token) 0)

/-- The text that `verifyToken` decodes as the signature: `token.split('.')[1]`,
which is `undefined` for a token without a dot. -/
def signatureSegment (token : JSString) : JSString := toStr (partAt (split '.' token) 1)

/-! ## UTF-8 -/

/-- The UTF-8 bytes of a character. -/
def utf8EncodeChar (c : Char) : List Nat :=
  let n := c.toNat
  if n < 0x80 then [n]
  else if n < 0x800 then [0xC0 + n / 64, 0x80 + n % 64]
  else if n < 0x10000 then [0xE0 + n / 4096, 0x80 + (n / 64) % 64, 0x80 + n % 64]
  else [0xF0 + n / 262144, 0x80 + (n / 4096) % 64, 0x80 + (n / 64) % 64, 0x80 + n % 64]

/-- The UTF-8 bytes of a string, as `TextEncoder` and `encodeURIComponent` give them. -/
def utf8Encode (s : JSString) : List Nat := s.flatMap utf8EncodeChar

/-! ## Requests, responses and the content host -/

/-- A file of a multipart form: its name and its bytes. -/
structure FormFile where
  name : JSString
  bytes : List Nat
  deriving DecidableEq, Repr

/-- The fields of a multipart form that the worker reads: `formData.get('file')`
and `formData.get('date')`, `none` standing for `null`. -/
structure FormData where
  file : Option FormFile
  date : Option JSString
  deriving DecidableEq, Repr

/-- An incoming request: its method, the path of its URL, its `Authorization`
header (`none` when the header is absent), and the outcomes of `request.json()`
and `request.formData()`. -/
structure Request where
  method : JSString
  pathname : JSString
  authorization : Option JSString
  json : Except JSError JSValue
  formData : Except JSError FormData

/-- A response: its status, the value whose JSON text is its body (`none` for
an empty body) and its headers. -/
structure Response where
  status : Nat
  body : Option JSValue
  headers : Props JSString
  deriving DecidableEq

/-- The constant `CORS_HEADERS`. -/
def CORS_HEADERS : Props JSString :=
  [("Access-Control-Allow-Origin".toList, "*".toList),
   ("Access-Control-Allow-Methods".toList, "GET, POST, PUT, DELETE, OPTIONS".toList),
   ("Access-Control-Allow-Headers".toList, "Content-Type, Authorization".toList)]

/-- The function `jsonResponse`. -/
def jsonResponse (data : JSValue) (status : Nat) : Response :=
  { status := status,
    body := some data,
    headers := ("Content-Type".toList, "application/json".toList) :: CORS_HEADERS }

/-- The object `{ error: message }`. -/
def errorBody (message : JSString) : JSValue := .obj [("error".toList, .str message)]

/-- A call to `fetch`: the URL, the method, the headers and the value whose JSON
text is the body. -/
structure FetchCall where
  url : JSString
  method : JSString
  headers : Props JSString
  body : Option JSValue
  deriving DecidableEq

/-- What `fetch` resolves to: the flag `response.ok` and the outcomes of
`response.text()` and `response.json()`. -/
structure HttpResponse where
  ok : Bool
  text : Except JSError JSString
  json : Except JSError JSValue
  deriving DecidableEq

/-- The network as the worker sees it: the outcome of each call to `fetch`,
an error when the promise is rejected. -/
abbrev Upstream := FetchCall → Except JSError HttpResponse

/-- An `async` computation of the worker: from the network and the calls issued
so far to its outcome (the value its promise is fulfilled with, or the error it
is rejected with) and the calls issued up to its end. -/
def Async (α : Type) : Type := Upstream → List FetchCall → Except JSError α × List FetchCall

namespace Async

/-- A computation that is fulfilled at once. -/
def pure {α : Type} (a : α) : Async α := fun _ trace => (.ok a, trace)

/-- Sequencing, the meaning of `await`: a rejection ends the computation. -/
def bind {α β : Type} (m : Async α) (f : α → Async β) : Async β := fun up trace =>
  match m up trace with
  | (.ok a, trace) => f a up trace
  | (.error e, trace) => (.error e, trace)

/-- A pure step that can throw. -/
def ofExcept {α : Type} (x : Except JSError α) : Async α := fun _ trace => (x, trace)

/-- The statement `try { ... await m ... } catch (e) { handler }`. -/
def tryAwait {α : Type} (m : Async α) (handler : JSError → Async α) : Async α :=
  fun up trace =>
    match m up trace with
    | (.ok a, trace) => (.ok a, trace)
    | (.error e, trace) => handler e up trace

/-- The statement `try { return m } catch (e) { handler }` in an `async`
function, where `m` is a call of an `async` function that is not awaited. The
call itself never throws: it returns a promise, and the function is left with
that promise before the promise is settled. A rejection of `m` therefore rejects
the promise of the enclosing function, and the handler does not run. -/
def tryReturn {α : Type} (m : Async α) (_handler : JSError → Async α) : Async α := m

/-- A call to `fetch`, recorded in the trace. -/
def fetch (call : FetchCall) : Async HttpResponse := fun up trace => (up call, trace ++ [call])

/-- The elements of a list in turn, each awaited before the next. -/
def forEachM {α β : Type} (f : α → Async β) : List α → Async (List β)
  | [] => pure []
  | a :: rest => bind (f a) (fun b => bind (forEachM f rest) (fun bs => pure (b :: bs)))

end Async

instance : Monad Async where
  pure := Async.pure
  bind := Async.bind

/-! ## The gateway -/

/-- The method `allowedEmails.includes(email)`: only a string equals a string. -/
def includes (list : List JSString) (v : JSValue) : Bool :=
  match v with
  | .str s => decide (s ∈ list)
  | _ => false

/-- The function `handleLogin` at clock time `now`. -/
def handleLogin (rt : Runtime) (env : Env) (now : Nat) (request : Request) : Async Response :=
  if request.method ≠ "POST".toList then
    pure (jsonResponse (errorBody "Method not allowed".toList) 405)
  else do
    let body ← Async.ofExcept request.json
    let email ← Async.ofExcept (getField body "email".toList)
    let _password ← Async.ofExcept (getField body "password".toList)
    let allowedEmails := (split ',' env.ALLOWED_EMAILS).map trim
    if !includes allowedEmails email then
      pure (jsonResponse (errorBody "未授权的邮箱".toList) 401)
    else do
      let token ← Async.ofExcept (generateToken rt env now email)
      pure (jsonResponse (.obj [("token".toList, .str token), ("email".toList, email)]) 200)

/-- The function `requireAuth` followed by the `await` of its callers: an error
is thrown when the header is absent or empty; otherwise the result is that of
`verifyToken`. -/
def requireAuth (rt : Runtime) (env : Env) (now : Nat) (request : Request) :
    Except JSError JSValue :=
  match request.authorization with
  | none => .error (mkError "未授权".toList)
  | some authHeader =>
    if authHeader = [] then .error (mkError "未授权".toList)
    else verifyToken rt env now (replaceFirst "Bearer ".toList [] authHeader)

/-- The call to `fetch` that `githubRequest` issues. -/
def githubCall (env : Env) (path : JSString) (method : JSString) (body : Option JSValue) :
    FetchCall :=
  { url := "https://api.github.com".toList ++ path,
    method := method,
    headers :=
      [("Authorization".toList, "token ".toList ++ env.GITHUB_TOKEN),
       ("Accept".toList, "application/vnd.github.v3+json".toList),
       ("User-Agent".toList, "Minimal-Blog-Worker".toList)],
    body := body }

/-- The function `githubRequest`. -/
def githubRequest (env : Env) (path : JSString) (method : JSString) (body : Option JSValue) :
    Async JSValue := do
  let response ← Async.fetch (githubCall env path method body)
  if !response.ok then do
    let error ← Async.ofExcept response.text
    Async.ofExcept (.error (mkError ("GitHub API error: ".toList ++ error)))
  else Async.ofExcept response.json

/-- The path `/repos/${GITHUB_REPO}/contents/posts/${category}`. -/
def categoryPath (env : Env) (category : JSString) : JSString :=
  "/repos/".toList ++ env.GITHUB_REPO ++ "/contents/posts/".toList ++ category

/-- The path `/repos/${GITHUB_REPO}/contents/posts/${category}/${filename}`. -/
def postPath (env : Env) (category filename : JSString) : JSString :=
  "/repos/".toList ++ env.GITHUB_REPO ++ "/contents/posts/".toList ++ category ++
    '/' :: filename

/-- The entry of `allPosts` that `getPostsList` keeps for a listed file. -/
structure ListedPost where
  id : JSValue
  filename : JSString
  category : JSString
  date : JSString
  path : JSValue
  downloadUrl : JSValue
  deriving DecidableEq

/-- The match of `/^(\d{4}-\d{2}-\d{2})/` on a file name: the first group, or
the empty text when there is no match. -/
def datePrefix (name : JSString) : JSString :=
  match name with
  | y1 :: y2 :: y3 :: y4 :: '-' :: m1 :: m2 :: '-' :: d1 :: d2 :: _ =>
    if [y1, y2, y3, y4, m1, m2, d1, d2].all Char.isDigit then
      [y1, y2, y3, y4, '-', m1, m2, '-', d1, d2]
    else []
  | _ => []

/-- The iteration `for (const file of files)`: the items of an array or the
characters of a string; any other value is not iterable. -/
def iterate (files : JSValue) : Except JSError (List JSValue) :=
  match files with
  | .arr items => .ok items
  | .str s => .ok (s.map (fun c => .str [c]))
  | _ => .error (typeError "files is not iterable".toList)

/-- The body of the loop over the files of a category: the entry pushed for a
file whose name ends in `.md`, `none` for another file, and a `TypeError` when
`file.name` is not a string. -/
def listFile (category : JSString) (file : JSValue) : Except JSError (Option ListedPost) := do
  let name ← getField file "name".toList
  match name with
  | .str name =>
    if endsWith name ".md".toList then do
      let sha ← getField file "sha".toList
      let path ← getField file "path".toList
      let downloadUrl ← getField file "download_url".toList
      pure (some
        { id := sha,
          filename := name,
          category := category,
          date := datePrefix name,
          path := path,
          downloadUrl := downloadUrl })
    else pure none
  | _ => .error (typeError "file.name.endsWith is not a function".toList)

/-- The loop over the files of a category: `allPosts` after the loop, and the
error that ended the loop early, if one did. Entries pushed before the error
stay in `allPosts`. -/
def pushFiles (category : JSString) :
    List JSValue → List ListedPost → List ListedPost × Option JSError
  | [], allPosts => (allPosts, none)
  | file :: rest, allPosts =>
    match listFile category file with
    | .ok (some post) => pushFiles category rest (allPosts ++ [post])
    | .ok none => pushFiles category rest allPosts
    | .error e => (allPosts, some e)

/-- One turn of the loop over the categories: the `try` block lists the
directory and pushes its files, the `catch` block only logs. The result is
`allPosts` after the turn. -/
def listCategory (env : Env) (allPosts : List ListedPost) (category : JSString) :
    Async (List ListedPost) :=
  Async.tryAwait
    (do
      let files ← githubRequest env (categoryPath env category) "GET".toList none
      let items ← Async.ofExcept (iterate files)
      pure (pushFiles category items allPosts).1)
    (fun _ => pure allPosts)

/-- The spread `...metadata` into an object under construction. -/
def spreadInto (o : Props JSValue) (metadata : Props JSString) : Props JSValue :=
  metadata.foldl (fun acc kv => defineProp acc kv.1 (.str kv.2)) o

/-- The expression `a || b` for a property `a` of the metadata. -/
def orElse (a : Option JSString) (b : JSString) : JSString :=
  match a with
  | some s => if s ≠ [] then s else b
  | none => b

/-- The object that `getPostsList` returns for a listed file and its parsed text. -/
def listedPostObject (post : ListedPost) (parsed : Parsed) : JSValue :=
  .obj (spreadInto
    [("id".toList, post.id),
     ("filename".toList, .str post.filename),
     ("category".toList, .str post.category),
     ("date".toList, .str (orElse (getProp parsed.metadata "date".toList) post.date)),
     ("title".toList, .str (orElse (getProp parsed.metadata "title".toList)
        (replaceFirst ".md".toList [] post.filename))),
     ("content".toList, .str parsed.content)]
    parsed.metadata)

/-- The call to `fetch` that downloads a listed file. -/
def downloadCall (post : ListedPost) : FetchCall :=
  { url := toStr post.downloadUrl, method := "GET".toList, headers := [], body := none }

/-- The callback of `allPosts.map`: the post with its content, or `null`
(here `none`) when the download fails. -/
def fetchPost (post : ListedPost) : Async (Option JSValue) :=
  Async.tryAwait
    (do
      let r ← Async.fetch (downloadCall post)
      let content ← Async.ofExcept r.text
      let parsed := parseMarkdown content
      pure (some (listedPostObject post parsed)))
    (fun _ => pure none)

/-- The function `getPostsList`. The downloads are started in the order of
`allPosts`, and `Promise.all` keeps that order in its result. -/
def getPostsList (env : Env) : Async Response := do
  let allPosts ← listCategory env [] "diary".toList
  let allPosts ← listCategory env allPosts "tech".toList
  let allPosts ← listCategory env allPosts "life".toList
  let postsWithContent ← Async.forEachM fetchPost allPosts
  pure (jsonResponse (.obj [("posts".toList, .arr (postsWithContent.filterMap id))]) 200)

/-- The function `getPost`. -/
def getPost (env : Env) (category filename : JSString) : Async Response := do
  let file ← githubRequest env (postPath env category filename) "GET".toList none
  let encoded ← Async.ofExcept (getField file "content".toList)
  let content ← Async.ofExcept (atob (toStr encoded))
  let parsed := parseMarkdown content
  let sha ← Async.ofExcept (getField file "sha".toList)
  pure (jsonResponse
    (.obj [("post".toList, .obj (defineProp
      (spreadInto
        [("id".toList, sha), ("filename".toList, .str filename),
         ("category".toList, .str category)]
        parsed.metadata)
      "content".toList (.str parsed.content)))])
    200)

/-- The expression `btoa(unescape(encodeURIComponent(content)))`: it throws when
`encodeURIComponent` or `btoa` does. -/
def encodeContent (rt : Runtime) (content : JSValue) : Except JSError JSString := do
  let escaped ← rt.encodeURIComponent content
  btoa (rt.unescape escaped)

/-- The function `createNewPost`. -/
def createNewPost (rt : Runtime) (env : Env) (request : Request) : Async Response := do
  let body ← Async.ofExcept request.json
  let category ← Async.ofExcept (getField body "category".toList)
  let filename ← Async.ofExcept (getField body "filename".toList)
  let content ← Async.ofExcept (getField body "content".toList)
  let encoded ← Async.ofExcept (encodeContent rt content)
  let result ← githubRequest env (postPath env (toStr category) (toStr filename)) "PUT".toList
    (some (.obj
      [("message".toList, .str ("Create post: ".toList ++ toStr filename)),
       ("content".toList, .str encoded)]))
  pure (jsonResponse (.obj [("success".toList, .bool true), ("file".toList, result)]) 200)

/-- The function `updatePost`. -/
def updatePost (rt : Runtime) (env : Env) (request : Request) (category filename : JSString) :
    Async Response := do
  let body ← Async.ofExcept request.json
  let content ← Async.ofExcept (getField body "content".toList)
  let file ← githubRequest env (postPath env category filename) "GET".toList none
  let encoded ← Async.ofExcept (encodeContent rt content)
  let sha ← Async.ofExcept (getField file "sha".toList)
  let result ← githubRequest env (postPath env category filename) "PUT".toList
    (some (.obj
      [("message".toList, .str ("Update post: ".toList ++ filename)),
       ("content".toList, .str encoded),
       ("sha".toList, sha)]))
  pure (jsonResponse (.obj [("success".toList, .bool true), ("file".toList, result)]) 200)

/-- The function `deletePost`. -/
def deletePost (env : Env) (category filename : JSString) : Async Response := do
  let file ← githubRequest env (postPath env category filename) "GET".toList none
  let sha ← Async.ofExcept (getField file "sha".toList)
  let _result ← githubRequest env (postPath env category filename) "DELETE".toList
    (some (.obj
      [("message".toList, .str ("Delete post: ".toList ++ filename)),
       ("sha".toList, sha)]))
  pure (jsonResponse (.obj [("success".toList, .bool true)]) 200)

/-- The function `handlePosts`. The value that `requireAuth` resolves to is not
used. -/
def handlePosts (rt : Runtime) (env : Env) (now : Nat) (request : Request) : Async Response :=
  if request.method = "GET".toList then getPostsList env
  else if request.method = "POST".toList then do
    let _ ← Async.ofExcept (requireAuth rt env now request)
    createNewPost rt env request
  else pure (jsonResponse (errorBody "Method not allowed".toList) 405)

/-- The function `handlePost`. The value that `requireAuth` resolves to is not
used. -/
def handlePost (rt : Runtime) (env : Env) (now : Nat) (request : Request) (path : JSString) :
    Async Response :=
  let parts := (split '/' path).filter (fun p => p ≠ [])
  match parts with
  | [_, category, filename] =>
    if request.method = "GET".toList then getPost env category filename
    else if request.method = "PUT".toList then do
      let _ ← Async.ofExcept (requireAuth rt env now request)
      updatePost rt env request category filename
    else if request.method = "DELETE".toList then do
      let _ ← Async.ofExcept (requireAuth rt env now request)
      deletePost env category filename
    else pure (jsonResponse (errorBody "Method not allowed".toList) 405)
  | _ => pure (jsonResponse (errorBody "Invalid path".toList) 400)

/-- The last piece of a split text: `parts.pop()`. -/
def lastPiece (parts : List JSString) : JSString := parts.getLastD []

/-- The statements of `handleImageUpload` after the `await` of `requireAuth`, at
clock time `now`. -/
def uploadImage (rt : Runtime) (env : Env) (now : Nat) (request : Request) :
    Async Response := do
  let formData ← Async.ofExcept request.formData
  let today := (split 'T' (rt.toISOString now)).headD []
  let date := orElse formData.date today
  match formData.file with
  | none => pure (jsonResponse (errorBody "No file provided".toList) 400)
  | some file => do
    let ext := lastPiece (split '.' file.name)
    let filename := date ++ '-' :: natToString now ++ '.' :: ext
    let binary ← Async.ofExcept (fromCharCodes rt (asBytes file.bytes))
    let base64 ← Async.ofExcept (btoa binary)
    let result ← githubRequest env
      ("/repos/".toList ++ env.GITHUB_REPO ++ "/contents/images/".toList ++ filename)
      "PUT".toList
      (some (.obj
        [("message".toList, .str ("Upload image: ".toList ++ filename)),
         ("content".toList, .str base64)]))
    let content ← Async.ofExcept (getField result "content".toList)
    let downloadUrl ← Async.ofExcept (getField content "download_url".toList)
    pure (jsonResponse
      (.obj
        [("success".toList, .bool true),
         ("url".toList, .str ("../images/".toList ++ filename)),
         ("downloadUrl".toList, downloadUrl)])
      200)

/-- The function `handleImageUpload` at clock time `now`. The value that
`requireAuth` resolves to is not used. -/
def handleImageUpload (rt : Runtime) (env : Env) (now : Nat) (request : Request) :
    Async Response :=
  if request.method ≠ "POST".toList then
    pure (jsonResponse (errorBody "Method not allowed".toList) 405)
  else do
    let _ ← Async.ofExcept (requireAuth rt env now request)
    uploadImage rt env now request

/-- The function `handleRequest` at clock time `now`. Every branch of the `try`
block returns the promise of a handler without awaiting it. -/
def handleRequest (rt : Runtime) (env : Env) (now : Nat) (request : Request) : Async Response :=
  if request.method = "OPTIONS".toList then
    pure { status := 200, body := none, headers := CORS_HEADERS }
  else
    let path := request.pathname
    Async.tryReturn
      (if path = "/auth/login".toList then handleLogin rt env now request
       else if path = "/posts".toList then handlePosts rt env now request
       else if startsWith path "/posts/".toList then handlePost rt env now request path
       else if path = "/images".toList then handleImageUpload rt env now request
       else pure (jsonResponse (errorBody "Not Found".toList) 404))
      (fun error => pure (jsonResponse (errorBody error.message) 500))


/-! ## A reference platform

An executable platform for the examples: JSON texts of the values above,
HMAC-SHA-256 as FIPS 180-4 and RFC 2104 define it, and a fixed date text. -/

namespace Json

/-- A hexadecimal digit. -/
def hexDigit (n : Nat) : Char := "0123456789abcdef".toList.getD n '0'

/-- The value of a hexadecimal digit. -/
def hexValue (c : Char) : Option Nat :=
  let n := c.toNat
  if 48 ≤ n ∧ n ≤ 57 then some (n - 48)
  else if 97 ≤ n ∧ n ≤ 102 then some (n - 87)
  else if 65 ≤ n ∧ n ≤ 70 then some (n - 55)
  else none

/-- The text of a character inside a JSON string. -/
def escapeChar (c : Char) : JSString :=
  if c = '"' then ['\\', '"']
  else if c = '\\' then ['\\', '\\']
  else if c = '\x08' then ['\\', 'b']
  else if c = '\x0c' then ['\\', 'f']
  else if c = '\n' then ['\\', 'n']
  else if c = '\r' then ['\\', 'r']
  else if c = '\t' then ['\\', 't']
  else if c.toNat < 32 then ['\\', 'u', '0', '0', hexDigit (c.toNat / 16), hexDigit (c.toNat % 16)]
  else [c]

/-- A JSON string literal. -/
def quote (s : JSString) : JSString := '"' :: s.flatMap escapeChar ++ ['"']

mutual
/-- The JSON text of a value (`undefined` inside an array is written `null`). -/
def stringify : JSValue → JSString
  | .undefined => "null".toList
  | .null => "null".toList
  | .bool true => "true".toList
  | .bool false => "false".toList
  | .num n => intToString n
  | .str s => quote s
  | .arr items => '[' :: join ",".toList (stringifyItems items) ++ [']']
  | .obj props => '\x7b' :: join ",".toList (stringifyMembers props) ++ ['\x7d']
/-- The JSON texts of the items of an array. -/
def stringifyItems : List JSValue → List JSString
  | [] => []
  | v :: rest => stringify v :: stringifyItems rest
/-- The JSON texts of the members of an object; a member whose value is
`undefined` is left out. -/
def stringifyMembers : List (JSString × JSValue) → List JSString
  | [] => []
  | (_, .undefined) :: rest => stringifyMembers rest
  | (k, v) :: rest => (quote k ++ ':' :: stringify v) :: stringifyMembers rest
end

/-- JSON white space is skipped. -/
def skipWs (s : JSString) : JSString :=
  s.dropWhile (fun c => c == ' ' || c == '\t' || c == '\n' || c == '\r')

/-- The characters of a string literal after its opening quote, and the rest. -/
def parseStringBody : Nat → JSString → Option (JSString × JSString)
  | 0, _ => none
  | _ + 1, [] => none
  | _ + 1, '"' :: rest => some ([], rest)
  | fuel + 1, '\\' :: 'u' :: a :: b :: c :: d :: rest =>
    match hexValue a, hexValue b, hexValue c, hexValue d with
    | some a, some b, some c, some d =>
      (parseStringBody fuel rest).map
        (fun p => (Char.ofNat (((a * 16 + b) * 16 + c) * 16 + d) :: p.1, p.2))
    | _, _, _, _ => none
  | fuel + 1, '\\' :: e :: rest =>
    let plain : Option Char :=
      if e = '"' then some '"' else if e = '\\' then some '\\' else if e = '/' then some '/'
      else if e = 'b' then some '\x08' else if e = 'f' then some '\x0c'
      else if e = 'n' then some '\n' else if e = 'r' then some '\r'
      else if e = 't' then some '\t' else none
    match plain with
    | some ch => (parseStringBody fuel rest).map (fun p => (ch :: p.1, p.2))
    | none => none
  | fuel + 1, ch :: rest =>
    if ch.toNat < 32 ∨ ch = '\\' then none
    else (parseStringBody fuel rest).map (fun p => (ch :: p.1, p.2))

/-- The value of a run of decimal digits, and the rest. -/
def parseDigits : Nat → JSString → Nat × JSString
  | acc, [] => (acc, [])
  | acc, c :: rest =>
    if c.isDigit then parseDigits (acc * 10 + (c.toNat - 48)) rest else (acc, c :: rest)

/-- An integral number without a leading zero, fraction or exponent. -/
def parseNat (s : JSString) : Option (Nat × JSString) :=
  match s with
  | [] => none
  | c :: rest =>
    if !c.isDigit then none
    else
      let r := parseDigits 0 (c :: rest)
      let plain : Bool :=
        match r.2 with
        | [] => true
        | d :: _ => !(d == '.' || d == 'e' || d == 'E')
      let noLeadingZero : Bool :=
        match rest with
        | [] => true
        | d :: _ => !(c == '0' && d.isDigit)
      if plain && noLeadingZero then some r else none

mutual
/-- A JSON value at the head of a text, and the rest. -/
def parseValue : Nat → JSString → Option (JSValue × JSString)
  | 0, _ => none
  | fuel + 1, s =>
    match skipWs s with
    | 'n' :: 'u' :: 'l' :: 'l' :: rest => some (.null, rest)
    | 't' :: 'r' :: 'u' :: 'e' :: rest => some (.bool true, rest)
    | 'f' :: 'a' :: 'l' :: 's' :: 'e' :: rest => some (.bool false, rest)
    | '"' :: rest => (parseStringBody rest.length.succ rest).map (fun p => (.str p.1, p.2))
    | '[' :: rest =>
      match skipWs rest with
      | ']' :: rest => some (.arr [], rest)
      | _ => (parseItems fuel rest).map (fun p => (.arr p.1, p.2))
    | '\x7b' :: rest =>
      match skipWs rest with
      | '\x7d' :: rest => some (.obj [], rest)
      | _ =>
        (parseMembers fuel rest).map
          (fun p => (.obj (p.1.foldl (fun o m => defineProp o m.1 m.2) []), p.2))
    | '-' :: rest => (parseNat rest).map (fun p => (.num (-(p.1 : Int)), p.2))
    | rest => (parseNat rest).map (fun p => (.num (p.1 : Int), p.2))
/-- The items of an array after its opening bracket. -/
def parseItems : Nat → JSString → Option (List JSValue × JSString)
  | 0, _ => none
  | fuel + 1, s =>
    match parseValue fuel s with
    | none => none
    | some (v, rest) =>
      match skipWs rest with
      | ',' :: rest => (parseItems fuel rest).map (fun p => (v :: p.1, p.2))
      | ']' :: rest => some ([v], rest)
      | _ => none
/-- The members of an object after its opening brace, in the order of the text. -/
def parseMembers : Nat → JSString → Option (List (JSString × JSValue) × JSString)
  | 0, _ => none
  | fuel + 1, s =>
    match skipWs s with
    | '"' :: rest =>
      match parseStringBody rest.length.succ rest with
      | none => none
      | some (k, rest) =>
        match skipWs rest with
        | ':' :: rest =>
          match parseValue fuel rest with
          | none => none
          | some (v, rest) =>
            match skipWs rest with
            | ',' :: rest =>
              (parseMembers fuel rest).map (fun p => ((k, v) :: p.1, p.2))
            | '\x7d' :: rest => some ([(k, v)], rest)
            | _ => none
        | _ => none
    | _ => none
end

/-- The function `JSON.parse` on the texts of the values above. -/
def parse (s : JSString) : Except JSError JSValue :=
  match parseValue s.length.succ s with
  | some (v, rest) =>
    if skipWs rest = [] then .ok v
    else .error { name := "SyntaxError".toList, message := "Unexpected token".toList }
  | none => .error { name := "SyntaxError".toList, message := "Unexpected token".toList }

end Json

namespace Sha256

/-- The round constants. -/
def K : List Nat := [
  0x428a2f98, 0x71374491, 0xb5c0fbcf, 0xe9b5dba5, 0x3956c25b, 0x59f111f1, 0x923f82a4, 0xab1c5ed5,
  0xd807aa98, 0x12835b01, 0x243185be, 0x550c7dc3, 0x72be5d74, 0x80deb1fe, 0x9bdc06a7, 0xc19bf174,
  0xe49b69c1, 0xefbe4786, 0x0fc19dc6, 0x240ca1cc, 0x2de92c6f, 0x4a7484aa, 0x5cb0a9dc, 0x76f988da,
  0x983e5152, 0xa831c66d, 0xb00327c8, 0xbf597fc7, 0xc6e00bf3, 0xd5a79147, 0x06ca6351, 0x14292967,
  0x27b70a85, 0x2e1b2138, 0x4d2c6dfc, 0x53380d13, 0x650a7354, 0x766a0abb, 0x81c2c92e, 0x92722c85,
  0xa2bfe8a1, 0xa81a664b, 0xc24b8b70, 0xc76c51a3, 0xd192e819, 0xd6990624, 0xf40e3585, 0x106aa070,
  0x19a4c116, 0x1e376c08, 0x2748774c, 0x34b0bcb5, 0x391c0cb3, 0x4ed8aa4a, 0x5b9cca4f, 0x682e6ff3,
  0x748f82ee, 0x78a5636f, 0x84c87814, 0x8cc70208, 0x90befffa, 0xa4506ceb, 0xbef9a3f7, 0xc67178f2]

/-- The initial hash value. -/
def H0 : List Nat :=
  [0x6a09e667, 0xbb67ae85, 0x3c6ef372, 0xa54ff53a, 0x510e527f, 0x9b05688c, 0x1f83d9ab, 0x5be0cd19]

/-- A number as a word of 32 bits. -/
def w32 (x : Nat) : Nat := x % 4294967296

/-- Rotation of a word to the right. -/
def rotr (x n : Nat) : Nat := w32 ((x >>> n) ||| (x <<< (32 - n)))

/-- The message with the padding bit, the zeros and the bit length. -/
def pad (msg : List Nat) : List Nat :=
  let l := msg.length
  let zeros := (119 - l % 64) % 64
  let bits := l * 8
  msg ++ 0x80 :: List.replicate zeros 0 ++
    (List.range 8).map (fun i => (bits >>> (8 * (7 - i))) % 256)

/-- The first `n` big-endian words of a byte sequence. -/
def wordsOf : Nat → List Nat → List Nat
  | 0, _ => []
  | n + 1, a :: b :: c :: d :: rest => (((a * 256 + b) * 256 + c) * 256 + d) :: wordsOf n rest
  | _ + 1, _ => []

/-- The message schedule extended by `n` words, the newest word first. -/
def schedule : Nat → List Nat → List Nat
  | 0, w => w
  | n + 1, w =>
    let w2 := w.getD 1 0
    let w7 := w.getD 6 0
    let w15 := w.getD 14 0
    let w16 := w.getD 15 0
    let s0 := rotr w15 7 ^^^ rotr w15 18 ^^^ (w15 >>> 3)
    let s1 := rotr w2 17 ^^^ rotr w2 19 ^^^ (w2 >>> 10)
    schedule n (w32 (w16 + s0 + w7 + s1) :: w)

/-- The eight working variables. -/
structure Vars where
  a : Nat
  b : Nat
  c : Nat
  d : Nat
  e : Nat
  f : Nat
  g : Nat
  h : Nat

/-- One round of the compression function. -/
def round (s : Vars) (k w : Nat) : Vars :=
  let s1 := rotr s.e 6 ^^^ rotr s.e 11 ^^^ rotr s.e 25
  let ch := (s.e &&& s.f) ^^^ ((4294967295 - s.e) &&& s.g)
  let t1 := w32 (s.h + s1 + ch + k + w)
  let s0 := rotr s.a 2 ^^^ rotr s.a 13 ^^^ rotr s.a 22
  let maj := (s.a &&& s.b) ^^^ (s.a &&& s.c) ^^^ (s.b &&& s.c)
  let t2 := w32 (s0 + maj)
  ⟨w32 (t1 + t2), s.a, s.b, s.c, w32 (s.d + t1), s.e, s.f, s.g⟩

/-- The rounds over the constants and the schedule. -/
def rounds : Vars → List Nat → List Nat → Vars
  | s, k :: ks, w :: ws => rounds (round s k w) ks ws
  | s, _, _ => s

/-- The compression of one block of 64 bytes into the hash value. -/
def compress (h : List Nat) (block : List Nat) : List Nat :=
  let w := (schedule 48 (wordsOf 16 block).reverse).reverse
  let s0 : Vars :=
    ⟨h.getD 0 0, h.getD 1 0, h.getD 2 0, h.getD 3 0, h.getD 4 0, h.getD 5 0, h.getD 6 0,
      h.getD 7 0⟩
  let s := rounds s0 K w
  [w32 (s0.a + s.a), w32 (s0.b + s.b), w32 (s0.c + s.c), w32 (s0.d + s.d),
   w32 (s0.e + s.e), w32 (s0.f + s.f), w32 (s0.g + s.g), w32 (s0.h + s.h)]

/-- The compression of `n` blocks. -/
def blocks : Nat → List Nat → List Nat → List Nat
  | 0, h, _ => h
  | n + 1, h, msg => blocks n (compress h (msg.take 64)) (msg.drop 64)

/-- SHA-256 of a byte sequence: 32 bytes. -/
def hash (msg : List Nat) : List Nat :=
  let p := pad msg
  (blocks (p.length / 64) H0 p).flatMap
    (fun x => [(x >>> 24) % 256, (x >>> 16) % 256, (x >>> 8) % 256, x % 256])

/-- HMAC-SHA-256 of a message under a key. -/
def hmac (key msg : List Nat) : List Nat :=
  let k := if key.length > 64 then hash key else key
  let k := k ++ List.replicate (64 - k.length) 0
  hash (k.map (· ^^^ 0x5c) ++ hash (k.map (· ^^^ 0x36) ++ msg))

end Sha256

/-- The days from 1970-01-01 to a date as year, month, day of the proleptic
Gregorian calendar. -/
def civilFromDays (z : Nat) : Nat × Nat × Nat :=
  let z := z + 719468
  let era := z / 146097
  let doe := z % 146097
  let yoe := (doe - doe / 1460 + doe / 36524 - doe / 146096) / 365
  let doy := doe - (365 * yoe + yoe / 4 - yoe / 100)
  let mp := (5 * doy + 2) / 153
  let d := doy - (153 * mp + 2) / 5 + 1
  let m := if mp < 10 then mp + 3 else mp - 9
  let y := yoe + era * 400 + (if m ≤ 2 then 1 else 0)
  (y, m, d)

/-- A number in decimal with at least `width` digits. -/
def padded (width n : Nat) : JSString :=
  let s := natToString n
  List.replicate (width - s.length) '0' ++ s

/-- The text `new Date(ms).toISOString()` for a time from 1970 on. -/
def isoString (ms : Nat) : JSString :=
  let (y, m, d) := civilFromDays (ms / 86400000)
  let r := ms % 86400000
  padded 4 y ++ '-' :: padded 2 m ++ '-' :: padded 2 d ++ 'T' :: padded 2 (r / 3600000) ++
    ':' :: padded 2 (r / 60000 % 60) ++ ':' :: padded 2 (r / 1000 % 60) ++
    '.' :: padded 3 (r % 1000) ++ ['Z']

/-- The number a decimal text stands for, `none` for any other text. -/
def decimalNumber (v : JSValue) : Option Int :=
  let s := trim (toStr v)
  match s with
  | [] => some 0
  | '-' :: rest => if rest ≠ [] ∧ rest.all Char.isDigit then some (-((Json.parseDigits 0 rest).1 : Int)) else none
  | _ => if s.all Char.isDigit then some ((Json.parseDigits 0 s).1 : Int) else none

namespace Uri

/-- Whether a byte is a character that `encodeURIComponent` leaves as it is:
a letter, a digit, or one of `-`, `_`, `.`, `!`, `~`, `*`, the apostrophe, `(`
and `)`. -/
def unreserved (b : Nat) : Bool :=
  (65 ≤ b && b ≤ 90) || (97 ≤ b && b ≤ 122) || (48 ≤ b && b ≤ 57) ||
  [45, 95, 46, 33, 126, 42, 39, 40, 41].contains b

/-- A hexadecimal digit in upper case. -/
def upperHex (n : Nat) : Char := "0123456789ABCDEF".toList.getD n '0'

/-- The text `encodeURIComponent(s)` for a string of Unicode characters: every
byte of the UTF-8 form that is not left as it is becomes `%XX`. -/
def encodeComponent (s : JSString) : JSString :=
  (utf8Encode s).flatMap (fun b =>
    if unreserved b then [Char.ofNat b] else ['%', upperHex (b / 16), upperHex (b % 16)])

/-- The function `unescape`, `fuel` bounding the number of steps: `%uXXXX` and
`%XX` with hexadecimal digits become the character of that code, every other
character stays. -/
def unescapeAux : Nat → JSString → JSString
  | 0, s => s
  | _ + 1, [] => []
  | fuel + 1, '%' :: rest =>
    match rest with
    | 'u' :: a :: b :: c :: d :: rest' =>
      match Json.hexValue a, Json.hexValue b, Json.hexValue c, Json.hexValue d with
      | some x, some y, some z, some w =>
        Char.ofNat (((x * 16 + y) * 16 + z) * 16 + w) :: unescapeAux fuel rest'
      | _, _, _, _ => '%' :: unescapeAux fuel rest
    | a :: b :: rest' =>
      match Json.hexValue a, Json.hexValue b with
      | some x, some y => Char.ofNat (x * 16 + y) :: unescapeAux fuel rest'
      | _, _ => '%' :: unescapeAux fuel rest
    | _ => '%' :: unescapeAux fuel rest
  | fuel + 1, c :: rest => c :: unescapeAux fuel rest

/-- The function `unescape`. -/
def unescape (s : JSString) : JSString := unescapeAux s.length s

end Uri

/-- The reference platform. Its `encodeURIComponent` takes the string of a value
from `toStr`, which is the string of JavaScript for the values of the examples:
strings of Unicode characters. A call takes up to 125000 arguments, about what a
stack of one megabyte holds. -/
def referenceRuntime : Runtime where
  stringify := Json.stringify
  parse := Json.parse
  hmac := fun secret data => .ok (Sha256.hmac (utf8Encode secret) (utf8Encode data))
  toNumber := decimalNumber
  toISOString := isoString
  encodeURIComponent := fun v => .ok (Uri.encodeComponent (toStr v))
  unescape := Uri.unescape
  maxArguments := 125000


/-! ## A sample deployment -/

/-- A sample configuration. -/
def sampleEnv : Env :=
  { GITHUB_TOKEN := "ghp_example".toList,
    AUTH_SECRET := "secret".toList,
    ALLOWED_EMAILS := "admin@example.com, user@example.com".toList,
    GITHUB_REPO := "owner/blog".toList }

/-- A sample time of issue: 2023-11-14T22:13:20.000Z. -/
def sampleTime : Nat := 1700000000000

/-- The token that `generateToken` issues to `admin@example.com` at `sampleTime`
under `sampleEnv`. -/
def sampleToken : JSString :=
  ("eyJlbWFpbCI6ImFkbWluQGV4YW1wbGUuY29tIiwiZXhwIjoxNzAwNjA0ODAwMDAwfQ==" ++
    ".LpFy12uBNPcO+Tf54zmKHaLisp/nW4+AplSST+VYW6s=").toList

/-- The payload of `sampleToken`. -/
def samplePayload : JSValue := tokenPayload (.str "admin@example.com".toList) sampleTime

/-- A token whose payload segment is the base64 of the JSON text `5` and whose
signature segment is the base64 of the HMAC of that text under `secret`. -/
def numberToken : JSString := "NQ==.0xI6cFK0InLZtSAjUAjCSKWv8yIcwMUwt1RwKtkasQI=".toList

/-! ## The shapes of a document -/

/-- A line of the form `key: value`: a text without a line break that has a colon. -/
def IsKeyValueLine (line : JSString) : Prop := '\n' ∉ line ∧ ':' ∈ line

/-- The shape in the words of the specification: a delimiter line `---`, one or
more `key: value` lines, a delimiter line `---`, and a body. -/
def HasKeyValueFrontMatter (s : JSString) : Prop :=
  ∃ (lines : List JSString) (body : JSString),
    lines ≠ [] ∧ (∀ line ∈ lines, IsKeyValueLine line) ∧
    s = "---\n".toList ++ join "\n".toList lines ++ "\n---\n".toList ++ body

/-- The shape that the regular expression of `parseMarkdown` describes: a
delimiter line `---`, one or more characters of any kind, a line break and a
delimiter line `---`, and a body. -/
def HasDelimitedBlock (s : JSString) : Prop :=
  ∃ (block body : JSString),
    block ≠ [] ∧ s = "---\n".toList ++ block ++ "\n---\n".toList ++ body

/-! ## A sample content host and sample requests -/

/-- A file descriptor of a directory listing. -/
def sampleFile (directory name sha : JSString) : JSValue :=
  .obj
    [("name".toList, .str name),
     ("path".toList, .str (directory ++ '/' :: name)),
     ("sha".toList, .str sha),
     ("download_url".toList, .str ("https://raw.example/".toList ++ directory ++ '/' :: name))]

/-- A successful answer of the content host with a JSON body. -/
def jsonAnswer (v : JSValue) : Except JSError HttpResponse :=
  .ok { ok := true, text := .ok (Json.stringify v), json := .ok v }

/-- A successful download of a text. -/
def textAnswer (text : JSString) : Except JSError HttpResponse :=
  .ok
    { ok := true,
      text := .ok text,
      json := .error { name := "SyntaxError".toList, message := "Unexpected token".toList } }

/-- A sample content host. The directory `posts/diary` is missing (status 404);
`posts/tech` holds `a.md`, `notes.txt` and `b.md`; `posts/life` holds `c.md`.
The download of `b.md` fails on the network. Every other read is answered with
a file object and every write with the object of the written file. -/
def sampleUpstream : Upstream := fun call =>
  if call.url = "https://api.github.com/repos/owner/blog/contents/posts/diary".toList then
    .ok { ok := false, text := .ok "Not Found".toList, json := .ok (.obj []) }
  else if call.url = "https://api.github.com/repos/owner/blog/contents/posts/tech".toList then
    jsonAnswer (.arr
      [sampleFile "posts/tech".toList "2024-01-01-a.md".toList "sha-a".toList,
       sampleFile "posts/tech".toList "notes.txt".toList "sha-n".toList,
       sampleFile "posts/tech".toList "b.md".toList "sha-b".toList])
  else if call.url = "https://api.github.com/repos/owner/blog/contents/posts/life".toList then
    jsonAnswer (.arr [sampleFile "posts/life".toList "2024-02-02-c.md".toList "sha-c".toList])
  else if call.url = "https://raw.example/posts/tech/2024-01-01-a.md".toList then
    textAnswer "---\ntitle: A\n---\n\nHello".toList
  else if call.url = "https://raw.example/posts/tech/b.md".toList then
    .error (typeError "fetch failed".toList)
  else if call.url = "https://raw.example/posts/life/2024-02-02-c.md".toList then
    textAnswer "no front matter".toList
  else if call.method = "GET".toList then
    jsonAnswer (.obj
      [("sha".toList, .str "sha-1".toList),
       ("content".toList, .str "LS0tCnRpdGxlOiBUCi0tLQoKaGk=\n".toList)])
  else
    jsonAnswer (.obj
      [("content".toList, .obj
        [("sha".toList, .str "sha-2".toList),
         ("download_url".toList, .str "https://raw.example/new".toList)])])

/-- The outcome of `request.formData()` for a request without a form. -/
def noForm : Except JSError FormData := .error (typeError "not a form".toList)

/-- The request `PUT /posts/tech/2024-01-01-test.md` without an `Authorization`
header. -/
def putWithoutCredential : Request :=
  { method := "PUT".toList,
    pathname := "/posts/tech/2024-01-01-test.md".toList,
    authorization := none,
    json := .ok (.obj [("content".toList, .str "hi".toList)]),
    formData := noForm }

/-- The request `POST /posts` with an `Authorization` header whose token is no
token. -/
def postWithBadToken : Request :=
  { method := "POST".toList,
    pathname := "/posts".toList,
    authorization := some "Bearer invalid".toList,
    json := .ok (.obj
      [("category".toList, .str "tech".toList),
       ("filename".toList, .str "2024-01-01-test.md".toList),
       ("content".toList, .str "hi".toList)]),
    formData := noForm }

/-- The request `POST /auth/login` with an email. -/
def loginRequest (email : JSString) : Request :=
  { method := "POST".toList,
    pathname := "/auth/login".toList,
    authorization := none,
    json := .ok (.obj [("email".toList, .str email), ("password".toList, .str "x".toList)]),
    formData := noForm }

/-- A configuration whose allow-list holds an address with characters above U+00FF. -/
def unicodeEnv : Env :=
  { GITHUB_TOKEN := "ghp_example".toList,
    AUTH_SECRET := "secret".toList,
    ALLOWED_EMAILS := "admin@example.com, 用户@example.com".toList,
    GITHUB_REPO := "owner/blog".toList }

/-- The route `/posts/{category}/{filename}`. -/
def postRoute (category filename : JSString) : JSString :=
  "/posts/".toList ++ category ++ '/' :: filename

/-! ## The list of posts, as the specification describes it -/

/-- The categories, in the order in which `getPostsList` lists them. -/
def categories : List JSString := ["diary".toList, "tech".toList, "life".toList]

/-- The outcome of the listing call for a category: the JSON value of the answer,
or the error of a failed call. -/
def listingOutcome (env : Env) (up : Upstream) (category : JSString) : Except JSError JSValue :=
  (githubRequest env (categoryPath env category) "GET".toList none up []).1

/-- The name of a listed file. -/
def fileName (file : JSValue) : JSString :=
  match getField file "name".toList with
  | .ok (.str name) => name
  | _ => []

/-- A property of a listed file, `undefined` when it has none. -/
def fieldOf (file : JSValue) (k : JSString) : JSValue :=
  match getField file k with
  | .ok v => v
  | .error _ => .undefined

/-- Whether a value is a file descriptor: it has a name that is a string. -/
def isFileDescriptor (file : JSValue) : Bool :=
  match getField file "name".toList with
  | .ok (.str _) => true
  | _ => false

/-- Whether a listing is well formed: if it can be iterated, its items are file
descriptors. -/
def wellFormedListing (listing : JSValue) : Bool :=
  match iterate listing with
  | .ok items => items.all isFileDescriptor
  | .error _ => true

/-- Whether the listings that the content host gives for the three categories
are well formed. -/
def listingsWellFormed (env : Env) (up : Upstream) : Bool :=
  categories.all (fun category =>
    match listingOutcome env up category with
    | .ok listing => wellFormedListing listing
    | .error _ => true)

/-- The entry of a listed file. -/
def entryOf (category : JSString) (file : JSValue) : ListedPost :=
  { id := fieldOf file "sha".toList,
    filename := fileName file,
    category := category,
    date := datePrefix (fileName file),
    path := fieldOf file "path".toList,
    downloadUrl := fieldOf file "download_url".toList }

/-- The files named `*.md` of a category, in listing order: none when the
listing call failed or its answer cannot be iterated. -/
def markdownFiles (env : Env) (up : Upstream) (category : JSString) : List ListedPost :=
  match listingOutcome env up category with
  | .error _ => []
  | .ok listing =>
    match iterate listing with
    | .error _ => []
    | .ok items =>
      (items.filter (fun file => endsWith (fileName file) ".md".toList)).map (entryOf category)

/-- The text of a listed file whose download succeeded, in the words of the
specification: `fetch` is fulfilled with a response of a success status
(`response.ok`) and the text of the response can be read. A download that fails
in any of these ways has no text. -/
def downloadOutcome (up : Upstream) (post : ListedPost) : Option JSString :=
  match up (downloadCall post) with
  | .error _ => none
  | .ok response =>
    if response.ok then
      match response.text with
      | .ok text => some text
      | .error _ => none
    else none

/-- The posts of the answer as the specification describes them: over the
categories in order and the files named `*.md` of each in listing order, the
post of every file whose download succeeded. -/
def expectedPosts (env : Env) (up : Upstream) : List JSValue :=
  (categories.flatMap (markdownFiles env up)).filterMap (fun post =>
    (downloadOutcome up post).map (fun text => listedPostObject post (parseMarkdown text)))

/-! ## The list of posts, as `getPostsList` computes it -/

/-- The expression `await fetch(post.downloadUrl).then(r => r.text())` of the
callback of `getPostsList`: the text of the response, whatever its status, or
the error of `fetch` or of `text()`. The status of the response is not looked
at. -/
def downloadedText (up : Upstream) (post : ListedPost) : Except JSError JSString :=
  match up (downloadCall post) with
  | .error e => .error e
  | .ok response => response.text

/-- The value that the callback of `getPostsList` returns for a listed file: the
post, or `null` (here `none`) after an error. -/
def fetchedPost (up : Upstream) (post : ListedPost) : Option JSValue :=
  match downloadedText up post with
  | .ok text => some (listedPostObject post (parseMarkdown text))
  | .error _ => none

/-- The posts that `getPostsList` returns when the listings are well formed: over
the categories in order and the files named `*.md` of each in listing order, the
posts that the callback returns. -/
def returnedPosts (env : Env) (up : Upstream) : List JSValue :=
  (categories.flatMap (markdownFiles env up)).filterMap (fetchedPost up)

/-- A content host on which one download fails with a status: `posts/tech` holds
`2024-01-01-a.md`, the other categories are empty, and the download of the file
is answered with status 404 and the text `404: Not Found`. -/
def brokenDownloadUpstream : Upstream := fun call =>
  if call.url = "https://api.github.com/repos/owner/blog/contents/posts/tech".toList then
    jsonAnswer (.arr [sampleFile "posts/tech".toList "2024-01-01-a.md".toList "sha-a".toList])
  else if call.url = "https://raw.example/posts/tech/2024-01-01-a.md".toList then
    .ok
      { ok := false,
        text := .ok "404: Not Found".toList,
        json := .error { name := "SyntaxError".toList, message := "Unexpected token".toList } }
  else jsonAnswer (.arr [])

/-! ## Samples of failing handlers -/

/-- A content host that answers every call with status 404 and the text
`Not Found`. -/
def notFoundUpstream : Upstream := fun _ =>
  .ok
    { ok := false,
      text := .ok "Not Found".toList,
      json := .error { name := "SyntaxError".toList, message := "Unexpected token".toList } }

/-- The request `GET /posts/tech/missing.md`. -/
def getMissing : Request :=
  { method := "GET".toList,
    pathname := "/posts/tech/missing.md".toList,
    authorization := none,
    json := .error { name := "SyntaxError".toList, message := "Unexpected end of JSON input".toList },
    formData := noForm }

/-- The request `POST /auth/login` with a body that is not JSON. -/
def loginWithBadBody : Request :=
  { method := "POST".toList,
    pathname := "/auth/login".toList,
    authorization := none,
    json := .error { name := "SyntaxError".toList, message := "Unexpected token".toList },
    formData := noForm }
/-! ## The extension of a file name, as the specification describes it -/

/-- The text after the last `c` of a text, `none` when the text has no `c`. -/
def afterLast (c : Char) : JSString → Option JSString
  | [] => none
  | a :: rest =>
    match afterLast c rest with
    | some e => some e
    | none => if a = c then some rest else none

/-- An upload request: `POST /images` with an `Authorization` header and a form. -/
def uploadRequest (header : JSString) (form : FormData) : Request :=
  { method := "POST".toList,
    pathname := "/images".toList,
    authorization := some header,
    json := .error { name := "SyntaxError".toList, message := "Unexpected token".toList },
    formData := .ok form }

/-- A file without a `.` in its name. -/
def readmeFile : FormFile := { name := "README".toList, bytes := [137, 80, 78, 71] }

/-- The name of a stored image in the words of the specification, with the
extension read as the text after the last `.` of the original name when the
name has a `.`, and as the whole name when it has none: `{d}-{ms}.{ext}`, where
`d` is the date field of the form, or the date of the clock when the field is
absent or empty. -/
def storedImageName (rt : Runtime) (now : Nat) (form : FormData) (file : FormFile) : JSString :=
  orElse form.date ((split 'T' (rt.toISOString now)).headD []) ++
    '-' :: natToString now ++ '.' :: (afterLast '.' file.name).getD file.name

/-- The request `PUT /posts/tech/2024-01-01-test.md` with a credential and the
new content `hi`. -/
def putRequest : Request :=
  { method := "PUT".toList,
    pathname := "/posts/tech/2024-01-01-test.md".toList,
    authorization := some ("Bearer ".toList ++ sampleToken),
    json := .ok (.obj [("content".toList, .str "hi".toList)]),
    formData := noForm }

/-! ## The fields of a returned post, as the specification describes them -/

/-- Whether a text is a date `YYYY-MM-DD`: ten characters, a `-` at the fifth
and at the eighth place and a decimal digit at every other place. -/
def isDateShape (s : JSString) : Bool :=
  s.length == 10 &&
  (List.range 10).all (fun i =>
    match s.get? i with
    | some c => if i = 4 ∨ i = 7 then c == '-' else c.isDigit
    | none => false)

/-- The leading `YYYY-MM-DD` prefix of a file name, and the empty text when the
name has no such prefix. -/
def leadingDate (name : JSString) : JSString :=
  if isDateShape (name.take 10) then name.take 10 else []

/-- A field of a returned post that the front matter can override: the value of
the front-matter key of that name when there is one, the computed value
otherwise. -/
def overridden (metadata : Props JSString) (k : JSString) (computed : JSValue) : JSValue :=
  match getProp metadata k with
  | some v => .str v
  | none => computed

/-- A document whose front matter has the keys `id`, `filename` and `content`. -/
def overridingText : JSString :=
  "---\nid: mine\nfilename: other.md\ncontent: shadow\n---\nbody".toList

/-- A content host that answers every read with a file whose content is the
base64 text of `overridingText`. -/
def overridingUpstream : Upstream := fun _ =>
  jsonAnswer (.obj
    [("sha".toList, .str "sha-1".toList),
     ("content".toList,
      .str "LS0tCmlkOiBtaW5lCmZpbGVuYW1lOiBvdGhlci5tZApjb250ZW50OiBzaGFkb3cKLS0tCmJvZHk=".toList)])

/-- The request `PUT /posts/tech/2024-01-01-test.md` with a credential and a
body that is not JSON. -/
def putWithBadBody : Request :=
  { method := "PUT".toList,
    pathname := "/posts/tech/2024-01-01-test.md".toList,
    authorization := some ("Bearer ".toList ++ sampleToken),
    json := .error { name := "SyntaxError".toList, message := "Unexpected token".toList },
    formData := noForm }

/-- A file of 200000 bytes. -/
def largeFile : FormFile := { name := "big.png".toList, bytes := List.replicate 200000 0 }

/-! ## Replacements in a signature segment -/

/-- The replacements of one character of the 44-character signature segment
that leave the decoded signature as it is, by the position of the character
(counted from 0), the character `c` and its replacement `c'`: at position 42 a
character of the alphabet whose six bits differ from those of `c` only in the
two low bits, which `atob` drops; at position 43, the padding, a white space
character, which `atob` removes, or a dot, at which the segment ends. -/
def keepsSignature (position : Nat) (c c' : Char) : Bool :=
  (position == 42 &&
    (match b64Index c, b64Index c' with
     | some x, some y => x / 4 == y / 4
     | _, _ => false)) ||
  (position == 43 && (isAsciiWhitespace c' || c' == '.'))

/-! ## Lists of characters -/

theorem findFirst_here (pat s : JSString) (h : pat.isPrefixOf s = true) :
    findFirst pat s = some ([], s.drop pat.length) := by
  cases s with
  | nil =>
    cases pat with
    | nil => simp [findFirst]
    | cons a p => simp [List.isPrefixOf] at h
  | cons c cs => simp [findFirst, h]

theorem findFirst_skip (a : Char) (p seg tail : JSString) (h : a ∉ seg) :
    findFirst (a :: p) (seg ++ tail) =
      (findFirst (a :: p) tail).map (fun r => (seg ++ r.1, r.2)) := by
  induction seg with
  | nil => simp
  | cons c seg ih =>
    have hc : a ≠ c := fun e => h (by simp [e])
    have hs : a ∉ seg := fun e => h (by simp [e])
    simp [findFirst, List.isPrefixOf, hc, ih hs, Option.map_map, Function.comp_def]

theorem split_no_sep (sep : Char) (seg : JSString) (h : sep ∉ seg) :
    split sep seg = [seg] := by
  induction seg with
  | nil => simp [split]
  | cons c seg ih =>
    have hc : c ≠ sep := fun e => h (by simp [e])
    have hs : sep ∉ seg := fun e => h (by simp [e])
    simp [split, hc, ih hs]

theorem split_append_sep (sep : Char) (seg rest : JSString) (h : sep ∉ seg) :
    split sep (seg ++ sep :: rest) = seg :: split sep rest := by
  induction seg with
  | nil => simp [split]
  | cons c seg ih =>
    have hc : c ≠ sep := fun e => h (by simp [e])
    have hs : sep ∉ seg := fun e => h (by simp [e])
    simp [split, hc, ih hs]

theorem split_ne_nil (sep : Char) (s : JSString) : split sep s ≠ [] := by
  cases s with
  | nil => simp [split]
  | cons c cs =>
    simp only [split]
    split_ifs
    · simp
    · cases split sep cs <;> simp

theorem join_split (sep : Char) (s : JSString) : join [sep] (split sep s) = s := by
  induction s with
  | nil => simp [split, join]
  | cons c cs ih =>
    simp only [split]
    split_ifs with h
    · cases hs : split sep cs with
      | nil => exact absurd hs (split_ne_nil sep cs)
      | cons q qs => rw [hs] at ih; simp [join, ih, h]
    · cases hs : split sep cs with
      | nil => exact absurd hs (split_ne_nil sep cs)
      | cons q qs =>
        rw [hs] at ih
        cases qs with
        | nil => simp [join] at ih ⊢; exact ih
        | cons r rs => simp [join] at ih ⊢; exact ih

theorem trim_cons_ws (c : Char) (s : JSString) (h : isJSWhitespace c = true) :
    trim (c :: s) = trim s := by
  simp [trim, trimStart, List.dropWhile, h]

/-! ## The codec on the output of `formatMarkdown` -/

theorem formatMarkdown_eq (title date category content : JSString) :
    formatMarkdown title date category content =
      "---\n".toList ++ ('t' :: (("itle: ".toList ++ title) ++ ('\n' :: 'd' ::
        (("ate: ".toList ++ date) ++ ('\n' :: 'c' :: (("ategory: ".toList ++ category) ++
          ("\n---\n".toList ++ ('\n' :: content)))))))) := by
  simp [formatMarkdown]

theorem frontMatterRegex_formatMarkdown (title date category content : JSString)
    (ht : '\n' ∉ title) (hd : '\n' ∉ date) (hc : '\n' ∉ category) :
    frontMatterRegex (formatMarkdown title date category content) =
      some (frontMatterOf title date category, '\n' :: content) := by
  have h1 : '\n' ∉ "itle: ".toList ++ title := by simp [ht]
  have h2 : '\n' ∉ "ate: ".toList ++ date := by simp [hd]
  have h3 : '\n' ∉ "ategory: ".toList ++ category := by simp [hc]
  have e : "\n---\n".toList = '\n' :: "---\n".toList := by simp
  rw [formatMarkdown_eq, frontMatterRegex]
  have hp : startsWith ("---\n".toList ++ ('t' :: (("itle: ".toList ++ title) ++ ('\n' :: 'd' ::
        (("ate: ".toList ++ date) ++ ('\n' :: 'c' :: (("ategory: ".toList ++ category) ++
          ("\n---\n".toList ++ ('\n' :: content)))))))))
        "---\n".toList = true := by
    simp [startsWith]
  rw [if_pos hp]
  have hdrop : ∀ r : JSString, ("---\n".toList ++ r).drop 4 = r := by intro r; simp
  rw [hdrop]
  simp only []
  rw [e, findFirst_skip _ _ _ _ h1]
  rw [findFirst]
  rw [if_neg (by simp [List.isPrefixOf])]
  rw [findFirst]
  rw [if_neg (by simp [List.isPrefixOf])]
  rw [findFirst_skip _ _ _ _ h2]
  rw [findFirst]
  rw [if_neg (by simp [List.isPrefixOf])]
  rw [findFirst]
  rw [if_neg (by simp [List.isPrefixOf])]
  rw [findFirst_skip _ _ _ _ h3]
  rw [findFirst_here _ _ (by simp)]
  simp [frontMatterOf]

/-- A line `key:value` whose key is not empty and has no colon is assigned as
`trim key ↦ trim value`. -/
theorem parseLine_key_value (metadata : Props JSString) (key value : JSString)
    (hk : ':' ∉ key) (hne : key ≠ []) :
    parseLine metadata (key ++ ':' :: value) =
      assignProp metadata (trim key) (trim value) := by
  have hj : join [':'] (split ':' value) = value := join_split ':' value
  simp [parseLine, split_append_sep ':' key value hk, hne, split_ne_nil, hj]

theorem parseLine_no_colon (metadata : Props JSString) (line : JSString) (h : ':' ∉ line) :
    parseLine metadata line = metadata := by
  simp [parseLine, split_no_sep ':' line h]

theorem split_frontMatterOf (title date category : JSString)
    (ht : '\n' ∉ title) (hd : '\n' ∉ date) (hc : '\n' ∉ category) :
    split '\n' (frontMatterOf title date category) =
      ["title: ".toList ++ title, "date: ".toList ++ date, "category: ".toList ++ category] := by
  have h1 : '\n' ∉ "title: ".toList ++ title := by simp [ht]
  have h2 : '\n' ∉ "date: ".toList ++ date := by simp [hd]
  have h3 : '\n' ∉ "category: ".toList ++ category := by simp [hc]
  have e : frontMatterOf title date category =
      ("title: ".toList ++ title) ++ '\n' :: (("date: ".toList ++ date) ++ '\n' ::
        ("category: ".toList ++ category)) := by
    simp [frontMatterOf]
  rw [e, split_append_sep _ _ _ h1, split_append_sep _ _ _ h2, split_no_sep _ _ h3]

/-- What `parseMarkdown` returns on the output of `formatMarkdown`. -/
theorem parseMarkdown_formatMarkdown (title date category content : JSString)
    (ht : '\n' ∉ title) (hd : '\n' ∉ date) (hc : '\n' ∉ category) :
    parseMarkdown (formatMarkdown title date category content) =
      { metadata := [("title".toList, trim title), ("date".toList, trim date),
          ("category".toList, trim category)],
        content := trim content } := by
  have l1 : ∀ md, parseLine md ("title: ".toList ++ title) =
      assignProp md "title".toList (trim title) := by
    intro md
    have := parseLine_key_value md "title".toList (' ' :: title) (by decide) (by decide)
    rw [trim_cons_ws _ _ (by decide)] at this
    have t : trim "title".toList = "title".toList := by decide
    rw [t] at this
    simpa using this
  have l2 : ∀ md, parseLine md ("date: ".toList ++ date) =
      assignProp md "date".toList (trim date) := by
    intro md
    have := parseLine_key_value md "date".toList (' ' :: date) (by decide) (by decide)
    rw [trim_cons_ws _ _ (by decide)] at this
    have t : trim "date".toList = "date".toList := by decide
    rw [t] at this
    simpa using this
  have l3 : ∀ md, parseLine md ("category: ".toList ++ category) =
      assignProp md "category".toList (trim category) := by
    intro md
    have := parseLine_key_value md "category".toList (' ' :: category) (by decide) (by decide)
    rw [trim_cons_ws _ _ (by decide)] at this
    have t : trim "category".toList = "category".toList := by decide
    rw [t] at this
    simpa using this
  rw [parseMarkdown, frontMatterRegex_formatMarkdown _ _ _ _ ht hd hc]
  simp only [split_frontMatterOf _ _ _ ht hd hc, List.foldl, l1, l2, l3]
  rw [trim_cons_ws _ _ (by decide)]
  have c1 : comesBefore "date".toList "title".toList = false := by decide
  have c2 : comesBefore "category".toList "title".toList = false := by decide
  have c3 : comesBefore "category".toList "date".toList = false := by decide
  have p1 : ¬ ("title".toList = "__proto__".toList) := by decide
  have p2 : ¬ ("date".toList = "__proto__".toList) := by decide
  have p3 : ¬ ("category".toList = "__proto__".toList) := by decide
  have n1 : ¬ ("title".toList = "date".toList) := by decide
  have n2 : ¬ ("title".toList = "category".toList) := by decide
  have n3 : ¬ ("date".toList = "category".toList) := by decide
  simp only [assignProp, defineProp, if_neg p1, if_neg p2, if_neg p3, if_neg n1, if_neg n2,
    if_neg n3, c1, c2, c3, Bool.false_and, Bool.false_eq_true, if_false]

/-! ## C1: the round trip of the front matter -/

/-- C1, as stated, fails: a title with a leading space has no line break, the
content `hi` has no `---` in it, and still the title read back by
`parseMarkdown` from the output of `formatMarkdown` is not the title written:
the value of a metadata line is trimmed. -/
theorem C1_counterexample_untrimmed_title :
    '\n' ∉ " a".toList ∧ '\n' ∉ "2024-01-01".toList ∧ '\n' ∉ "tech".toList ∧
    findFirst "---".toList "hi".toList = none ∧
    getProp (parseMarkdown (formatMarkdown " a".toList "2024-01-01".toList "tech".toList
      "hi".toList)).metadata "title".toList = some "a".toList ∧
    getProp (parseMarkdown (formatMarkdown " a".toList "2024-01-01".toList "tech".toList
      "hi".toList)).metadata "title".toList ≠ some " a".toList := by
  decide

/-- C1, amended: for every title, date and category without a line break and
every content, `parseMarkdown (formatMarkdown x)` has the content of `x` trimmed,
and its metadata binds `title`, `date` and `category` to the trimmed title, date
and category of `x`. -/
theorem C1_roundtrip_trimmed (title date category content : JSString)
    (ht : '\n' ∉ title) (hd : '\n' ∉ date) (hc : '\n' ∉ category) :
    (parseMarkdown (formatMarkdown title date category content)).content = trim content ∧
    getProp (parseMarkdown (formatMarkdown title date category content)).metadata
      "title".toList = some (trim title) ∧
    getProp (parseMarkdown (formatMarkdown title date category content)).metadata
      "date".toList = some (trim date) ∧
    getProp (parseMarkdown (formatMarkdown title date category content)).metadata
      "category".toList = some (trim category) := by
  rw [parseMarkdown_formatMarkdown title date category content ht hd hc]
  refine ⟨rfl, ?_, ?_, ?_⟩ <;> simp [getProp]

/-- C1, amended, at a post whose title carries white space on both sides. -/
theorem C1_roundtrip_trimmed_witness :
    (parseMarkdown (formatMarkdown " My post ".toList "2024-01-01".toList "tech".toList
      "\nHello\n".toList)).content = trim "\nHello\n".toList ∧
    getProp (parseMarkdown (formatMarkdown " My post ".toList "2024-01-01".toList "tech".toList
      "\nHello\n".toList)).metadata "title".toList = some (trim " My post ".toList) ∧
    getProp (parseMarkdown (formatMarkdown " My post ".toList "2024-01-01".toList "tech".toList
      "\nHello\n".toList)).metadata "date".toList = some (trim "2024-01-01".toList) ∧
    getProp (parseMarkdown (formatMarkdown " My post ".toList "2024-01-01".toList "tech".toList
      "\nHello\n".toList)).metadata "category".toList = some (trim "tech".toList) :=
  C1_roundtrip_trimmed " My post ".toList "2024-01-01".toList "tech".toList "\nHello\n".toList
    (by decide) (by decide) (by decide)

/-! ## Base64 -/

theorem b64Char_mem (n : Nat) : b64Char n ∈ b64Alphabet := by
  unfold b64Char
  by_cases h : n < b64Alphabet.length
  · rw [List.getD_eq_getElem _ _ h]
    exact List.getElem_mem _
  · rw [List.getD_eq_default _ _ (by omega)]
    decide

theorem b64Alphabet_plain :
    ∀ c ∈ b64Alphabet, c ≠ '=' ∧ c ≠ '.' ∧ isAsciiWhitespace c = false := by
  decide

theorem b64Char_ne_pad (n : Nat) : b64Char n ≠ '=' := (b64Alphabet_plain _ (b64Char_mem n)).1

theorem b64Char_ne_dot (n : Nat) : b64Char n ≠ '.' := (b64Alphabet_plain _ (b64Char_mem n)).2.1

theorem b64Char_not_ws (n : Nat) : isAsciiWhitespace (b64Char n) = false :=
  (b64Alphabet_plain _ (b64Char_mem n)).2.2

theorem b64Index_b64Char (n : Nat) (h : n < 64) : b64Index (b64Char n) = some n := by
  have key : ∀ m : Fin 64, b64Index (b64Char m.val) = some m.val := by decide
  exact key ⟨n, h⟩

theorem sextetsOfText_map_b64Char (xs : List Nat) (h : ∀ x ∈ xs, x < 64) :
    sextetsOfText (xs.map b64Char) = some xs := by
  induction xs with
  | nil => rfl
  | cons x xs ih =>
    have hx : x < 64 := h x (by simp)
    have hxs : ∀ y ∈ xs, y < 64 := fun y hy => h y (by simp [hy])
    simp [sextetsOfText, b64Index_b64Char x hx, ih hxs]

theorem sextetsOf_lt (bytes : List Nat) (h : ∀ b ∈ bytes, b < 256) :
    ∀ x ∈ sextetsOf bytes, x < 64 := by
  induction bytes using sextetsOf.induct with
  | case1 a b c rest ih =>
    have ha : a < 256 := h a (by simp)
    have hb : b < 256 := h b (by simp)
    have hc : c < 256 := h c (by simp)
    have hr : ∀ y ∈ rest, y < 256 := fun y hy => h y (by simp [hy])
    intro x hx
    simp only [sextetsOf, List.mem_cons] at hx
    rcases hx with rfl | rfl | rfl | rfl | hx
    · omega
    · omega
    · omega
    · omega
    · exact ih hr x hx
  | case2 a b =>
    have ha : a < 256 := h a (by simp)
    have hb : b < 256 := h b (by simp)
    intro x hx
    simp only [sextetsOf, List.mem_cons, List.mem_singleton, List.not_mem_nil, or_false] at hx
    rcases hx with rfl | rfl | rfl <;> omega
  | case3 a =>
    have ha : a < 256 := h a (by simp)
    intro x hx
    simp only [sextetsOf, List.mem_cons, List.mem_singleton, List.not_mem_nil, or_false] at hx
    rcases hx with rfl | rfl <;> omega
  | case4 => simp [sextetsOf]

theorem decodeSextets_sextetsOf (bytes : List Nat) (h : ∀ b ∈ bytes, b < 256) :
    decodeSextets (sextetsOf bytes) = bytes := by
  induction bytes using sextetsOf.induct with
  | case1 a b c rest ih =>
    have ha : a < 256 := h a (by simp)
    have hb : b < 256 := h b (by simp)
    have hc : c < 256 := h c (by simp)
    have hr : ∀ y ∈ rest, y < 256 := fun y hy => h y (by simp [hy])
    simp only [sextetsOf, decodeSextets, ih hr]
    congr 1
    · omega
    · congr 1
      · omega
      · congr 1
        omega
  | case2 a b =>
    have ha : a < 256 := h a (by simp)
    have hb : b < 256 := h b (by simp)
    simp only [sextetsOf, decodeSextets]
    congr 1
    · omega
    · congr 1
      omega
  | case3 a =>
    have ha : a < 256 := h a (by simp)
    simp only [sextetsOf, decodeSextets]
    congr 1
    omega
  | case4 => simp [sextetsOf, decodeSextets]

theorem length_sextetsOf (bytes : List Nat) :
    (sextetsOf bytes).length =
      4 * (bytes.length / 3) + (if bytes.length % 3 = 0 then 0 else bytes.length % 3 + 1) := by
  induction bytes using sextetsOf.induct with
  | case1 a b c rest ih =>
    simp only [sextetsOf, List.length_cons, ih]
    split_ifs <;> omega
  | case2 a b => simp [sextetsOf]
  | case3 a => simp [sextetsOf]
  | case4 => simp [sextetsOf]

theorem filter_ws_map_b64Char (xs : List Nat) :
    (xs.map b64Char).filter (fun c => !isAsciiWhitespace c) = xs.map b64Char := by
  rw [List.filter_eq_self]
  intro c hc
  obtain ⟨x, _, rfl⟩ := List.mem_map.1 hc
  simp [b64Char_not_ws]

theorem filter_ws_pad (n : Nat) :
    (b64Padding n).filter (fun c => !isAsciiWhitespace c) = b64Padding n := by
  unfold b64Padding
  split_ifs <;> decide

theorem stripPadding_no_pad (l : JSString) (h : '=' ∉ l) : stripPadding l = l := by
  unfold stripPadding
  cases hr : l.reverse with
  | nil => rfl
  | cons c r =>
    have hc : c ≠ '=' := by
      intro e
      apply h
      have : c ∈ l.reverse := by rw [hr]; simp
      simpa [e] using this
    split
    · rename_i heq; simp at heq; exact absurd heq.1 hc
    · rename_i heq; simp at heq; exact absurd heq.1 hc
    · rfl

theorem stripPadding_one (l : JSString) (h : '=' ∉ l) : stripPadding (l ++ ['=']) = l := by
  unfold stripPadding
  have e : (l ++ ['=']).reverse = '=' :: l.reverse := by simp
  rw [e]
  cases hr : l.reverse with
  | nil =>
    have : l = [] := by simpa using hr
    simp [this]
  | cons c r =>
    have hc : c ≠ '=' := by
      intro e
      apply h
      have : c ∈ l.reverse := by rw [hr]; simp
      simpa [e] using this
    split
    · rename_i heq; simp at heq; exact absurd heq.1 hc
    · rename_i heq
      simp at heq
      rw [← heq, ← hr]
      simp
    · rename_i h1 h2
      exact absurd rfl (h2 _)

theorem stripPadding_two (l : JSString) : stripPadding (l ++ ['=', '=']) = l := by
  unfold stripPadding
  have e : (l ++ ['=', '=']).reverse = '=' :: '=' :: l.reverse := by simp
  rw [e]
  simp

theorem pad_not_mem_map_b64Char (xs : List Nat) : '=' ∉ xs.map b64Char := by
  intro h
  obtain ⟨x, _, hx⟩ := List.mem_map.1 h
  exact b64Char_ne_pad x hx

/-- The function `atob` on the base64 of a byte sequence gives the bytes back. -/
theorem atob_encodeBytes (bytes : List Nat) (h : ∀ b ∈ bytes, b < 256) :
    atob (encodeBytes bytes) = .ok (bytes.map Char.ofNat) := by
  have hlen := length_sextetsOf bytes
  have hfil : (encodeBytes bytes).filter (fun c => !isAsciiWhitespace c) = encodeBytes bytes := by
    simp [encodeBytes, List.filter_append, filter_ws_map_b64Char, filter_ws_pad]
  have hstrip : stripPadding (encodeBytes bytes) = (sextetsOf bytes).map b64Char := by
    unfold encodeBytes b64Padding
    split_ifs
    · exact stripPadding_two _
    · exact stripPadding_one _ (pad_not_mem_map_b64Char _)
    · simpa using stripPadding_no_pad _ (pad_not_mem_map_b64Char _)
  have hl4 : (encodeBytes bytes).length % 4 = 0 := by
    unfold encodeBytes b64Padding
    simp only [List.length_append, List.length_map, hlen]
    split_ifs <;> simp <;> omega
  have hl1 : ¬ ((sextetsOf bytes).map b64Char).length % 4 = 1 := by
    simp only [List.length_map, hlen]
    split_ifs <;> omega
  unfold atob
  simp only [hfil, hl4, if_true, hstrip, if_neg hl1,
    sextetsOfText_map_b64Char _ (sextetsOf_lt bytes h), decodeSextets_sextetsOf bytes h]

theorem btoa_ok (s b : JSString) (h : btoa s = .ok b) :
    (∀ c ∈ s, c.toNat < 256) ∧ b = encodeBytes (s.map Char.toNat) := by
  unfold btoa at h
  split_ifs at h with hs
  · refine ⟨?_, ?_⟩
    · intro c hc
      have := List.all_eq_true.1 hs c hc
      simpa using this
    · injection h with h
      exact h.symm

/-- The function `atob` undoes `btoa`. -/
theorem atob_btoa (s b : JSString) (h : btoa s = .ok b) : atob b = .ok s := by
  obtain ⟨hs, rfl⟩ := btoa_ok s b h
  rw [atob_encodeBytes]
  · congr 1
    rw [List.map_map]
    conv_rhs => rw [← List.map_id s]
    apply List.map_congr_left
    intro c _
    simp [Function.comp, Char.ofNat_toNat]
  · intro x hx
    obtain ⟨c, hc, rfl⟩ := List.mem_map.1 hx
    exact hs c hc

theorem dot_not_mem_encodeBytes (bytes : List Nat) : '.' ∉ encodeBytes bytes := by
  intro h
  unfold encodeBytes at h
  rcases List.mem_append.1 h with h | h
  · obtain ⟨x, _, hx⟩ := List.mem_map.1 h
    exact b64Char_ne_dot x hx
  · unfold b64Padding at h
    split_ifs at h <;> simp at h

/-! ## Session tokens -/

theorem toNat_ofNat_byte (n : Nat) (h : n < 256) : (Char.ofNat n).toNat = n := by
  have hv : n.isValidChar := Or.inl (by omega)
  simp [Char.ofNat, hv, Char.ofNatAux, Char.toNat, UInt32.toNat]

theorem asBytes_lt (l : List Nat) : ∀ b ∈ asBytes l, b < 256 := by
  intro b hb
  obtain ⟨x, _, rfl⟩ := List.mem_map.1 hb
  omega

theorem map_comp_toNat_ofNat_asBytes (l : List Nat) :
    (asBytes l).map (Char.toNat ∘ Char.ofNat) = asBytes l := by
  conv_rhs => rw [← List.map_id (asBytes l)]
  apply List.map_congr_left
  intro b hb
  simp [Function.comp, toNat_ofNat_byte b (asBytes_lt l b hb)]

theorem map_toNat_ofNat_asBytes (l : List Nat) :
    ((asBytes l).map Char.ofNat).map Char.toNat = asBytes l := by
  rw [List.map_map, map_comp_toNat_ofNat_asBytes]

/-- The shape of a token that `generateToken` returns. -/
theorem generateToken_ok (rt : Runtime) (env : Env) (now : Nat) (email : JSValue)
    (tok : JSString) (h : generateToken rt env now email = .ok tok) :
    ∃ mac, rt.hmac env.AUTH_SECRET (rt.stringify (tokenPayload email now)) = .ok mac ∧
      btoa (rt.stringify (tokenPayload email now)) =
        .ok (encodeBytes ((rt.stringify (tokenPayload email now)).map Char.toNat)) ∧
      tok = encodeBytes ((rt.stringify (tokenPayload email now)).map Char.toNat) ++
        '.' :: encodeBytes (asBytes mac) := by
  unfold generateToken at h
  cases h1 : rt.hmac env.AUTH_SECRET (rt.stringify (tokenPayload email now)) with
  | error e => simp [h1, bind, Except.bind] at h
  | ok mac =>
    cases h2 : btoa ((asBytes mac).map Char.ofNat) with
    | error e => simp [h1, h2, bind, Except.bind] at h
    | ok b2 =>
      cases h3 : btoa (rt.stringify (tokenPayload email now)) with
      | error e => simp [h1, h2, h3, bind, Except.bind] at h
      | ok b1 =>
        simp [h1, h2, h3, bind, Except.bind, pure, Except.pure] at h
        obtain ⟨_, e1⟩ := btoa_ok _ _ h3
        obtain ⟨_, e2⟩ := btoa_ok _ _ h2
        rw [map_toNat_ofNat_asBytes] at e2
        refine ⟨mac, rfl, ?_, ?_⟩
        · rw [e1]
        · rw [← h, e1, e2]

/-- The result of `verifyToken` on a token of the form `payload.signature` whose
two parts are base64 texts written by `btoa`. -/
theorem verifyToken_two_parts (rt : Runtime) (env : Env) (now : Nat) (b1 b2 : JSString)
    (h1 : '.' ∉ b1) (h2 : '.' ∉ b2) :
    verifyToken rt env now (b1 ++ '.' :: b2) =
      tryCatch (do
          let payload ← rt.parse (← atob b1)
          let exp ← getField payload "exp".toList
          if lessThanNow rt exp now then pure .null
          else do
            let mac ← rt.hmac env.AUTH_SECRET (rt.stringify payload)
            let signature ← atob b2
            pure (if signature.map Char.toNat = asBytes mac then payload else .null))
        (fun _ => .ok .null) := by
  have hne : b1 ++ '.' :: b2 ≠ [] := by simp
  have hs : split '.' (b1 ++ '.' :: b2) = [b1, b2] := by
    rw [split_append_sep _ _ _ h1, split_no_sep _ _ h2]
  unfold verifyToken verifyTokenBody
  rw [if_neg hne, hs]
  simp [partAt, toStr]

/-- A token of `generateToken` issued at time `issued`, verified at time `now`:
the payload as long as `exp < now` is false, `null` afterwards. -/
theorem verifyToken_generateToken (rt : Runtime) (env : Env) (issued now : Nat)
    (email : JSValue) (tok : JSString)
    (hgen : generateToken rt env issued email = .ok tok)
    (hjson : rt.parse (rt.stringify (tokenPayload email issued)) = .ok (tokenPayload email issued)) :
    verifyToken rt env now tok =
      .ok (if issued + sevenDays < now then .null else tokenPayload email issued) := by
  obtain ⟨mac, hmac, hb, rfl⟩ := generateToken_ok rt env issued email tok hgen
  rw [verifyToken_two_parts _ _ _ _ _ (dot_not_mem_encodeBytes _) (dot_not_mem_encodeBytes _)]
  rw [atob_btoa _ _ hb, atob_encodeBytes _ (asBytes_lt mac)]
  have hexp : getField (tokenPayload email issued) ['e', 'x', 'p'] =
      .ok (.num ((issued + sevenDays : Nat) : Int)) := by
    simp [tokenPayload, getField, getProp]
  by_cases hlt : issued + sevenDays < now
  · have : lessThanNow rt (.num ((issued : Int) + (sevenDays : Int))) now = true := by
      simp only [lessThanNow, decide_eq_true_eq]
      exact_mod_cast hlt
    simp [tryCatch, bind, Except.bind, hjson, hexp, this, hlt, pure, Except.pure]
  · have : lessThanNow rt (.num ((issued : Int) + (sevenDays : Int))) now = false := by
      simp only [lessThanNow, decide_eq_false_iff_not]
      exact_mod_cast hlt
    simp [tryCatch, bind, Except.bind, hjson, hexp, this, hlt, pure, Except.pure, hmac,
      map_comp_toNat_ofNat_asBytes]

/-! ## C2: the window in which a token is accepted -/

set_option maxRecDepth 100000 in
/-- C2, as stated, fails at the instant of expiry: the token issued to
`admin@example.com` at `sampleTime` has `exp = sampleTime + sevenDays`, and at
clock time `sampleTime + sevenDays` the guard `payload.exp < Date.now()` is
false, so `verifyToken` returns the payload and not `null`. -/
theorem C2_counterexample_expiry_instant :
    generateToken referenceRuntime sampleEnv sampleTime (.str "admin@example.com".toList) =
      .ok sampleToken ∧
    sampleTime + sevenDays ≥ sampleTime + sevenDays ∧
    verifyToken referenceRuntime sampleEnv (sampleTime + sevenDays) sampleToken =
      .ok samplePayload ∧
    verifyToken referenceRuntime sampleEnv (sampleTime + sevenDays) sampleToken ≠ .ok .null := by
  decide!

/-- C2, amended: a token that `generateToken` returns for an email at clock time
`issued` is accepted by `verifyToken`, which returns its payload, at every clock
time up to and including `issued + sevenDays`, and is rejected with `null` at
every later clock time. The platform is any one on which `JSON.parse` reads back
the payload that `JSON.stringify` wrote. -/
theorem C2_token_window (rt : Runtime) (env : Env) (email : JSString) (issued now : Nat)
    (tok : JSString)
    (hgen : generateToken rt env issued (.str email) = .ok tok)
    (hjson : rt.parse (rt.stringify (tokenPayload (.str email) issued)) =
      .ok (tokenPayload (.str email) issued)) :
    (now ≤ issued + sevenDays →
      verifyToken rt env now tok = .ok (tokenPayload (.str email) issued)) ∧
    (issued + sevenDays < now → verifyToken rt env now tok = .ok .null) := by
  have h := verifyToken_generateToken rt env issued now (.str email) tok hgen hjson
  constructor
  · intro hle
    rw [h, if_neg (by omega)]
  · intro hlt
    rw [h, if_pos hlt]

set_option maxRecDepth 100000 in
/-- C2, amended, at the sample token one millisecond after its expiry. -/
theorem C2_token_window_witness :
    (sampleTime + sevenDays + 1 ≤ sampleTime + sevenDays →
      verifyToken referenceRuntime sampleEnv (sampleTime + sevenDays + 1) sampleToken =
        .ok (tokenPayload (.str "admin@example.com".toList) sampleTime)) ∧
    (sampleTime + sevenDays < sampleTime + sevenDays + 1 →
      verifyToken referenceRuntime sampleEnv (sampleTime + sevenDays + 1) sampleToken =
        .ok .null) :=
  C2_token_window referenceRuntime sampleEnv "admin@example.com".toList sampleTime
    (sampleTime + sevenDays + 1) sampleToken (by decide!) (by decide!)

/-! ## C6: `verifyToken` never throws -/

theorem verifyToken_eq (rt : Runtime) (env : Env) (now : Nat) (token : JSString)
    (h : token ≠ []) :
    verifyToken rt env now token =
      .ok (match verifyTokenBody rt env now token with
        | .ok v => v
        | .error _ => .null) := by
  unfold verifyToken tryCatch
  rw [if_neg h]
  cases verifyTokenBody rt env now token <;> rfl

/-- The `try` block of `verifyToken`, step by step. -/
theorem verifyTokenBody_eq (rt : Runtime) (env : Env) (now : Nat) (token : JSString) :
    verifyTokenBody rt env now token =
      match atob (payloadSegment token) with
      | .error e => .error e
      | .ok text =>
        match rt.parse text with
        | .error e => .error e
        | .ok payload =>
          match getField payload "exp".toList with
          | .error e => .error e
          | .ok exp =>
            if lessThanNow rt exp now then .ok .null
            else
              match rt.hmac env.AUTH_SECRET (rt.stringify payload) with
              | .error e => .error e
              | .ok mac =>
                match atob (signatureSegment token) with
                | .error e => .error e
                | .ok signature =>
                  .ok (if signature.map Char.toNat = asBytes mac then payload else .null) := by
  unfold verifyTokenBody payloadSegment signatureSegment
  dsimp only
  cases h1 : atob (toStr (partAt (split '.' token) 0)) with
  | error e => simp only [bind, Except.bind]
  | ok text =>
    cases h2 : rt.parse text with
    | error e => simp only [bind, Except.bind, h2]
    | ok payload =>
      cases h3 : getField payload "exp".toList with
      | error e => simp only [bind, Except.bind, h2, h3]
      | ok exp =>
        simp only [bind, Except.bind, h2, h3]
        by_cases h4 : lessThanNow rt exp now = true
        · simp only [h4, if_true]
          rfl
        · simp only [h4]
          cases h5 : rt.hmac env.AUTH_SECRET (rt.stringify payload) with
          | error e => simp
          | ok mac =>
            cases h6 : atob (toStr (partAt (split '.' token) 1)) with
            | error e => simp
            | ok signature => simp [pure, Except.pure]

theorem verifyToken_null_of_signature_error (rt : Runtime) (env : Env) (now : Nat)
    (token : JSString) (e : JSError) (h : atob (signatureSegment token) = .error e) :
    verifyToken rt env now token = .ok .null := by
  by_cases hne : token = []
  · simp [verifyToken, hne]
  · rw [verifyToken_eq _ _ _ _ hne, verifyTokenBody_eq, h]
    cases h1 : atob (payloadSegment token) with
    | error e => rfl
    | ok text =>
      cases h2 : rt.parse text with
      | error e => simp only [h2]
      | ok payload =>
        cases h3 : getField payload "exp".toList with
        | error e =>
          simp only [h2]
          rw [h3]
        | ok exp =>
          simp only [h2]
          rw [h3]
          by_cases h4 : lessThanNow rt exp now = true
          · simp [h4]
          · cases h5 : rt.hmac env.AUTH_SECRET (rt.stringify payload) with
            | error e => simp [h4]
            | ok mac => simp [h4]

theorem signatureSegment_no_dot (token : JSString) (h : '.' ∉ token) :
    signatureSegment token = "undefined".toList := by
  simp [signatureSegment, split_no_sep _ _ h, partAt, toStr]

/-- C6, as stated, fails for a payload that is JSON but not an object: the
payload segment of `numberToken` decodes to the JSON text `5`, a number, its
signature segment is the base64 of the HMAC of that text, and `verifyToken`
returns the number `5`, not `null`. -/
theorem C6_counterexample_number_payload :
    atob (payloadSegment numberToken) = .ok "5".toList ∧
    referenceRuntime.parse "5".toList = .ok (.num 5) ∧
    verifyToken referenceRuntime sampleEnv sampleTime numberToken = .ok (.num 5) ∧
    verifyToken referenceRuntime sampleEnv sampleTime numberToken ≠ .ok .null := by
  decide!

/-- C6, amended: `verifyToken` returns a value for every string and never
throws. It returns `null` for the empty token, for a token without a dot, when
the payload segment is not valid base64, is not valid JSON or is the JSON value
`null`, and when the signature segment is not valid base64. Every result other
than `null` is the decoded payload of a token whose signature segment decodes to
the HMAC of the JSON text of that payload; the payload need not be an object. -/
theorem C6_verifyToken_total (rt : Runtime) (env : Env) (now : Nat) (token : JSString) :
    (∃ v, verifyToken rt env now token = .ok v) ∧
    (token = [] → verifyToken rt env now token = .ok .null) ∧
    ('.' ∉ token → verifyToken rt env now token = .ok .null) ∧
    (∀ e, atob (payloadSegment token) = .error e →
      verifyToken rt env now token = .ok .null) ∧
    (∀ text e, atob (payloadSegment token) = .ok text → rt.parse text = .error e →
      verifyToken rt env now token = .ok .null) ∧
    (∀ text, atob (payloadSegment token) = .ok text → rt.parse text = .ok .null →
      verifyToken rt env now token = .ok .null) ∧
    (∀ e, atob (signatureSegment token) = .error e →
      verifyToken rt env now token = .ok .null) ∧
    (∀ v, verifyToken rt env now token = .ok v → v ≠ .null →
      ∃ text mac signature,
        atob (payloadSegment token) = .ok text ∧ rt.parse text = .ok v ∧
        rt.hmac env.AUTH_SECRET (rt.stringify v) = .ok mac ∧
        atob (signatureSegment token) = .ok signature ∧
        signature.map Char.toNat = asBytes mac) := by
  by_cases hne : token = []
  · subst hne
    refine ⟨⟨.null, rfl⟩, fun _ => rfl, fun _ => rfl, fun _ _ => rfl, fun _ _ _ _ => rfl,
      fun _ _ _ => rfl, fun _ _ => rfl, ?_⟩
    intro v hv hnull
    simp [verifyToken] at hv
    exact absurd hv.symm hnull
  · have hv := verifyToken_eq rt env now token hne
    refine ⟨⟨_, hv⟩, fun h => absurd h hne, ?_, ?_, ?_, ?_, ?_, ?_⟩
    · intro hdot
      apply verifyToken_null_of_signature_error rt env now token invalidCharacterError
      rw [signatureSegment_no_dot token hdot]
      decide
    · intro e he
      rw [hv, verifyTokenBody_eq, he]
    · intro text e ht hp
      rw [hv, verifyTokenBody_eq, ht]
      simp only [hp]
    · intro text ht hp
      rw [hv, verifyTokenBody_eq, ht]
      simp only [hp]
      rfl
    · intro e he
      exact verifyToken_null_of_signature_error rt env now token e he
    · intro v hres hnull
      rw [hv, verifyTokenBody_eq] at hres
      cases h1 : atob (payloadSegment token) with
      | error e => simp [h1] at hres; exact absurd hres.symm hnull
      | ok text =>
        cases h2 : rt.parse text with
        | error e => simp [h1, h2] at hres; exact absurd hres.symm hnull
        | ok payload =>
          cases h3 : getField payload "exp".toList with
          | error e =>
            simp only [h1, h2] at hres
            rw [h3] at hres
            simp at hres
            exact absurd hres.symm hnull
          | ok exp =>
            simp only [h1, h2] at hres
            rw [h3] at hres
            by_cases h4 : lessThanNow rt exp now = true
            · simp [h4] at hres; exact absurd hres.symm hnull
            · cases h5 : rt.hmac env.AUTH_SECRET (rt.stringify payload) with
              | error e => simp [h4, h5] at hres; exact absurd hres.symm hnull
              | ok mac =>
                cases h6 : atob (signatureSegment token) with
                | error e => simp [h4, h5, h6] at hres; exact absurd hres.symm hnull
                | ok signature =>
                  simp only [h4, h5, h6] at hres
                  by_cases h7 : signature.map Char.toNat = asBytes mac
                  · simp [h7] at hres
                    subst hres
                    exact ⟨text, mac, signature, rfl, h2, h5, rfl, h7⟩
                  · simp [h7] at hres
                    exact absurd hres.symm hnull

/-! ## C5: tampering with the signature segment -/

theorem decodeSextets_lt : ∀ xs : List Nat, (∀ x ∈ xs, x < 64) →
    ∀ b ∈ decodeSextets xs, b < 256
  | a :: b :: c :: d :: rest, h => by
    have ha : a < 64 := h a (by simp)
    have hb : b < 64 := h b (by simp)
    have hc : c < 64 := h c (by simp)
    have hd : d < 64 := h d (by simp)
    have hr : ∀ y ∈ rest, y < 64 := fun y hy => h y (by simp [hy])
    intro x hx
    simp only [decodeSextets, List.mem_cons] at hx
    rcases hx with rfl | rfl | rfl | hx
    · omega
    · omega
    · omega
    · exact decodeSextets_lt rest hr x hx
  | [a, b, c], h => by
    have ha : a < 64 := h a (by simp)
    have hb : b < 64 := h b (by simp)
    have hc : c < 64 := h c (by simp)
    intro x hx
    simp only [decodeSextets, List.mem_cons, List.mem_singleton, List.not_mem_nil, or_false] at hx
    rcases hx with rfl | rfl <;> omega
  | [a, b], h => by
    have ha : a < 64 := h a (by simp)
    have hb : b < 64 := h b (by simp)
    intro x hx
    simp only [decodeSextets, List.mem_singleton] at hx
    omega
  | [a], _ => by simp [decodeSextets]
  | [], _ => by simp [decodeSextets]

theorem length_decodeSextets : ∀ xs : List Nat,
    (decodeSextets xs).length =
      3 * (xs.length / 4) + (if xs.length % 4 = 3 then 2 else if xs.length % 4 = 2 then 1 else 0)
  | a :: b :: c :: d :: rest => by
    simp only [decodeSextets, List.length_cons, length_decodeSextets rest]
    split_ifs <;> omega
  | [a, b, c] => by simp [decodeSextets]
  | [a, b] => by simp [decodeSextets]
  | [a] => by simp [decodeSextets]
  | [] => by simp [decodeSextets]

/-- Two sequences of six-bit groups of one length with the same bytes agree
in every group but the last. -/
theorem decodeSextets_inj : ∀ xs ys : List Nat, (∀ x ∈ xs, x < 64) → (∀ y ∈ ys, y < 64) →
    xs.length = ys.length → decodeSextets xs = decodeSextets ys →
    ∀ j, j + 1 < xs.length → xs[j]? = ys[j]?
  | a :: b :: c :: d :: rest, a' :: b' :: c' :: d' :: rest', hx, hy, hl, he => by
    have ha : a < 64 := hx a (by simp)
    have hb : b < 64 := hx b (by simp)
    have hc : c < 64 := hx c (by simp)
    have hd : d < 64 := hx d (by simp)
    have hr : ∀ y ∈ rest, y < 64 := fun y h => hx y (by simp [h])
    have ha' : a' < 64 := hy a' (by simp)
    have hb' : b' < 64 := hy b' (by simp)
    have hc' : c' < 64 := hy c' (by simp)
    have hd' : d' < 64 := hy d' (by simp)
    have hr' : ∀ y ∈ rest', y < 64 := fun y h => hy y (by simp [h])
    simp only [decodeSextets, List.cons.injEq] at he
    obtain ⟨e1, e2, e3, e4⟩ := he
    have hl' : rest.length = rest'.length := by simpa using hl
    have ih := decodeSextets_inj rest rest' hr hr' hl' e4
    have eqa : a = a' := by omega
    have eqb : b = b' := by omega
    have eqc : c = c' := by omega
    have eqd : d = d' := by omega
    subst eqa eqb eqc eqd
    intro j hj
    match j with
    | 0 => rfl
    | 1 => rfl
    | 2 => rfl
    | 3 => simp
    | k + 4 =>
      simp only [List.getElem?_cons_succ]
      apply ih
      simp only [List.length_cons] at hj
      omega
  | [a, b, c], [a', b', c'], hx, hy, _, he => by
    have ha : a < 64 := hx a (by simp)
    have hb : b < 64 := hx b (by simp)
    have hc : c < 64 := hx c (by simp)
    have ha' : a' < 64 := hy a' (by simp)
    have hb' : b' < 64 := hy b' (by simp)
    have hc' : c' < 64 := hy c' (by simp)
    simp only [decodeSextets, List.cons.injEq, and_true] at he
    obtain ⟨e1, e2⟩ := he
    have eqa : a = a' := by omega
    have eqb : b = b' := by omega
    subst eqa eqb
    intro j hj
    match j with
    | 0 => rfl
    | 1 => rfl
    | k + 2 =>
      simp only [List.length_cons, List.length_nil] at hj
      omega
  | [a, b], [a', b'], hx, hy, _, he => by
    have ha : a < 64 := hx a (by simp)
    have hb : b < 64 := hx b (by simp)
    have ha' : a' < 64 := hy a' (by simp)
    have hb' : b' < 64 := hy b' (by simp)
    simp only [decodeSextets, List.cons.injEq, and_true] at he
    have eqa : a = a' := by omega
    subst eqa
    intro j hj
    match j with
    | 0 => rfl
    | k + 1 =>
      simp only [List.length_cons, List.length_nil] at hj
      omega
  | [a], _, _, _, _, _ => by intro j hj; simp at hj
  | [], _, _, _, _, _ => by intro j hj; simp at hj
  | _ :: _ :: _ :: _ :: _, [], _, _, hl, _ => by simp at hl
  | _ :: _ :: _ :: _ :: _, [_], _, _, hl, _ => by simp at hl
  | _ :: _ :: _ :: _ :: _, [_, _], _, _, hl, _ => by simp at hl
  | _ :: _ :: _ :: _ :: _, [_, _, _], _, _, hl, _ => by simp at hl
  | [_, _, _], [], _, _, hl, _ => by simp at hl
  | [_, _, _], [_], _, _, hl, _ => by simp at hl
  | [_, _, _], [_, _], _, _, hl, _ => by simp at hl
  | [_, _, _], _ :: _ :: _ :: _ :: _, _, _, hl, _ => by simp at hl
  | [_, _], [], _, _, hl, _ => by simp at hl
  | [_, _], [_], _, _, hl, _ => by simp at hl
  | [_, _], _ :: _ :: _ :: _, _, _, hl, _ => by simp at hl



theorem b64Char_of_b64Index (c : Char) (x : Nat) (h : b64Index c = some x) : b64Char x = c := by
  unfold b64Index at h
  simp only at h
  split_ifs at h with hlt
  simp only [Option.some.injEq] at h
  subst h
  have hl : List.indexOf c b64Alphabet < b64Alphabet.length := by
    have : b64Alphabet.length = 64 := by decide
    omega
  unfold b64Char
  rw [List.getD_eq_getElem _ _ hl]
  exact List.getElem_indexOf hl

theorem sextetsOfText_append_cons (xs : List Nat) (h : ∀ x ∈ xs, x < 64) (c : Char)
    (rest : JSString) :
    sextetsOfText (xs.map b64Char ++ c :: rest) =
      match b64Index c, sextetsOfText rest with
      | some i, some r => some (xs ++ i :: r)
      | _, _ => none := by
  induction xs with
  | nil =>
    simp only [List.map_nil, List.nil_append, sextetsOfText]
  | cons x xs ih =>
    have hx : x < 64 := h x (by simp)
    have hxs : ∀ y ∈ xs, y < 64 := fun y hy => h y (by simp [hy])
    show sextetsOfText (b64Char x :: (xs.map b64Char ++ c :: rest)) = _
    rw [sextetsOfText, b64Index_b64Char x hx, ih hxs]
    cases b64Index c <;> cases sextetsOfText rest <;> rfl

theorem sextetsOfText_pad (rest : JSString) : sextetsOfText ('=' :: rest) = none := by
  have : b64Index '=' = none := by decide
  simp [sextetsOfText, this]

/-- The function `atob` on a text of characters of the alphabet. -/
theorem atob_map_b64Char (xs : List Nat) (h : ∀ x ∈ xs, x < 64) :
    atob (xs.map b64Char) =
      if xs.length % 4 = 1 then .error invalidCharacterError
      else .ok ((decodeSextets xs).map Char.ofNat) := by
  unfold atob
  simp only [filter_ws_map_b64Char, stripPadding_no_pad _ (pad_not_mem_map_b64Char xs),
    ite_self, List.length_map, sextetsOfText_map_b64Char xs h]

theorem map_toNat_decodeSextets (xs : List Nat) (h : ∀ x ∈ xs, x < 64) :
    ((decodeSextets xs).map Char.ofNat).map Char.toNat = decodeSextets xs := by
  rw [List.map_map]
  conv_rhs => rw [← List.map_id (decodeSextets xs)]
  apply List.map_congr_left
  intro b hb
  simp [Function.comp, toNat_ofNat_byte b (decodeSextets_lt xs h b hb)]

/-- Removal of the padding when the last character before it is not `=`. -/
theorem stripPadding_snoc (l : JSString) (c : Char) (hc : c ≠ '=') :
    stripPadding (l ++ [c] ++ ['=']) = l ++ [c] := by
  unfold stripPadding
  have e : (l ++ [c] ++ ['=']).reverse = '=' :: c :: l.reverse := by simp
  rw [e]
  split
  · rename_i heq
    simp at heq
    exact absurd heq.1 hc
  · rename_i heq
    simp at heq
    rw [← heq]
    simp
  · rename_i h1 h2
    exact absurd rfl (h2 _)



theorem b64Index_lt (c : Char) (x : Nat) (h : b64Index c = some x) : x < 64 := by
  unfold b64Index at h
  simp only at h
  split_ifs at h with hlt
  simp only [Option.some.injEq] at h
  omega

theorem ws_not_index (c : Char) (h : isAsciiWhitespace c = true) : b64Index c = none := by
  cases hi : b64Index c with
  | none => rfl
  | some x =>
    have := b64Char_not_ws x
    rw [b64Char_of_b64Index c x hi, h] at this
    cases this

/-- The base64 text of 32 bytes: 43 characters of the alphabet and one `=`. -/
theorem encodeBytes_32 (bytes : List Nat) (hlen : bytes.length = 32) :
    encodeBytes bytes = (sextetsOf bytes).map b64Char ++ ['='] ∧
    (sextetsOf bytes).length = 43 := by
  constructor
  · simp [encodeBytes, b64Padding, hlen]
  · rw [length_sextetsOf, hlen]
    decide

/-- A character of the base64 text of 32 bytes before position 42, with what
stands before and after it. -/
theorem encodeBytes_32_split (bytes : List Nat) (hb : ∀ b ∈ bytes, b < 256)
    (hlen : bytes.length = 32) (pre post : JSString) (c : Char)
    (hs : encodeBytes bytes = pre ++ c :: post) (hpos : pre.length < 42) :
    ∃ (A B : List Nat) (x y : Nat),
      sextetsOf bytes = A ++ x :: (B ++ [y]) ∧ A.length = pre.length ∧
      (∀ s ∈ A ++ x :: (B ++ [y]), s < 64) ∧
      pre = A.map b64Char ∧ c = b64Char x ∧
      post = B.map b64Char ++ [b64Char y] ++ ['='] := by
  obtain ⟨hS, h43⟩ := encodeBytes_32 bytes hlen
  have hlt := sextetsOf_lt bytes hb
  generalize sextetsOf bytes = xs0 at hS h43 hlt
  have hi : pre.length < xs0.length := by omega
  have hd : xs0 = xs0.take pre.length ++ xs0[pre.length] :: xs0.drop (pre.length + 1) := by
    rw [← List.drop_eq_getElem_cons hi, List.take_append_drop]
  have hB : xs0.drop (pre.length + 1) ≠ [] := by
    intro e
    have := congrArg List.length e
    simp at this
    omega
  obtain ⟨B, y, hBy⟩ : ∃ B y, xs0.drop (pre.length + 1) = B ++ [y] :=
    ⟨_, _, (List.dropLast_append_getLast hB).symm⟩
  rw [hBy] at hd
  have hA : (xs0.take pre.length).length = pre.length := by
    rw [List.length_take]
    omega
  refine ⟨xs0.take pre.length, B, xs0[pre.length], y, hd, hA, ?_, ?_⟩
  · rw [← hd]
    exact hlt
  · rw [hs] at hS
    rw [hd] at hS
    simp only [List.map_append, List.map_cons, List.append_assoc, List.cons_append,
      List.map_nil] at hS
    have hl : pre.length = ((xs0.take pre.length).map b64Char).length := by
      rw [List.length_map, hA]
    obtain ⟨e1, e2⟩ := List.append_inj hS hl
    simp only [List.cons.injEq] at e2
    refine ⟨e1, e2.1, ?_⟩
    rw [e2.2]
    simp



/-- A single character replaced before position 42 of the base64 text of 32
bytes: what `verifyToken` then takes as the signature segment does not decode
to the 32 bytes. -/
theorem tampered_signature_differs (bytes : List Nat) (hb : ∀ b ∈ bytes, b < 256)
    (hlen : bytes.length = 32) (pre post : JSString) (c c' : Char)
    (hs : encodeBytes bytes = pre ++ c :: post) (hpos : pre.length < 42) (hne : c' ≠ c)
    (s : JSString) (hat : atob ((split '.' (pre ++ c' :: post)).headD []) = .ok s) :
    s.map Char.toNat ≠ bytes := by
  obtain ⟨A, B, x, y, hxs, hA, hlt, rfl, rfl, rfl⟩ :=
    encodeBytes_32_split bytes hb hlen pre post c hs hpos
  have h43 := (encodeBytes_32 bytes hlen).2
  rw [hxs] at h43
  simp only [List.length_append, List.length_cons, List.length_nil] at h43
  have hltA : ∀ s ∈ A, s < 64 := fun s hs => hlt s (by simp [hs])
  have hltB : ∀ s ∈ B, s < 64 := fun s hs => hlt s (by simp [hs])
  have hlty : y < 64 := hlt y (by simp)
  have hdotA : '.' ∉ A.map b64Char := by
    intro h
    obtain ⟨z, _, hz⟩ := List.mem_map.1 h
    exact b64Char_ne_dot z hz
  have hdotB : '.' ∉ B.map b64Char ++ [b64Char y] ++ ['='] := by
    intro h
    simp only [List.mem_append, List.mem_map, List.mem_singleton] at h
    rcases h with (⟨z, _, hz⟩ | h) | h
    · exact b64Char_ne_dot z hz
    · exact b64Char_ne_dot y h.symm
    · cases h
  have hbytes : decodeSextets (A ++ x :: (B ++ [y])) = bytes := by
    rw [← hxs]
    exact decodeSextets_sextetsOf bytes hb
  by_cases hdot : c' = '.'
  · -- the signature segment ends at the new dot
    subst hdot
    rw [split_append_sep _ _ _ hdotA] at hat
    simp only [List.headD_cons] at hat
    rw [atob_map_b64Char A hltA] at hat
    split_ifs at hat with h1
    injection hat with hat
    subst hat
    rw [map_toNat_decodeSextets A hltA]
    intro e
    have hl := congrArg List.length e
    rw [length_decodeSextets, hlen] at hl
    rw [List.length_map] at hA hpos
    split_ifs at hl <;> omega
  · have hnodot : '.' ∉ A.map b64Char ++ c' :: (B.map b64Char ++ [b64Char y] ++ ['=']) := by
      intro h
      rcases List.mem_append.1 h with h | h
      · exact hdotA h
      · rcases List.mem_cons.1 h with h | h
        · exact hdot h.symm
        · exact hdotB h
    rw [split_no_sep _ _ hnodot] at hat
    simp only [List.headD_cons] at hat
    by_cases hws : isAsciiWhitespace c' = true
    · -- white space is removed, 43 characters are left and the last is the padding
      exfalso
      unfold atob at hat
      have hf : (A.map b64Char ++ c' :: (B.map b64Char ++ [b64Char y] ++ ['='])).filter
          (fun c => !isAsciiWhitespace c) = (A ++ (B ++ [y])).map b64Char ++ '=' :: [] := by
        have e1 : (!isAsciiWhitespace '=') = true := by decide
        simp [List.filter_append, List.filter_cons, filter_ws_map_b64Char, hws,
          b64Char_not_ws, e1]
      have hl : ((A ++ (B ++ [y])).map b64Char ++ '=' :: []).length % 4 = 3 := by
        simp only [List.length_append, List.length_map, List.length_cons, List.length_nil]
        omega
      have n30 : ¬ ((3 : Nat) = 0) := by decide
      have n31 : ¬ ((3 : Nat) = 1) := by decide
      have hpad : b64Index '=' = none := by decide
      simp only [hf, hl, n30, n31, if_false] at hat
      rw [sextetsOfText_append_cons _ (fun s hs => hlt s (by
        simp only [List.mem_append, List.mem_singleton] at hs
        simp only [List.mem_append, List.mem_cons, List.mem_singleton]
        tauto)), hpad] at hat
      simp at hat
    · -- every character stays, and the padding is removed
      have hws' : isAsciiWhitespace c' = false := by simpa using hws
      unfold atob at hat
      have hf : (A.map b64Char ++ c' :: (B.map b64Char ++ [b64Char y] ++ ['='])).filter
          (fun c => !isAsciiWhitespace c) =
          (A.map b64Char ++ c' :: B.map b64Char) ++ [b64Char y] ++ ['='] := by
        have e1 : (!isAsciiWhitespace '=') = true := by decide
        simp [List.filter_append, List.filter_cons, filter_ws_map_b64Char, hws',
          b64Char_not_ws, e1]
      have hl : ((A.map b64Char ++ c' :: B.map b64Char) ++ [b64Char y] ++ ['=']).length % 4
          = 0 := by
        simp only [List.length_append, List.length_map, List.length_cons, List.length_nil]
        omega
      simp only [hf] at hat
      rw [if_pos hl, stripPadding_snoc _ _ (b64Char_ne_pad y)] at hat
      have hl2 : ¬ ((A.map b64Char ++ c' :: B.map b64Char) ++ [b64Char y]).length % 4 = 1 := by
        simp only [List.length_append, List.length_map, List.length_cons, List.length_nil]
        omega
      rw [if_neg hl2] at hat
      have e2 : (A.map b64Char ++ c' :: B.map b64Char) ++ [b64Char y] =
          A.map b64Char ++ c' :: ((B ++ [y]).map b64Char) := by simp
      rw [e2, sextetsOfText_append_cons A hltA,
        sextetsOfText_map_b64Char (B ++ [y]) (fun s hs => hlt s (by
          simp only [List.mem_append, List.mem_singleton] at hs
          simp only [List.mem_append, List.mem_cons, List.mem_singleton]
          tauto))] at hat
      cases hi : b64Index c' with
      | none => simp [hi] at hat
      | some x' =>
        simp only [hi] at hat
        injection hat with hat
        subst hat
        have hx' : x' < 64 := b64Index_lt c' x' hi
        have hlt' : ∀ s ∈ A ++ x' :: (B ++ [y]), s < 64 := by
          intro s hs
          simp only [List.mem_append, List.mem_cons, List.not_mem_nil, or_false] at hs
          rcases hs with h | h | h | h
          · exact hltA s h
          · rw [h]; exact hx'
          · exact hltB s h
          · rw [h]; exact hlty
        rw [map_toNat_decodeSextets _ hlt']
        intro e
        have := decodeSextets_inj (A ++ x' :: (B ++ [y])) (A ++ x :: (B ++ [y])) hlt' hlt
          (by simp) (e.trans hbytes.symm) A.length (by simp)
        simp only [List.getElem?_append_right (Nat.le_refl _), Nat.sub_self,
          List.getElem?_cons_zero, Option.some.injEq] at this
        apply hne
        rw [← b64Char_of_b64Index c' x' hi, this]



theorem payloadSegment_append (b1 rest : JSString) (h : '.' ∉ b1) :
    payloadSegment (b1 ++ '.' :: rest) = b1 := by
  simp [payloadSegment, split_append_sep _ _ _ h, partAt, toStr]

theorem signatureSegment_append (b1 rest : JSString) (h : '.' ∉ b1) :
    signatureSegment (b1 ++ '.' :: rest) = (split '.' rest).headD [] := by
  unfold signatureSegment
  rw [split_append_sep _ _ _ h]
  cases hs : split '.' rest with
  | nil => exact absurd hs (split_ne_nil _ _)
  | cons p ps => simp [partAt, toStr]

set_option maxRecDepth 100000 in
/-- C5, as stated, fails at the last characters of the signature segment. The
43rd character of the base64 text of 32 bytes carries four bits of the last
byte and two unused bits, which `atob` drops: with `s` replaced by `t` the
segment decodes to the same bytes and the token is accepted. With the padding
`=` replaced by a space, which `atob` removes, the token is accepted as well. -/
theorem C5_counterexample_last_characters :
    generateToken referenceRuntime sampleEnv sampleTime (.str "admin@example.com".toList) =
      .ok sampleToken ∧
    signatureSegment sampleToken = "LpFy12uBNPcO+Tf54zmKHaLisp/nW4+AplSST+VYW6s=".toList ∧
    verifyToken referenceRuntime sampleEnv sampleTime
      (payloadSegment sampleToken ++ '.' ::
        "LpFy12uBNPcO+Tf54zmKHaLisp/nW4+AplSST+VYW6t=".toList) = .ok samplePayload ∧
    verifyToken referenceRuntime sampleEnv sampleTime
      (payloadSegment sampleToken ++ '.' ::
        "LpFy12uBNPcO+Tf54zmKHaLisp/nW4+AplSST+VYW6s ".toList) = .ok samplePayload ∧
    samplePayload ≠ .null := by
  decide!

/-- Two sequences of six-bit groups that differ in a last group of three have
the same bytes exactly when that group differs in its two low bits only. -/
theorem decodeSextets_snoc : ∀ (A : List Nat) (x y : Nat), A.length % 4 = 2 →
    x < 64 → y < 64 →
    (decodeSextets (A ++ [x]) = decodeSextets (A ++ [y]) ↔ x / 4 = y / 4)
  | [a, b], x, y, _, _, _ => by
    simp only [List.cons_append, List.nil_append, decodeSextets, List.cons.injEq, and_true,
      true_and]
    omega
  | a :: b :: c :: d :: rest, x, y, h, hx, hy => by
    have h' : rest.length % 4 = 2 := by
      simp only [List.length_cons] at h
      omega
    have ih := decodeSextets_snoc rest x y h' hx hy
    simp only [List.cons_append, decodeSextets, List.cons.injEq, true_and]
    exact ih
  | [], _, _, h, _, _ => by simp at h
  | [_], _, _, h, _, _ => by simp at h
  | [_, _, _], _, _, h, _, _ => by simp at h

/-- Removal of the padding from a text that does not end in `=`. -/
theorem stripPadding_not_pad (l : JSString) (c : Char) (hc : c ≠ '=') :
    stripPadding (l ++ [c]) = l ++ [c] := by
  unfold stripPadding
  have e : (l ++ [c]).reverse = c :: l.reverse := by simp
  rw [e]
  split
  · rename_i heq
    simp only [List.cons.injEq] at heq
    exact absurd heq.1 hc
  · rename_i heq
    simp only [List.cons.injEq] at heq
    exact absurd heq.1 hc
  · rfl

/-- The base64 text of 32 bytes split at one of its characters. -/
theorem encodeBytes_32_positions (bytes : List Nat) (hb : ∀ b ∈ bytes, b < 256)
    (hlen : bytes.length = 32) (pre post : JSString) (c : Char)
    (hs : encodeBytes bytes = pre ++ c :: post) :
    pre.length < 42 ∨
    (pre.length = 42 ∧ ∃ (A : List Nat) (x : Nat), sextetsOf bytes = A ++ [x] ∧ A.length = 42 ∧
      (∀ s ∈ A, s < 64) ∧ x < 64 ∧ pre = A.map b64Char ∧ c = b64Char x ∧ post = ['=']) ∨
    (pre.length = 43 ∧ pre = (sextetsOf bytes).map b64Char ∧ c = '=' ∧ post = []) := by
  obtain ⟨hS, h43⟩ := encodeBytes_32 bytes hlen
  have hlt := sextetsOf_lt bytes hb
  generalize sextetsOf bytes = S at hS h43 hlt
  have htot : pre.length + 1 + post.length = 44 := by
    have := congrArg List.length hs
    rw [hS] at this
    simp only [List.length_append, List.length_map, List.length_cons, List.length_nil] at this
    omega
  by_cases h1 : pre.length < 42
  · exact Or.inl h1
  · by_cases h2 : pre.length = 42
    · right; left
      refine ⟨h2, ?_⟩
      have hne : S ≠ [] := by
        intro e
        rw [e] at h43
        simp at h43
      have hd : S = S.dropLast ++ [S.getLast hne] := (List.dropLast_append_getLast hne).symm
      have hA : S.dropLast.length = 42 := by
        rw [List.length_dropLast]
        omega
      refine ⟨S.dropLast, S.getLast hne, hd, hA, ?_, ?_, ?_⟩
      · intro s hs'
        exact hlt s (List.mem_of_mem_dropLast hs')
      · exact hlt _ (List.getLast_mem hne)
      · rw [hs] at hS
        rw [hd] at hS
        simp only [List.map_append, List.map_cons, List.map_nil, List.append_assoc,
          List.singleton_append] at hS
        have hl : pre.length = (S.dropLast.map b64Char).length := by
          rw [List.length_map, hA, h2]
        obtain ⟨e1, e2⟩ := List.append_inj hS hl
        simp only [List.cons.injEq] at e2
        exact ⟨e1, e2.1, e2.2⟩
    · right; right
      have h3 : pre.length = 43 := by omega
      refine ⟨h3, ?_⟩
      rw [hs] at hS
      have hl : pre.length = (S.map b64Char).length := by
        rw [List.length_map, h43, h3]
      obtain ⟨e1, e2⟩ := List.append_inj hS hl
      simp only [List.cons.injEq] at e2
      exact ⟨e1, e2.1, e2.2⟩


theorem dot_not_mem_map_b64Char (xs : List Nat) : '.' ∉ xs.map b64Char := by
  intro h
  obtain ⟨x, _, hx⟩ := List.mem_map.1 h
  exact b64Char_ne_dot x hx

/-- The function `atob` on a text of characters of the alphabet followed by
one `=`. -/
theorem atob_map_b64Char_pad (xs : List Nat) (h : ∀ x ∈ xs, x < 64)
    (hl : xs.length % 4 = 3) :
    atob (xs.map b64Char ++ ['=']) = .ok ((decodeSextets xs).map Char.ofNat) := by
  unfold atob
  have hf : (xs.map b64Char ++ ['=']).filter (fun c => !isAsciiWhitespace c) =
      xs.map b64Char ++ ['='] := by
    have e1 : (!isAsciiWhitespace '=') = true := by decide
    simp [List.filter_append, List.filter_cons, filter_ws_map_b64Char, e1]
  have hl4 : (xs.map b64Char ++ ['=']).length % 4 = 0 := by
    simp only [List.length_append, List.length_map, List.length_cons, List.length_nil]
    omega
  have hl1 : ¬ (xs.map b64Char).length % 4 = 1 := by
    rw [List.length_map]
    omega
  simp only [hf]
  rw [if_pos hl4, stripPadding_one _ (pad_not_mem_map_b64Char xs), if_neg hl1,
    sextetsOfText_map_b64Char xs h]

/-- The signature segment after a replacement at position 42 of the base64
text of 32 bytes, by a character of the alphabet or by any other character. -/
theorem atob_tampered_42 (A : List Nat) (x : Nat) (c' : Char) (hA : A.length = 42)
    (hltA : ∀ s ∈ A, s < 64) :
    (∀ y, b64Index c' = some y →
      atob ((split '.' (A.map b64Char ++ c' :: ['='])).headD []) =
        .ok ((decodeSextets (A ++ [y])).map Char.ofNat)) ∧
    (b64Index c' = none →
      ∀ s, atob ((split '.' (A.map b64Char ++ c' :: ['='])).headD []) = .ok s →
        s.length ≠ (decodeSextets (A ++ [x])).length) := by
  have hlen32 : (decodeSextets (A ++ [x])).length = 32 := by
    rw [length_decodeSextets]
    simp only [List.length_append, List.length_cons, List.length_nil, hA]
    decide
  have hlen31 : (decodeSextets A).length = 31 := by
    rw [length_decodeSextets, hA]
    decide
  have hdotA := dot_not_mem_map_b64Char A
  constructor
  · intro y hy
    have hc : c' = b64Char y := (b64Char_of_b64Index c' y hy).symm
    have hy64 : y < 64 := b64Index_lt c' y hy
    subst hc
    have hlt : ∀ s ∈ A ++ [y], s < 64 := by
      intro s hs
      rcases List.mem_append.1 hs with h | h
      · exact hltA s h
      · simp only [List.mem_singleton] at h
        rw [h]
        exact hy64
    have e : A.map b64Char ++ b64Char y :: ['='] = (A ++ [y]).map b64Char ++ ['='] := by simp
    have hnodot : '.' ∉ (A ++ [y]).map b64Char ++ ['='] := by
      intro h
      rcases List.mem_append.1 h with h | h
      · exact dot_not_mem_map_b64Char _ h
      · simp at h
    rw [e, split_no_sep _ _ hnodot]
    simp only [List.headD_cons]
    exact atob_map_b64Char_pad (A ++ [y]) hlt (by
      simp only [List.length_append, List.length_cons, List.length_nil, hA])
  · intro hnone s hat
    rw [hlen32]
    by_cases hdot : c' = '.'
    · subst hdot
      rw [split_append_sep _ _ _ hdotA] at hat
      simp only [List.headD_cons] at hat
      rw [atob_map_b64Char A hltA] at hat
      rw [if_neg (by rw [hA]; decide)] at hat
      injection hat with hat
      rw [← hat, List.length_map, hlen31]
      decide
    · have hnodot : '.' ∉ A.map b64Char ++ c' :: ['='] := by
        intro h
        rcases List.mem_append.1 h with h | h
        · exact hdotA h
        · simp only [List.mem_cons, List.mem_singleton, List.not_mem_nil, or_false] at h
          rcases h with h | h
          · exact hdot h.symm
          · cases h
      rw [split_no_sep _ _ hnodot] at hat
      simp only [List.headD_cons] at hat
      have e1 : (!isAsciiWhitespace '=') = true := by decide
      have hpad : b64Index '=' = none := by decide
      by_cases hws : isAsciiWhitespace c' = true
      · exfalso
        unfold atob at hat
        have hf : (A.map b64Char ++ c' :: ['=']).filter (fun c => !isAsciiWhitespace c) =
            A.map b64Char ++ '=' :: [] := by
          simp [List.filter_append, List.filter_cons, filter_ws_map_b64Char, hws, e1]
        have hl : (A.map b64Char ++ '=' :: []).length % 4 = 3 := by
          simp only [List.length_append, List.length_map, List.length_cons, List.length_nil, hA]
        have n30 : ¬ ((3 : Nat) = 0) := by decide
        have n31 : ¬ ((3 : Nat) = 1) := by decide
        simp only [hf, hl, n30, n31, if_false] at hat
        rw [sextetsOfText_append_cons A hltA, hpad] at hat
        simp at hat
      · have hws' : isAsciiWhitespace c' = false := by simpa using hws
        by_cases hpc : c' = '='
        · subst hpc
          unfold atob at hat
          have hf : (A.map b64Char ++ '=' :: ['=']).filter (fun c => !isAsciiWhitespace c) =
              A.map b64Char ++ ['=', '='] := by
            simp [List.filter_append, List.filter_cons, filter_ws_map_b64Char, e1]
          have hl : (A.map b64Char ++ ['=', '=']).length % 4 = 0 := by
            simp only [List.length_append, List.length_map, List.length_cons, List.length_nil,
              hA]
          have hl1 : ¬ (A.map b64Char).length % 4 = 1 := by
            rw [List.length_map, hA]
            decide
          simp only [hf] at hat
          rw [if_pos hl, stripPadding_two, if_neg hl1, sextetsOfText_map_b64Char A hltA] at hat
          injection hat with hat
          rw [← hat, List.length_map, hlen31]
          decide
        · exfalso
          unfold atob at hat
          have hf : (A.map b64Char ++ c' :: ['=']).filter (fun c => !isAsciiWhitespace c) =
              A.map b64Char ++ [c'] ++ ['='] := by
            simp [List.filter_append, List.filter_cons, filter_ws_map_b64Char, hws', e1]
          have hl : (A.map b64Char ++ [c'] ++ ['=']).length % 4 = 0 := by
            simp only [List.length_append, List.length_map, List.length_cons, List.length_nil,
              hA]
          have hl1 : ¬ (A.map b64Char ++ [c']).length % 4 = 1 := by
            simp only [List.length_append, List.length_map, List.length_cons, List.length_nil,
              hA]
            decide
          simp only [hf] at hat
          rw [if_pos hl, stripPadding_snoc _ _ hpc, if_neg hl1] at hat
          have e2 : A.map b64Char ++ [c'] = A.map b64Char ++ c' :: [] := rfl
          rw [e2, sextetsOfText_append_cons A hltA, hnone] at hat
          simp at hat


/-- The signature segment after a replacement of the padding, position 43 of
the base64 text of 32 bytes: with white space or a dot in its place the segment
decodes to the same bytes, with any other character it does not decode to 32
bytes. -/
theorem atob_tampered_43 (S : List Nat) (c' : Char) (hS : S.length = 43)
    (hlt : ∀ s ∈ S, s < 64) (hne : c' ≠ '=') :
    ((isAsciiWhitespace c' || c' == '.') = true →
      atob ((split '.' (S.map b64Char ++ c' :: [])).headD []) =
        .ok ((decodeSextets S).map Char.ofNat)) ∧
    ((isAsciiWhitespace c' || c' == '.') = false →
      ∀ s, atob ((split '.' (S.map b64Char ++ c' :: [])).headD []) = .ok s →
        s.length ≠ (decodeSextets S).length) := by
  have hlen32 : (decodeSextets S).length = 32 := by
    rw [length_decodeSextets, hS]
    decide
  have hdotS := dot_not_mem_map_b64Char S
  have hl1 : ¬ S.length % 4 = 1 := by
    rw [hS]
    decide
  by_cases hdot : c' = '.'
  · subst hdot
    constructor
    · intro _
      rw [split_append_sep _ _ _ hdotS]
      simp only [List.headD_cons]
      rw [atob_map_b64Char S hlt, if_neg hl1]
    · intro h
      simp at h
  · have hnodot : '.' ∉ S.map b64Char ++ c' :: [] := by
      intro h
      rcases List.mem_append.1 h with h | h
      · exact hdotS h
      · simp only [List.mem_singleton] at h
        exact hdot h.symm
    rw [split_no_sep _ _ hnodot]
    simp only [List.headD_cons]
    have hdot' : (c' == '.') = false := by simpa using hdot
    by_cases hws : isAsciiWhitespace c' = true
    · constructor
      · intro _
        unfold atob
        have hf : (S.map b64Char ++ c' :: []).filter (fun c => !isAsciiWhitespace c) =
            S.map b64Char := by
          simp [List.filter_append, List.filter_cons, filter_ws_map_b64Char, hws]
        have hl : ¬ (S.map b64Char).length % 4 = 0 := by
          rw [List.length_map, hS]
          decide
        have hl1' : ¬ (S.map b64Char).length % 4 = 1 := by
          rw [List.length_map]
          exact hl1
        simp only [hf]
        rw [if_neg hl, if_neg hl1', sextetsOfText_map_b64Char S hlt]
      · intro h
        rw [hws] at h
        simp at h
    · have hws' : isAsciiWhitespace c' = false := by simpa using hws
      constructor
      · intro h
        rw [hws', hdot'] at h
        simp at h
      · intro _ s hat
        rw [hlen32]
        unfold atob at hat
        have hf : (S.map b64Char ++ c' :: []).filter (fun c => !isAsciiWhitespace c) =
            S.map b64Char ++ [c'] := by
          simp [List.filter_append, List.filter_cons, filter_ws_map_b64Char, hws']
        have hl : (S.map b64Char ++ [c']).length % 4 = 0 := by
          simp only [List.length_append, List.length_map, List.length_cons, List.length_nil,
            hS]
        have hl1' : ¬ (S.map b64Char ++ [c']).length % 4 = 1 := by
          simp only [List.length_append, List.length_map, List.length_cons, List.length_nil,
            hS]
          decide
        simp only [hf] at hat
        rw [if_pos hl, stripPadding_not_pad _ _ hne, if_neg hl1'] at hat
        have e2 : S.map b64Char ++ [c'] = S.map b64Char ++ c' :: [] := rfl
        rw [e2, sextetsOfText_append_cons S hlt] at hat
        cases hi : b64Index c' with
        | none =>
          rw [hi] at hat
          simp at hat
        | some y =>
          rw [hi] at hat
          simp only [sextetsOfText] at hat
          injection hat with hat
          rw [← hat, List.length_map, length_decodeSextets]
          simp only [List.length_append, List.length_cons, List.length_nil, hS]
          decide


/-- A single character replaced in the base64 text of 32 bytes, at any
position: what `verifyToken` then takes as the signature segment decodes to the
32 bytes exactly when the replacement is one of those that `keepsSignature`
names. -/
theorem tampered_signature (bytes : List Nat) (hb : ∀ b ∈ bytes, b < 256)
    (hlen : bytes.length = 32) (pre post : JSString) (c c' : Char)
    (hs : encodeBytes bytes = pre ++ c :: post) (hne : c' ≠ c) :
    (keepsSignature pre.length c c' = true →
      atob ((split '.' (pre ++ c' :: post)).headD []) = .ok (bytes.map Char.ofNat)) ∧
    (keepsSignature pre.length c c' = false →
      ∀ s, atob ((split '.' (pre ++ c' :: post)).headD []) = .ok s →
        s.map Char.toNat ≠ bytes) := by
  have hdec : decodeSextets (sextetsOf bytes) = bytes := decodeSextets_sextetsOf bytes hb
  rcases encodeBytes_32_positions bytes hb hlen pre post c hs with
    h1 | ⟨h2, A, x, hAx, hA, hltA, hx, hpre, hc, hpost⟩ | ⟨h3, hpre, hc, hpost⟩
  · have hk : keepsSignature pre.length c c' = false := by
      have n1 : (pre.length == 42) = false := by
        simp only [beq_eq_false_iff_ne, ne_eq]
        omega
      have n2 : (pre.length == 43) = false := by
        simp only [beq_eq_false_iff_ne, ne_eq]
        omega
      simp only [keepsSignature, n1, n2, Bool.false_and, Bool.or_self]
    constructor
    · intro h
      rw [hk] at h
      cases h
    · intro _ s hat
      exact tampered_signature_differs bytes hb hlen pre post c c' hs h1 hne s hat
  · subst hpre hc hpost
    rw [hAx] at hdec
    have hk : keepsSignature (A.map b64Char).length (b64Char x) c' =
        match b64Index c' with
        | some y => x / 4 == y / 4
        | none => false := by
      have n2 : ((A.map b64Char).length == 43) = false := by
        simp only [beq_eq_false_iff_ne, ne_eq]
        omega
      have p1 : ((A.map b64Char).length == 42) = true := by
        simp only [beq_iff_eq]
        exact h2
      simp only [keepsSignature, n2, p1, Bool.true_and, Bool.false_and, Bool.or_false,
        b64Index_b64Char x hx]
      cases b64Index c' <;> rfl
    obtain ⟨hsome, hnone⟩ := atob_tampered_42 A x c' hA hltA
    rw [hk]
    constructor
    · intro h
      cases hi : b64Index c' with
      | none =>
        rw [hi] at h
        cases h
      | some y =>
        rw [hi] at h
        simp only [beq_iff_eq] at h
        have hy : y < 64 := b64Index_lt c' y hi
        rw [hsome y hi, ← hdec,
          (decodeSextets_snoc A x y (by rw [hA]) hx hy).2 h]
    · intro h s hat
      cases hi : b64Index c' with
      | none =>
        intro e
        have hl := hnone hi s hat
        apply hl
        rw [hdec, ← e, List.length_map]
      | some y =>
        rw [hi] at h
        have hy : y < 64 := b64Index_lt c' y hi
        have hxy : ¬ x / 4 = y / 4 := by
          intro e
          rw [e] at h
          simp at h
        rw [hsome y hi] at hat
        injection hat with hat
        subst hat
        have hlt : ∀ s ∈ A ++ [y], s < 64 := by
          intro s hs'
          rcases List.mem_append.1 hs' with h' | h'
          · exact hltA s h'
          · simp only [List.mem_singleton] at h'
            rw [h']
            exact hy
        rw [map_toNat_decodeSextets _ hlt, ← hdec]
        intro e
        exact hxy ((decodeSextets_snoc A x y (by rw [hA]) hx hy).1 e.symm)
  · subst hpre hc hpost
    have hS : (sextetsOf bytes).length = 43 := (encodeBytes_32 bytes hlen).2
    have hlt := sextetsOf_lt bytes hb
    have hk : keepsSignature ((sextetsOf bytes).map b64Char).length '=' c' =
        (isAsciiWhitespace c' || c' == '.') := by
      have n1 : (((sextetsOf bytes).map b64Char).length == 42) = false := by
        simp only [beq_eq_false_iff_ne, ne_eq]
        omega
      have p2 : (((sextetsOf bytes).map b64Char).length == 43) = true := by
        simp only [beq_iff_eq]
        exact h3
      simp only [keepsSignature, n1, p2, Bool.true_and, Bool.false_and, Bool.false_or]
    obtain ⟨hkeep, hdiff⟩ := atob_tampered_43 (sextetsOf bytes) c' hS hlt hne
    rw [hk]
    constructor
    · intro h
      rw [hkeep h, hdec]
    · intro h s hat e
      apply hdiff h s hat
      rw [hdec, ← e, List.length_map]


/-- The result of `verifyToken` depends on a token only through its payload
segment and what its signature segment decodes to. -/
theorem verifyToken_congr (rt : Runtime) (env : Env) (now : Nat) (t1 t2 : JSString)
    (h1 : t1 ≠ []) (h2 : t2 ≠ []) (hp : payloadSegment t1 = payloadSegment t2)
    (hs : atob (signatureSegment t1) = atob (signatureSegment t2)) :
    verifyToken rt env now t1 = verifyToken rt env now t2 := by
  rw [verifyToken_eq _ _ _ _ h1, verifyToken_eq _ _ _ _ h2, verifyTokenBody_eq,
    verifyTokenBody_eq, hp, hs]

set_option maxRecDepth 100000 in
/-- The sample token is the token that `generateToken` issues. -/
theorem sampleToken_generated :
    generateToken referenceRuntime sampleEnv sampleTime (.str "admin@example.com".toList) =
      .ok sampleToken := by
  decide!

set_option maxRecDepth 100000 in
/-- The reference platform reads the JSON text of the sample payload back. -/
theorem samplePayload_parsed :
    referenceRuntime.parse (referenceRuntime.stringify
      (tokenPayload (.str "admin@example.com".toList) sampleTime)) =
      .ok (tokenPayload (.str "admin@example.com".toList) sampleTime) := by
  decide!

set_option maxRecDepth 100000 in
/-- The signature of the sample payload has 32 bytes. -/
theorem sampleSignature_length (mac : List Nat)
    (h : referenceRuntime.hmac sampleEnv.AUTH_SECRET (referenceRuntime.stringify
      (tokenPayload (.str "admin@example.com".toList) sampleTime)) = .ok mac) :
    mac.length = 32 := by
  have e : mac = Sha256.hmac (utf8Encode sampleEnv.AUTH_SECRET)
      (utf8Encode (referenceRuntime.stringify
        (tokenPayload (.str "admin@example.com".toList) sampleTime))) := by
    injection h with h
    exact h.symm
  rw [e]
  decide!

/-- C5, amended: in a token that `generateToken` returned, whose signature is
one of 32 bytes, replacing any single character of the signature segment by any
different character makes `verifyToken` return `null`, at every clock time,
unless the replacement leaves the decoded signature as it is. Those
replacements are: at position 42 (the 43rd character) a character of the
alphabet that differs from the original in the two unused low bits only, and at
position 43 (the padding `=`) a white space character or a dot. After one of
them `verifyToken` returns what it returns for the token itself. No
replacement before position 42 is one of them. -/
theorem C5_signature_tamper (rt : Runtime) (env : Env) (email : JSString) (issued now : Nat)
    (tok pre post : JSString) (c c' : Char)
    (hgen : generateToken rt env issued (.str email) = .ok tok)
    (hjson : rt.parse (rt.stringify (tokenPayload (.str email) issued)) =
      .ok (tokenPayload (.str email) issued))
    (h32 : ∀ mac, rt.hmac env.AUTH_SECRET (rt.stringify (tokenPayload (.str email) issued)) =
      .ok mac → mac.length = 32)
    (hsig : signatureSegment tok = pre ++ c :: post) (hne : c' ≠ c) :
    (keepsSignature pre.length c c' = false →
      verifyToken rt env now (payloadSegment tok ++ '.' :: (pre ++ c' :: post)) = .ok .null) ∧
    (keepsSignature pre.length c c' = true →
      verifyToken rt env now (payloadSegment tok ++ '.' :: (pre ++ c' :: post)) =
        verifyToken rt env now tok) ∧
    (pre.length < 42 → keepsSignature pre.length c c' = false) := by
  obtain ⟨mac, hmac, hb, rfl⟩ := generateToken_ok rt env issued (.str email) tok hgen
  have hd1 := dot_not_mem_encodeBytes
    ((rt.stringify (tokenPayload (.str email) issued)).map Char.toNat)
  have hd2 := dot_not_mem_encodeBytes (asBytes mac)
  rw [payloadSegment_append _ _ hd1]
  rw [signatureSegment_append _ _ hd1, split_no_sep _ _ hd2] at hsig
  simp only [List.headD_cons] at hsig
  have hlen : (asBytes mac).length = 32 := by
    rw [asBytes, List.length_map]
    exact h32 mac hmac
  obtain ⟨hkeep, hdiff⟩ := tampered_signature (asBytes mac) (asBytes_lt mac) hlen pre post c c'
    hsig hne
  refine ⟨?_, ?_, ?_⟩
  · intro hk
    rw [verifyToken_eq _ _ _ _ (by simp), verifyTokenBody_eq, payloadSegment_append _ _ hd1,
      signatureSegment_append _ _ hd1, atob_btoa _ _ hb]
    simp only [hjson]
    have hexp : getField (tokenPayload (.str email) issued) "exp".toList =
        .ok (.num ((issued + sevenDays : Nat) : Int)) := by
      simp [tokenPayload, getField, getProp]
    rw [hexp]
    simp only
    by_cases h4 : lessThanNow rt (.num ((issued + sevenDays : Nat) : Int)) now = true
    · simp only [h4, if_true]
    · simp only [h4, hmac]
      cases hat : atob ((split '.' (pre ++ c' :: post)).headD []) with
      | error e => rfl
      | ok s =>
        have := hdiff hk s hat
        simp [this]
  · intro hk
    apply verifyToken_congr rt env now _ _ (by simp) (by simp)
    · rw [payloadSegment_append _ _ hd1, payloadSegment_append _ _ hd1]
    · rw [signatureSegment_append _ _ hd1, signatureSegment_append _ _ hd1,
        split_no_sep _ _ hd2]
      simp only [List.headD_cons]
      rw [hkeep hk, atob_encodeBytes _ (asBytes_lt mac)]
  · intro hpos
    have n1 : (pre.length == 42) = false := by
      simp only [beq_eq_false_iff_ne, ne_eq]
      omega
    have n2 : (pre.length == 43) = false := by
      simp only [beq_eq_false_iff_ne, ne_eq]
      omega
    simp only [keepsSignature, n1, n2, Bool.false_and, Bool.or_self]

set_option maxRecDepth 100000 in
/-- C5, amended, at the sample token. Its first signature character `L`
replaced by `M`, its 43rd character `s` replaced by `A` or by `!`, and its
padding `=` replaced by `A` each make `verifyToken` return `null`; with `s`
replaced by `t`, which differs in the unused bits only, the result is that of
the token itself. -/
theorem C5_signature_tamper_witness :
    verifyToken referenceRuntime sampleEnv sampleTime
      (payloadSegment sampleToken ++ '.' ::
        ([] ++ 'M' :: "pFy12uBNPcO+Tf54zmKHaLisp/nW4+AplSST+VYW6s=".toList)) = .ok .null ∧
    verifyToken referenceRuntime sampleEnv sampleTime
      (payloadSegment sampleToken ++ '.' ::
        ("LpFy12uBNPcO+Tf54zmKHaLisp/nW4+AplSST+VYW6".toList ++ 'A' :: "=".toList)) = .ok .null ∧
    verifyToken referenceRuntime sampleEnv sampleTime
      (payloadSegment sampleToken ++ '.' ::
        ("LpFy12uBNPcO+Tf54zmKHaLisp/nW4+AplSST+VYW6".toList ++ '!' :: "=".toList)) = .ok .null ∧
    verifyToken referenceRuntime sampleEnv sampleTime
      (payloadSegment sampleToken ++ '.' ::
        ("LpFy12uBNPcO+Tf54zmKHaLisp/nW4+AplSST+VYW6s".toList ++ 'A' :: [])) = .ok .null ∧
    verifyToken referenceRuntime sampleEnv sampleTime
      (payloadSegment sampleToken ++ '.' ::
        ("LpFy12uBNPcO+Tf54zmKHaLisp/nW4+AplSST+VYW6".toList ++ 't' :: "=".toList)) =
      verifyToken referenceRuntime sampleEnv sampleTime sampleToken :=
  ⟨(C5_signature_tamper referenceRuntime sampleEnv "admin@example.com".toList sampleTime
      sampleTime sampleToken [] "pFy12uBNPcO+Tf54zmKHaLisp/nW4+AplSST+VYW6s=".toList 'L' 'M'
      sampleToken_generated samplePayload_parsed sampleSignature_length
      (by decide) (by decide)).1 (by decide),
   (C5_signature_tamper referenceRuntime sampleEnv "admin@example.com".toList sampleTime
      sampleTime sampleToken "LpFy12uBNPcO+Tf54zmKHaLisp/nW4+AplSST+VYW6".toList "=".toList
      's' 'A' sampleToken_generated samplePayload_parsed sampleSignature_length
      (by decide) (by decide)).1 (by decide),
   (C5_signature_tamper referenceRuntime sampleEnv "admin@example.com".toList sampleTime
      sampleTime sampleToken "LpFy12uBNPcO+Tf54zmKHaLisp/nW4+AplSST+VYW6".toList "=".toList
      's' '!' sampleToken_generated samplePayload_parsed sampleSignature_length
      (by decide) (by decide)).1 (by decide),
   (C5_signature_tamper referenceRuntime sampleEnv "admin@example.com".toList sampleTime
      sampleTime sampleToken "LpFy12uBNPcO+Tf54zmKHaLisp/nW4+AplSST+VYW6s".toList [] '=' 'A'
      sampleToken_generated samplePayload_parsed sampleSignature_length
      (by decide) (by decide)).1 (by decide),
   (C5_signature_tamper referenceRuntime sampleEnv "admin@example.com".toList sampleTime
      sampleTime sampleToken "LpFy12uBNPcO+Tf54zmKHaLisp/nW4+AplSST+VYW6".toList "=".toList
      's' 't' sampleToken_generated samplePayload_parsed sampleSignature_length
      (by decide) (by decide)).2.1 (by decide)⟩

/-! ## C8: a document without front matter -/

theorem findFirst_some (pat s a b : JSString) (h : findFirst pat s = some (a, b)) :
    s = a ++ pat ++ b := by
  induction s generalizing a b with
  | nil =>
    unfold findFirst at h
    split_ifs at h with hp
    cases pat with
    | nil => simp at h; simp [h.1, h.2]
    | cons p ps => simp [List.isPrefixOf] at hp
  | cons c cs ih =>
    unfold findFirst at h
    split_ifs at h with hp
    · simp only [Option.some.injEq, Prod.mk.injEq] at h
      obtain ⟨rfl, rfl⟩ := h
      have := List.isPrefixOf_iff_prefix.1 hp
      obtain ⟨t, ht⟩ := this
      rw [← ht]
      simp
    · cases hr : findFirst pat cs with
      | none => simp [hr] at h
      | some r =>
        obtain ⟨a', b'⟩ := r
        simp only [hr, Option.map_some', Option.some.injEq, Prod.mk.injEq] at h
        obtain ⟨rfl, rfl⟩ := h
        rw [ih a' b' hr]
        simp

theorem findFirst_isSome (pat a b : JSString) : (findFirst pat (a ++ pat ++ b)).isSome := by
  induction a with
  | nil =>
    have hp : pat.isPrefixOf (pat ++ b) = true := List.isPrefixOf_iff_prefix.2 ⟨b, rfl⟩
    simp [findFirst_here _ _ hp]
  | cons c cs ih =>
    simp only [List.cons_append, findFirst]
    split_ifs
    · rfl
    · simp only [List.append_assoc] at ih
      simp [Option.isSome_map', ih]

/-- The regular expression matches exactly the documents with a delimited block. -/
theorem frontMatterRegex_isSome_iff (s : JSString) :
    (frontMatterRegex s).isSome ↔ HasDelimitedBlock s := by
  constructor
  · intro h
    unfold frontMatterRegex at h
    split_ifs at h with hp
    · obtain ⟨t, ht⟩ := List.isPrefixOf_iff_prefix.1 hp
      have hd : s.drop 4 = t := by rw [← ht]; simp
      rw [hd] at h
      cases t with
      | nil => simp at h
      | cons c cs =>
        simp only at h
        cases hr : findFirst "\n---\n".toList cs with
        | none =>
          rw [hr] at h
          cases h
        | some r =>
          obtain ⟨a, b⟩ := r
          refine ⟨c :: a, b, by simp, ?_⟩
          rw [← ht, findFirst_some _ _ _ _ hr]
          simp
    · simp at h
  · rintro ⟨block, body, hne, rfl⟩
    cases block with
    | nil => exact absurd rfl hne
    | cons c cs =>
      unfold frontMatterRegex
      have hp : startsWith ("---\n".toList ++ (c :: cs) ++ "\n---\n".toList ++ body)
          "---\n".toList = true := by
        simp [startsWith]
      rw [if_pos hp]
      have hd : ("---\n".toList ++ (c :: cs) ++ "\n---\n".toList ++ body).drop 4 =
          c :: (cs ++ "\n---\n".toList ++ body) := by simp
      rw [hd]
      simp only [Option.isSome_map']
      exact findFirst_isSome _ _ _

theorem parseMarkdown_of_no_block (s : JSString) (h : ¬ HasDelimitedBlock s) :
    parseMarkdown s = { metadata := [], content := s } := by
  have hn : frontMatterRegex s = none := by
    cases hr : frontMatterRegex s with
    | none => rfl
    | some r =>
      exfalso
      apply h
      rw [← frontMatterRegex_isSome_iff, hr]
      rfl
  simp [parseMarkdown, hn]



theorem first_sep_unique (c : Char) (a b t u : JSString) (h : a ++ c :: t = b ++ c :: u)
    (ha : c ∉ a) (hb : c ∉ b) : a = b := by
  have h1 := split_append_sep c a t ha
  have h2 := split_append_sep c b u hb
  rw [h, h2] at h1
  simp only [List.cons.injEq] at h1
  exact h1.1.symm

theorem join_cons_shape (sep l : JSString) (rest : List JSString) :
    join sep (l :: rest) = l ∨ ∃ t, join sep (l :: rest) = l ++ sep ++ t := by
  cases rest with
  | nil => exact Or.inl rfl
  | cons q qs => exact Or.inr ⟨join sep (q :: qs), rfl⟩

/-- C8, as stated, fails: the document `---`, `x`, `---`, `body` has no
`key: value` line between its delimiter lines, so it does not have the shape the
claim names, and still `parseMarkdown` takes the block as front matter: the
content it returns is `body`, not the whole document. -/
theorem C8_counterexample_block_without_keys :
    ¬ HasKeyValueFrontMatter "---\nx\n---\nbody".toList ∧
    parseMarkdown "---\nx\n---\nbody".toList = { metadata := [], content := "body".toList } ∧
    parseMarkdown "---\nx\n---\nbody".toList ≠
      { metadata := [], content := "---\nx\n---\nbody".toList } := by
  refine ⟨?_, by decide, by decide⟩
  rintro ⟨lines, body, hne, hkv, hs⟩
  cases lines with
  | nil => exact hne rfl
  | cons l rest =>
    have hl := hkv l (by simp)
    have e0 : "---\nx\n---\nbody".toList = "---\n".toList ++ ("x".toList ++ '\n' :: "---\nbody".toList) := by
      decide
    rw [e0, List.append_assoc, List.append_assoc] at hs
    have hs' := List.append_cancel_left hs
    have key : ∃ u, "x".toList ++ '\n' :: "---\nbody".toList = l ++ '\n' :: u := by
      rcases join_cons_shape "\n".toList l rest with h | ⟨t, h⟩
      · rw [h] at hs'
        exact ⟨"---\n".toList ++ body, by rw [hs']; simp⟩
      · rw [h] at hs'
        exact ⟨t ++ "\n---\n".toList ++ body, by rw [hs']; simp⟩
    obtain ⟨u, hu⟩ := key
    have := first_sep_unique '\n' _ _ _ _ hu (by decide) hl.1
    have hc := hl.2
    rw [← this] at hc
    revert hc
    decide

/-- C8, amended: for every string that does not have the shape "a delimiter
line `---`, one or more characters of any kind, a line break and a delimiter
line `---`, a body", `parseMarkdown` returns empty metadata and the whole input,
untrimmed, as content. It is a total function: it raises on no string. -/
theorem C8_no_front_matter (s : JSString) (h : ¬ HasDelimitedBlock s) :
    parseMarkdown s = { metadata := [], content := s } :=
  parseMarkdown_of_no_block s h

/-- C8, amended, at a document whose two delimiter lines enclose nothing. -/
theorem C8_no_front_matter_witness :
    parseMarkdown "---\n---\n text \n".toList =
      { metadata := [], content := "---\n---\n text \n".toList } :=
  C8_no_front_matter "---\n---\n text \n".toList (by
    rw [← frontMatterRegex_isSome_iff]
    decide)

/-! ## C9: metadata lines are split at the first colon -/

theorem getProp_defineProp {α : Type} (o : Props α) (k k' : JSString) (v : α) :
    getProp (defineProp o k v) k' = if k = k' then some v else getProp o k' := by
  induction o with
  | nil => simp [defineProp, getProp]
  | cons p rest ih =>
    obtain ⟨k0, v0⟩ := p
    simp only [defineProp]
    by_cases h0 : k0 = k
    · subst h0
      simp only [if_true, getProp]
      split_ifs <;> rfl
    · simp only [if_neg h0]
      by_cases hb : (comesBefore k k0 && !hasProp rest k) = true
      · simp only [hb, if_true, getProp]
      · simp only [hb, getProp, ih]
        by_cases h1 : k0 = k'
        · subst h1
          simp [Ne.symm h0]
        · simp [h1]

theorem getProp_assignProp (o : Props JSString) (k k' : JSString) (v : JSString) :
    getProp (assignProp o k v) k' =
      if k = "__proto__".toList then getProp o k'
      else if k = k' then some v else getProp o k' := by
  unfold assignProp
  split_ifs <;> simp_all [getProp_defineProp]

theorem first_occurrence (c : Char) (l : JSString) (h : c ∈ l) :
    ∃ s t, l = s ++ c :: t ∧ c ∉ s := by
  induction l with
  | nil => simp at h
  | cons a l ih =>
    by_cases ha : a = c
    · exact ⟨[], l, by simp [ha], by simp⟩
    · have hl : c ∈ l := by
        rcases List.mem_cons.1 h with h | h
        · exact absurd h.symm ha
        · exact h
      obtain ⟨s, t, hst, hs⟩ := ih hl
      refine ⟨a :: s, t, by simp [hst], ?_⟩
      intro hm
      rcases List.mem_cons.1 hm with hm | hm
      · exact ha hm.symm
      · exact hs hm

/-- What a metadata line does: nothing, or one assignment of the trimmed text
before its first colon to the trimmed text after it. -/
theorem parseLine_cases (metadata : Props JSString) (line : JSString) :
    parseLine metadata line = metadata ∨
    ∃ key value, line = key ++ ':' :: value ∧ ':' ∉ key ∧ key ≠ [] ∧
      parseLine metadata line = assignProp metadata (trim key) (trim value) := by
  by_cases hc : ':' ∈ line
  · obtain ⟨key, value, rfl, hk⟩ := first_occurrence ':' line hc
    by_cases hne : key = []
    · left
      subst hne
      simp [parseLine, split]
    · right
      exact ⟨key, value, rfl, hk, hne, parseLine_key_value metadata key value hk hne⟩
  · left
    exact parseLine_no_colon metadata line hc

/-- A key keeps its value over the lines that do not assign it. -/
theorem getProp_foldl_parseLine_other (lines : List JSString) (metadata : Props JSString)
    (k : JSString)
    (h : ∀ l ∈ lines, ∀ key value, l = key ++ ':' :: value → ':' ∉ key → key ≠ [] →
      trim key ≠ k) :
    getProp (lines.foldl parseLine metadata) k = getProp metadata k := by
  induction lines generalizing metadata with
  | nil => rfl
  | cons l rest ih =>
    simp only [List.foldl]
    rw [ih _ (fun l' hl' => h l' (by simp [hl']))]
    rcases parseLine_cases metadata l with e | ⟨key, value, hl, hk, hne, e⟩
    · rw [e]
    · rw [e, getProp_assignProp]
      have := h l (by simp) key value hl hk hne
      split_ifs
      · rfl
      · rfl

/-- Every key of the metadata comes from a line with a colon and a key. -/
theorem getProp_foldl_parseLine_source (lines : List JSString) (metadata : Props JSString)
    (k v : JSString) (h : getProp (lines.foldl parseLine metadata) k = some v) :
    getProp metadata k = some v ∨
    ∃ line ∈ lines, ∃ key value, line = key ++ ':' :: value ∧ ':' ∉ key ∧ key ≠ [] ∧
      trim key = k ∧ trim value = v := by
  induction lines generalizing metadata with
  | nil => exact Or.inl h
  | cons l rest ih =>
    simp only [List.foldl] at h
    rcases ih _ h with h1 | ⟨line, hm, key, value, h2⟩
    · rcases parseLine_cases metadata l with e | ⟨key, value, hl, hk, hne, e⟩
      · rw [e] at h1
        exact Or.inl h1
      · rw [e, getProp_assignProp] at h1
        split_ifs at h1 with hp hk'
        · exact Or.inl h1
        · right
          simp only [Option.some.injEq] at h1
          exact ⟨l, by simp, key, value, hl, hk, hne, hk', h1⟩
        · exact Or.inl h1
    · exact Or.inr ⟨line, by simp [hm], key, value, h2⟩



/-- C9, as stated, fails for one key: the metadata line `__proto__: x` has the
text `__proto__` before its first colon, and the assignment
`metadata['__proto__'] = 'x'` reaches the `__proto__` setter of
`Object.prototype`, which ignores a string: the metadata gets no such key. -/
theorem C9_counterexample_proto_key :
    frontMatterRegex "---\n__proto__: x\n---\n".toList = some ("__proto__: x".toList, []) ∧
    split '\n' "__proto__: x".toList = ["__proto__: x".toList] ∧
    "__proto__: x".toList = "__proto__".toList ++ ':' :: " x".toList ∧
    ':' ∉ "__proto__".toList ∧ "__proto__".toList ≠ [] ∧
    getProp (parseMarkdown "---\n__proto__: x\n---\n".toList).metadata
      (trim "__proto__".toList) = none ∧
    getProp (parseMarkdown "---\n__proto__: x\n---\n".toList).metadata
      (trim "__proto__".toList) ≠ some (trim " x".toList) := by
  decide

/-- C9, amended: in a document that `parseMarkdown` recognises as having front
matter, a line of the metadata block with a non-empty text before its first
colon binds the trimmed text before the first colon to the trimmed text after
it, later colons kept, provided that the key is not `__proto__` and that no
later line has the same key (of a repeated key the last line wins). Conversely
every key of the metadata comes from such a line: a line without a colon, or
with nothing before its first colon, adds no key. -/
theorem C9_first_colon_split (s frontMatter body : JSString)
    (hm : frontMatterRegex s = some (frontMatter, body)) :
    (∀ (before : List JSString) (line : JSString) (after : List JSString)
        (key value : JSString),
      split '\n' frontMatter = before ++ line :: after →
      line = key ++ ':' :: value → ':' ∉ key → key ≠ [] →
      trim key ≠ "__proto__".toList →
      (∀ l ∈ after, ∀ k v, l = k ++ ':' :: v → ':' ∉ k → k ≠ [] → trim k ≠ trim key) →
      getProp (parseMarkdown s).metadata (trim key) = some (trim value)) ∧
    (∀ k v, getProp (parseMarkdown s).metadata k = some v →
      ∃ line ∈ split '\n' frontMatter, ∃ key value,
        line = key ++ ':' :: value ∧ ':' ∉ key ∧ key ≠ [] ∧ trim key = k ∧ trim value = v) := by
  have hp : (parseMarkdown s).metadata = (split '\n' frontMatter).foldl parseLine [] := by
    simp [parseMarkdown, hm]
  constructor
  · intro before line after key value hsplit hline hk hne hproto hlast
    rw [hp, hsplit, List.foldl_append, List.foldl_cons,
      getProp_foldl_parseLine_other after _ _ hlast, hline,
      parseLine_key_value _ key value hk hne, getProp_assignProp, if_neg hproto, if_pos rfl]
  · intro k v hkv
    rw [hp] at hkv
    rcases getProp_foldl_parseLine_source _ _ k v hkv with h | h
    · simp [getProp] at h
    · exact h

/-- C9, amended, at the line `url: http://a:80` of a document with two metadata
lines. -/
theorem C9_first_colon_split_witness :
    getProp (parseMarkdown "---\ntitle: T\nurl: http://a:80\n---\nbody".toList).metadata
      (trim "url".toList) = some (trim " http://a:80".toList) :=
  (C9_first_colon_split "---\ntitle: T\nurl: http://a:80\n---\nbody".toList
    "title: T\nurl: http://a:80".toList "body".toList (by decide)).1
    ["title: T".toList] "url: http://a:80".toList [] "url".toList " http://a:80".toList
    (by decide) (by decide) (by decide) (by decide) (by decide)
    (fun _ h => absurd h (List.not_mem_nil _))

/-! ## The gateway: credentials -/

theorem verifyToken_returns (rt : Runtime) (env : Env) (now : Nat) (token : JSString) :
    ∃ v, verifyToken rt env now token = .ok v := by
  by_cases hne : token = []
  · exact ⟨.null, by simp [verifyToken, hne]⟩
  · exact ⟨_, verifyToken_eq rt env now token hne⟩

theorem requireAuth_present (rt : Runtime) (env : Env) (now : Nat) (request : Request)
    (header : JSString) (hh : request.authorization = some header) (hne : header ≠ []) :
    ∃ v, requireAuth rt env now request = .ok v := by
  unfold requireAuth
  rw [hh]
  simp only [if_neg hne]
  exact verifyToken_returns _ _ _ _

theorem requireAuth_absent (rt : Runtime) (env : Env) (now : Nat) (request : Request)
    (hh : request.authorization = none) :
    requireAuth rt env now request = .error (mkError "未授权".toList) := by
  unfold requireAuth
  rw [hh]

theorem Async.ofExcept_ok_bind {α β : Type} (v : α) (f : α → Async β) :
    (Async.ofExcept (.ok v) >>= f) = f v := by
  funext up trace
  rfl

theorem Async.ofExcept_error_bind {α β : Type} (e : JSError) (f : α → Async β) :
    (Async.ofExcept (.error e) >>= f) = Async.ofExcept (.error e) := by
  funext up trace
  rfl

/-- The parts of the path of a post route. -/
theorem parts_postRoute (category filename : JSString)
    (hc : category ≠ []) (hc' : '/' ∉ category) (hf : filename ≠ []) (hf' : '/' ∉ filename) :
    (split '/' (postRoute category filename)).filter (fun p => p ≠ []) =
      ["posts".toList, category, filename] := by
  have e : postRoute category filename =
      [] ++ '/' :: ("posts".toList ++ '/' :: (category ++ '/' :: filename)) := by
    simp [postRoute]
  rw [e, split_append_sep _ _ _ (by simp), split_append_sep _ _ _ (by decide),
    split_append_sep _ _ _ hc', split_no_sep _ _ hf']
  simp [List.filter, hc, hf]

/-- The dispatch of `handleRequest` on a post route. -/
theorem handleRequest_postRoute (rt : Runtime) (env : Env) (now : Nat) (request : Request)
    (category filename : JSString) (hm : request.method ≠ "OPTIONS".toList)
    (hp : request.pathname = postRoute category filename) :
    handleRequest rt env now request = handlePost rt env now request request.pathname := by
  unfold handleRequest Async.tryReturn
  rw [if_neg hm]
  have h1 : request.pathname ≠ "/auth/login".toList := by
    rw [hp]; simp [postRoute]
  have h2 : request.pathname ≠ "/posts".toList := by
    rw [hp]; simp [postRoute]
  have h3 : startsWith request.pathname "/posts/".toList = true := by
    rw [hp]; simp [postRoute, startsWith]
  simp only [if_neg h1, if_neg h2, h3, if_true]



/-! ## C4: a request without a credential -/

/-- C4, what the code does: for every `PUT /posts/{category}/{filename}` request
without an `Authorization` header, `requireAuth` throws `Error('未授权')`, the
promise of `handleRequest` is rejected with that error, and no call to the
content host is made: the trace of calls is left as it was. There is no
response, so there is no status 401. -/
theorem C4_missing_credential_rejected (rt : Runtime) (env : Env) (now : Nat)
    (request : Request) (category filename : JSString) (up : Upstream)
    (trace : List FetchCall)
    (hm : request.method = "PUT".toList)
    (hp : request.pathname = postRoute category filename)
    (hc : category ≠ []) (hc' : '/' ∉ category) (hf : filename ≠ []) (hf' : '/' ∉ filename)
    (ha : request.authorization = none) :
    handleRequest rt env now request up trace = (.error (mkError "未授权".toList), trace) := by
  rw [handleRequest_postRoute rt env now request category filename (by rw [hm]; decide) hp]
  unfold handlePost
  rw [hp]
  simp only [parts_postRoute category filename hc hc' hf hf']
  rw [if_neg (by rw [hm]; decide), if_pos hm, requireAuth_absent rt env now request ha,
    Async.ofExcept_error_bind]
  rfl

/-- C4, what the code does, at `PUT /posts/tech/2024-01-01-test.md`. -/
theorem C4_missing_credential_rejected_witness :
    handleRequest referenceRuntime sampleEnv sampleTime putWithoutCredential sampleUpstream [] =
      (.error (mkError "未授权".toList), []) :=
  C4_missing_credential_rejected referenceRuntime sampleEnv sampleTime putWithoutCredential
    "tech".toList "2024-01-01-test.md".toList sampleUpstream [] rfl (by decide) (by decide)
    (by decide) (by decide) (by decide) rfl

/-! ## C3: a request with a rejected token -/

/-- C3, what the code does: when a request carries an `Authorization` header
whose token `verifyToken` rejects with `null`, each route that requires a
credential runs its handler all the same, because the value that `requireAuth`
resolves to is never looked at: `POST /posts` is `createNewPost`,
`PUT` and `DELETE /posts/{category}/{filename}` are `updatePost` and
`deletePost`, and `POST /images` is the upload. -/
theorem C3_rejected_token_proceeds (rt : Runtime) (env : Env) (now : Nat)
    (request : Request) (header : JSString)
    (hh : request.authorization = some header) (hne : header ≠ [])
    (hrej : verifyToken rt env now (replaceFirst "Bearer ".toList [] header) = .ok .null) :
    (request.method = "POST".toList → request.pathname = "/posts".toList →
      handleRequest rt env now request = createNewPost rt env request) ∧
    (∀ category filename, category ≠ [] → '/' ∉ category → filename ≠ [] → '/' ∉ filename →
      request.pathname = postRoute category filename →
      (request.method = "PUT".toList →
        handleRequest rt env now request = updatePost rt env request category filename) ∧
      (request.method = "DELETE".toList →
        handleRequest rt env now request = deletePost env category filename)) ∧
    (request.method = "POST".toList → request.pathname = "/images".toList →
      handleRequest rt env now request = uploadImage rt env now request) := by
  have hauth : requireAuth rt env now request = .ok .null := by
    unfold requireAuth
    rw [hh]
    simp only [if_neg hne]
    exact hrej
  refine ⟨?_, ?_, ?_⟩
  · intro hm hp
    unfold handleRequest Async.tryReturn handlePosts
    rw [if_neg (by rw [hm]; decide), if_neg (by rw [hp]; decide), if_pos hp,
      if_neg (by rw [hm]; decide), if_pos hm, hauth, Async.ofExcept_ok_bind]
  · intro category filename hc hc' hf hf' hp
    constructor
    · intro hm
      rw [handleRequest_postRoute rt env now request category filename (by rw [hm]; decide) hp]
      unfold handlePost
      rw [hp]
      simp only [parts_postRoute category filename hc hc' hf hf']
      rw [if_neg (by rw [hm]; decide), if_pos hm, hauth, Async.ofExcept_ok_bind]
    · intro hm
      rw [handleRequest_postRoute rt env now request category filename (by rw [hm]; decide) hp]
      unfold handlePost
      rw [hp]
      simp only [parts_postRoute category filename hc hc' hf hf']
      rw [if_neg (by rw [hm]; decide), if_neg (by rw [hm]; decide), if_pos hm, hauth,
        Async.ofExcept_ok_bind]
  · intro hm hp
    unfold handleRequest Async.tryReturn handleImageUpload
    rw [if_neg (by rw [hm]; decide), if_neg (by rw [hp]; decide), if_neg (by rw [hp]; decide),
      if_neg (by rw [hp]; decide), if_pos hp, if_neg (by rw [hm]; decide), hauth,
      Async.ofExcept_ok_bind]

set_option maxRecDepth 100000 in
/-- C3, what the code does, at `POST /posts` with the header `Bearer invalid`:
the token is rejected, and the post is created on the content host with one
`PUT` call and answered with status 200. -/
theorem C3_rejected_token_proceeds_witness :
    verifyToken referenceRuntime sampleEnv sampleTime "invalid".toList = .ok .null ∧
    (handleRequest referenceRuntime sampleEnv sampleTime postWithBadToken sampleUpstream []).1
      = .ok (jsonResponse (.obj
          [("success".toList, .bool true),
           ("file".toList, .obj [("content".toList, .obj
              [("sha".toList, .str "sha-2".toList),
               ("download_url".toList, .str "https://raw.example/new".toList)])])]) 200) ∧
    (handleRequest referenceRuntime sampleEnv sampleTime postWithBadToken sampleUpstream []).2.map
        (fun call => (call.method, call.url)) =
      [("PUT".toList,
        "https://api.github.com/repos/owner/blog/contents/posts/tech/2024-01-01-test.md".toList)] := by
  have h := (C3_rejected_token_proceeds referenceRuntime sampleEnv sampleTime postWithBadToken
    "Bearer invalid".toList rfl (by decide) (by decide!)).1 rfl rfl
  rw [h]
  decide!



/-! ## C7: the allow-list of the login -/

/-- The dispatch of `handleRequest` on `POST /auth/login`: the steps of
`handleLogin` after the method check. -/
theorem handleRequest_login (rt : Runtime) (env : Env) (now : Nat) (request : Request)
    (body email : JSValue)
    (hm : request.method = "POST".toList) (hp : request.pathname = "/auth/login".toList)
    (hj : request.json = .ok body) (he : getField body "email".toList = .ok email) :
    handleRequest rt env now request =
      if !includes ((split ',' env.ALLOWED_EMAILS).map trim) email then
        pure (jsonResponse (errorBody "未授权的邮箱".toList) 401)
      else
        Async.ofExcept (generateToken rt env now email) >>= fun token =>
          pure (jsonResponse
            (.obj [("token".toList, .str token), ("email".toList, email)]) 200) := by
  have hpw : ∃ password, getField body "password".toList = .ok password := by
    cases body <;> simp [getField] at he ⊢
  obtain ⟨password, hpw⟩ := hpw
  unfold handleRequest Async.tryReturn handleLogin
  rw [if_neg (by rw [hm]; decide), if_pos hp, if_neg (by rw [hm]; simp), hj,
    Async.ofExcept_ok_bind, he, Async.ofExcept_ok_bind, hpw, Async.ofExcept_ok_bind]

set_option maxRecDepth 100000 in
/-- C7, what the code does for an allow-listed address with characters above
U+00FF: the address is an entry of the allow-list, `generateToken` calls `btoa`
on the JSON text of the payload, `btoa` throws, and the promise of
`handleRequest` is rejected: there is no response with status 200 and a token. -/
theorem C7_allowed_unicode_email_rejected :
    includes ((split ',' unicodeEnv.ALLOWED_EMAILS).map trim) (.str "用户@example.com".toList)
      = true ∧
    handleRequest referenceRuntime unicodeEnv sampleTime (loginRequest "用户@example.com".toList)
      sampleUpstream [] = (.error invalidCharacterError, []) := by
  decide!

/-- The login of an address that is not an entry of the allow-list (the entries
are the trimmed pieces between the commas) is answered with status 401 and the
error envelope, which holds no token, and no call is made. -/
theorem login_denied (rt : Runtime) (env : Env) (now : Nat) (request : Request)
    (body email : JSValue) (up : Upstream) (trace : List FetchCall)
    (hm : request.method = "POST".toList) (hp : request.pathname = "/auth/login".toList)
    (hj : request.json = .ok body) (he : getField body "email".toList = .ok email)
    (hout : includes ((split ',' env.ALLOWED_EMAILS).map trim) email = false) :
    handleRequest rt env now request up trace =
      (.ok (jsonResponse (errorBody "未授权的邮箱".toList) 401), trace) := by
  rw [handleRequest_login rt env now request body email hm hp hj he, hout]
  rfl

/-- The login of `eve@example.com` under the sample configuration. -/
theorem login_denied_witness :
    handleRequest referenceRuntime sampleEnv sampleTime (loginRequest "eve@example.com".toList)
      sampleUpstream [] = (.ok (jsonResponse (errorBody "未授权的邮箱".toList) 401), []) :=
  login_denied referenceRuntime sampleEnv sampleTime (loginRequest "eve@example.com".toList)
    (.obj [("email".toList, .str "eve@example.com".toList),
      ("password".toList, .str "x".toList)])
    (.str "eve@example.com".toList) sampleUpstream [] rfl rfl rfl (by decide) (by decide)

/-- The login of an address that is an entry of the allow-list, when
`generateToken` returns a token, is answered with status 200 and the object
`{ token, email }`. -/
theorem login_granted (rt : Runtime) (env : Env) (now : Nat) (request : Request)
    (body email : JSValue) (token : JSString) (up : Upstream) (trace : List FetchCall)
    (hm : request.method = "POST".toList) (hp : request.pathname = "/auth/login".toList)
    (hj : request.json = .ok body) (he : getField body "email".toList = .ok email)
    (hin : includes ((split ',' env.ALLOWED_EMAILS).map trim) email = true)
    (hgen : generateToken rt env now email = .ok token) :
    handleRequest rt env now request up trace =
      (.ok (jsonResponse (.obj [("token".toList, .str token), ("email".toList, email)]) 200),
        trace) := by
  rw [handleRequest_login rt env now request body email hm hp hj he, hin, hgen,
    Async.ofExcept_ok_bind]
  rfl

set_option maxRecDepth 100000 in
/-- The login of `admin@example.com` under the sample configuration. -/
theorem login_granted_witness :
    handleRequest referenceRuntime sampleEnv sampleTime
      (loginRequest "admin@example.com".toList) sampleUpstream [] =
      (.ok (jsonResponse (.obj [("token".toList, .str sampleToken),
        ("email".toList, .str "admin@example.com".toList)]) 200), []) :=
  login_granted referenceRuntime sampleEnv sampleTime (loginRequest "admin@example.com".toList)
    (.obj [("email".toList, .str "admin@example.com".toList),
      ("password".toList, .str "x".toList)])
    (.str "admin@example.com".toList) sampleToken sampleUpstream [] rfl rfl rfl (by decide)
    (by decide) (by decide!)

/-! ## C10: the list of posts and partial failure -/

/-- A run of `githubRequest`: its outcome does not depend on the calls made
before, and it adds one call. -/
theorem githubRequest_run (env : Env) (path method : JSString) (body : Option JSValue)
    (up : Upstream) (trace : List FetchCall) :
    githubRequest env path method body up trace =
      ((githubRequest env path method body up []).1,
        trace ++ [githubCall env path method body]) := by
  unfold githubRequest
  simp only [bind, Async.bind, Async.fetch]
  cases up (githubCall env path method body) with
  | error e => rfl
  | ok response =>
    simp only
    cases response.ok with
    | true => simp [Async.ofExcept]
    | false =>
      simp only [Bool.not_false, if_true, Async.ofExcept]
      cases response.text <;> rfl

theorem listFile_descriptor (category : JSString) (file : JSValue)
    (h : isFileDescriptor file = true) :
    listFile category file =
      .ok (if endsWith (fileName file) ".md".toList then some (entryOf category file)
        else none) := by
  unfold isFileDescriptor at h
  cases file with
  | obj props =>
    unfold getField at h
    simp only at h
    cases hn : getProp props "name".toList with
    | none =>
      rw [hn] at h
      simp at h
    | some v =>
      rw [hn] at h
      cases v with
      | str name =>
        unfold listFile fileName entryOf fieldOf fileName
        simp only [getField, hn, Option.getD_some, bind, Except.bind, pure, Except.pure]
        split_ifs <;> rfl
      | _ => simp at h
  | _ => simp [getField] at h

theorem pushFiles_wellFormed (category : JSString) (items : List JSValue)
    (allPosts : List ListedPost) (h : items.all isFileDescriptor = true) :
    pushFiles category items allPosts =
      (allPosts ++ (items.filter (fun file => endsWith (fileName file) ".md".toList)).map
        (entryOf category), none) := by
  induction items generalizing allPosts with
  | nil => simp [pushFiles]
  | cons file rest ih =>
    simp only [List.all_cons, Bool.and_eq_true] at h
    simp only [pushFiles, listFile_descriptor category file h.1]
    by_cases hmd : endsWith (fileName file) ".md".toList = true
    · simp only [hmd, if_true, ih _ h.2, List.filter_cons_of_pos, List.map_cons]
      simp
    · simp only [hmd]
      rw [ih _ h.2, List.filter_cons_of_neg (by simpa using hmd)]
      rfl

/-- One turn of the loop over the categories adds the files named `*.md` of the
category, or nothing when its listing fails. -/
theorem listCategory_run (env : Env) (allPosts : List ListedPost) (category : JSString)
    (up : Upstream) (trace : List FetchCall)
    (hwf : (match listingOutcome env up category with
      | .ok listing => wellFormedListing listing
      | .error _ => true) = true) :
    listCategory env allPosts category up trace =
      (.ok (allPosts ++ markdownFiles env up category),
        trace ++ [githubCall env (categoryPath env category) "GET".toList none]) := by
  unfold listCategory Async.tryAwait markdownFiles
  simp only [bind, Async.bind]
  rw [githubRequest_run]
  unfold listingOutcome at hwf ⊢
  cases hl : (githubRequest env (categoryPath env category) "GET".toList none up []).1 with
  | error e =>
    simp only [pure, Async.pure, List.append_nil]
  | ok listing =>
    rw [hl] at hwf
    simp only at hwf
    unfold wellFormedListing at hwf
    simp only [Async.ofExcept]
    cases hi : iterate listing with
    | error e => simp only [pure, Async.pure, List.append_nil]
    | ok items =>
      rw [hi] at hwf
      simp only at hwf
      simp only [pure, Async.pure, pushFiles_wellFormed category items allPosts hwf]

/-- The callback of `getPostsList` on a listed file: it makes one call, never
fails, and returns the post built from whatever text the response has. -/
theorem fetchPost_run (post : ListedPost) (up : Upstream) (trace : List FetchCall) :
    fetchPost post up trace = (.ok (fetchedPost up post), trace ++ [downloadCall post]) := by
  unfold fetchPost Async.tryAwait fetchedPost downloadedText
  simp only [bind, Async.bind, Async.fetch]
  cases up (downloadCall post) with
  | error e => rfl
  | ok response =>
    simp only [Async.ofExcept]
    cases response.text <;> rfl

theorem forEachM_fetchPost_run (posts : List ListedPost) (up : Upstream)
    (trace : List FetchCall) :
    Async.forEachM fetchPost posts up trace =
      (.ok (posts.map (fetchedPost up)), trace ++ posts.map downloadCall) := by
  induction posts generalizing trace with
  | nil => simp [Async.forEachM, Async.pure]
  | cons post rest ih =>
    simp only [Async.forEachM, Async.bind, fetchPost_run, ih, Async.pure, List.map_cons,
      List.append_assoc, List.singleton_append]

theorem filterMap_id_map {α β : Type} (f : α → Option β) (l : List α) :
    (l.map f).filterMap id = l.filterMap f := by
  induction l with
  | nil => rfl
  | cons a l ih =>
    simp only [List.map_cons, List.filterMap_cons, id, ih]

/-- What `getPostsList` answers: for every behaviour of the content host whose
successful listings are arrays of file descriptors, the answer has status 200
and the body `{ posts }`, where the posts are those that the callback returns
for the files named `*.md` of the categories `diary`, `tech`, `life`, in this
order. A category whose listing fails leaves out its own entries only, and so
does a file for which `fetch` or `text()` is rejected. -/
theorem getPostsList_answer (env : Env) (up : Upstream) (trace : List FetchCall)
    (hwf : listingsWellFormed env up = true) :
    (getPostsList env up trace).1 =
      .ok { status := 200,
            body := some (.obj [("posts".toList, .arr (returnedPosts env up))]),
            headers := ("Content-Type".toList, "application/json".toList) :: CORS_HEADERS } := by
  unfold listingsWellFormed categories at hwf
  simp only [List.all_cons, List.all_nil, Bool.and_true, Bool.and_eq_true] at hwf
  obtain ⟨h1, h2, h3⟩ := hwf
  unfold getPostsList
  simp only [bind, Async.bind, listCategory_run env _ _ up _ h1,
    listCategory_run env _ _ up _ h2, listCategory_run env _ _ up _ h3,
    forEachM_fetchPost_run, pure, Async.pure, filterMap_id_map]
  simp [returnedPosts, categories, List.flatMap, jsonResponse]

set_option maxRecDepth 100000 in
/-- The answer of `getPostsList` at the sample content host: the listing of
`diary` fails, `notes.txt` is no markdown file and the download of `b.md` is
rejected; the posts are those of `2024-01-01-a.md` and `2024-02-02-c.md`. -/
theorem getPostsList_answer_witness :
    returnedPosts sampleEnv sampleUpstream =
      [.obj [("id".toList, .str "sha-a".toList),
          ("filename".toList, .str "2024-01-01-a.md".toList),
          ("category".toList, .str "tech".toList),
          ("date".toList, .str "2024-01-01".toList),
          ("title".toList, .str "A".toList),
          ("content".toList, .str "Hello".toList)],
       .obj [("id".toList, .str "sha-c".toList),
          ("filename".toList, .str "2024-02-02-c.md".toList),
          ("category".toList, .str "life".toList),
          ("date".toList, .str "2024-02-02".toList),
          ("title".toList, .str "2024-02-02-c".toList),
          ("content".toList, .str "no front matter".toList)]] ∧
    (getPostsList sampleEnv sampleUpstream []).1 =
      .ok { status := 200,
            body := some (.obj [("posts".toList, .arr (returnedPosts sampleEnv sampleUpstream))]),
            headers := ("Content-Type".toList, "application/json".toList) :: CORS_HEADERS } :=
  ⟨by decide!, getPostsList_answer sampleEnv sampleUpstream [] (by decide!)⟩

/-- Where every download that is answered is answered with a success status,
the posts that `getPostsList` returns are the posts of the specification. -/
theorem returnedPosts_eq_expectedPosts (env : Env) (up : Upstream)
    (hok : ∀ post response, up (downloadCall post) = .ok response → response.ok = true) :
    returnedPosts env up = expectedPosts env up := by
  unfold returnedPosts expectedPosts
  congr 1
  funext post
  unfold fetchedPost downloadedText downloadOutcome
  cases hu : up (downloadCall post) with
  | error e => rfl
  | ok response =>
    simp only [hok post response hu, if_true]
    cases response.text <;> rfl

set_option maxRecDepth 100000 in
/-- C10, what the code does when a download fails with a status: on a content
host where `posts/tech` lists `2024-01-01-a.md` and the download of that file is
answered with status 404 and the text `404: Not Found`, the download has failed
and the specification's list of posts is empty, but `getPostsList` answers with
status 200 and a post for the file whose content is the text of the error
page. The callback reads `r.text()` without looking at `r.ok`. -/
theorem C10_failed_download_kept :
    markdownFiles sampleEnv brokenDownloadUpstream "tech".toList =
      [entryOf "tech".toList
        (sampleFile "posts/tech".toList "2024-01-01-a.md".toList "sha-a".toList)] ∧
    brokenDownloadUpstream (downloadCall (entryOf "tech".toList
        (sampleFile "posts/tech".toList "2024-01-01-a.md".toList "sha-a".toList))) =
      .ok { ok := false,
            text := .ok "404: Not Found".toList,
            json := .error
              { name := "SyntaxError".toList, message := "Unexpected token".toList } } ∧
    downloadOutcome brokenDownloadUpstream (entryOf "tech".toList
        (sampleFile "posts/tech".toList "2024-01-01-a.md".toList "sha-a".toList)) = none ∧
    expectedPosts sampleEnv brokenDownloadUpstream = [] ∧
    (getPostsList sampleEnv brokenDownloadUpstream []).1 =
      .ok { status := 200,
            body := some (.obj [("posts".toList, .arr
              [.obj [("id".toList, .str "sha-a".toList),
                ("filename".toList, .str "2024-01-01-a.md".toList),
                ("category".toList, .str "tech".toList),
                ("date".toList, .str "2024-01-01".toList),
                ("title".toList, .str "2024-01-01-a".toList),
                ("content".toList, .str "404: Not Found".toList)]])]),
            headers :=
              [("Content-Type".toList, "application/json".toList),
               ("Access-Control-Allow-Origin".toList, "*".toList),
               ("Access-Control-Allow-Methods".toList,
                "GET, POST, PUT, DELETE, OPTIONS".toList),
               ("Access-Control-Allow-Headers".toList,
                "Content-Type, Authorization".toList)] } := by
  decide!

/-! ## C11: a read before every write -/

/-- The function `btoa` on a string of bytes. -/
theorem btoa_bytes (l : List Nat) (h : ∀ b ∈ l, b < 256) :
    btoa (l.map Char.ofNat) = .ok (encodeBytes l) := by
  have hall : (l.map Char.ofNat).all (fun c => c.toNat < 256) = true := by
    rw [List.all_eq_true]
    intro c hc
    obtain ⟨b, hb, rfl⟩ := List.mem_map.1 hc
    simpa [toNat_ofNat_byte b (h b hb)] using h b hb
  have hmap : (l.map Char.ofNat).map Char.toNat = l := by
    rw [List.map_map]
    conv_rhs => rw [← List.map_id l]
    apply List.map_congr_left
    intro b hb
    simp [Function.comp, toNat_ofNat_byte b (h b hb)]
  unfold btoa
  rw [if_pos hall, hmap]

/-- The steps of `updatePost` on a request whose body is JSON with a readable
`content`: the read, the encoding of the content, the `sha` of the read and the
write, each ending the handler when it fails. -/
theorem updatePost_run (rt : Runtime) (env : Env) (request : Request)
    (category filename : JSString) (up : Upstream) (trace : List FetchCall)
    (body content : JSValue)
    (hj : request.json = .ok body) (hc : getField body "content".toList = .ok content) :
    updatePost rt env request category filename up trace =
      match (githubRequest env (postPath env category filename) "GET".toList none up []).1 with
      | .error e =>
        (.error e, trace ++ [githubCall env (postPath env category filename) "GET".toList none])
      | .ok file =>
        match encodeContent rt content with
        | .error e =>
          (.error e,
            trace ++ [githubCall env (postPath env category filename) "GET".toList none])
        | .ok encoded =>
          match getField file "sha".toList with
          | .error e =>
            (.error e,
              trace ++ [githubCall env (postPath env category filename) "GET".toList none])
          | .ok sha =>
            ((githubRequest env (postPath env category filename) "PUT".toList
                (some (.obj
                  [("message".toList, .str ("Update post: ".toList ++ filename)),
                   ("content".toList, .str encoded),
                   ("sha".toList, sha)])) up []).1.map
                (fun result => jsonResponse
                  (.obj [("success".toList, .bool true), ("file".toList, result)]) 200),
              trace ++
                [githubCall env (postPath env category filename) "GET".toList none,
                 githubCall env (postPath env category filename) "PUT".toList
                  (some (.obj
                    [("message".toList, .str ("Update post: ".toList ++ filename)),
                     ("content".toList, .str encoded),
                     ("sha".toList, sha)]))]) := by
  unfold updatePost
  rw [hj, Async.ofExcept_ok_bind, hc, Async.ofExcept_ok_bind]
  simp only [bind, Async.bind]
  rw [githubRequest_run]
  cases (githubRequest env (postPath env category filename) "GET".toList none up []).1 with
  | error e => rfl
  | ok file =>
    simp only [Async.ofExcept]
    cases encodeContent rt content with
    | error e => rfl
    | ok encoded =>
      simp only
      cases getField file "sha".toList with
      | error e => rfl
      | ok sha =>
        simp only
        rw [githubRequest_run]
        simp only [List.append_assoc, List.singleton_append]
        cases (githubRequest env (postPath env category filename) "PUT".toList
          (some (.obj
            [("message".toList, .str ("Update post: ".toList ++ filename)),
             ("content".toList, .str encoded),
             ("sha".toList, sha)])) up []).1 <;> rfl

/-- The steps of `deletePost`: the read, the `sha` of the read and the write. -/
theorem deletePost_run (env : Env) (category filename : JSString) (up : Upstream)
    (trace : List FetchCall) :
    deletePost env category filename up trace =
      match (githubRequest env (postPath env category filename) "GET".toList none up []).1 with
      | .error e =>
        (.error e, trace ++ [githubCall env (postPath env category filename) "GET".toList none])
      | .ok file =>
        match getField file "sha".toList with
        | .error e =>
          (.error e,
            trace ++ [githubCall env (postPath env category filename) "GET".toList none])
        | .ok sha =>
          ((githubRequest env (postPath env category filename) "DELETE".toList
              (some (.obj
                [("message".toList, .str ("Delete post: ".toList ++ filename)),
                 ("sha".toList, sha)])) up []).1.map
              (fun _ => jsonResponse (.obj [("success".toList, .bool true)]) 200),
            trace ++
              [githubCall env (postPath env category filename) "GET".toList none,
               githubCall env (postPath env category filename) "DELETE".toList
                (some (.obj
                  [("message".toList, .str ("Delete post: ".toList ++ filename)),
                   ("sha".toList, sha)]))]) := by
  unfold deletePost
  simp only [bind, Async.bind]
  rw [githubRequest_run]
  cases (githubRequest env (postPath env category filename) "GET".toList none up []).1 with
  | error e => rfl
  | ok file =>
    simp only [Async.ofExcept]
    cases getField file "sha".toList with
    | error e => rfl
    | ok sha =>
      simp only
      rw [githubRequest_run]
      simp only [List.append_assoc, List.singleton_append]
      cases (githubRequest env (postPath env category filename) "DELETE".toList
        (some (.obj
          [("message".toList, .str ("Delete post: ".toList ++ filename)),
           ("sha".toList, sha)])) up []).1 <;> rfl

set_option maxRecDepth 100000 in
/-- C11, as stated, fails for an update whose body cannot be read: the request
`PUT /posts/tech/2024-01-01-test.md` with a valid token and a body that is not
JSON reaches `updatePost`, which awaits `request.json()` before anything else
and fails there. No call is made to the content host: neither the read nor the
`PUT`. -/
theorem C11_counterexample_unreadable_body :
    requireAuth referenceRuntime sampleEnv sampleTime putWithBadBody = .ok samplePayload ∧
    handleRequest referenceRuntime sampleEnv sampleTime putWithBadBody sampleUpstream [] =
      (.error { name := "SyntaxError".toList, message := "Unexpected token".toList }, []) ∧
    updatePost referenceRuntime sampleEnv putWithBadBody "tech".toList
        "2024-01-01-test.md".toList sampleUpstream [] =
      (.error { name := "SyntaxError".toList, message := "Unexpected token".toList }, []) := by
  decide!

/-- C11, amended: for every category and filename and every behaviour of the
content host and of the platform. `deletePost`, and `updatePost` on a request
whose body is JSON with a readable `content`, first read
`posts/{category}/{filename}` with a `GET`. When the read returns a file with a
`sha` and, for an update, the content can be encoded, exactly one more call
follows, the `PUT` (or `DELETE`) on the same path, and the `sha` it sends is the
`sha` of the read. When the read fails, or returns nothing a `sha` can be read
from, or the content of an update cannot be encoded, the read is the only call
and the handler fails with that error. An update whose body cannot be read makes
no call at all. -/
theorem C11_read_then_write (rt : Runtime) (env : Env) (request : Request)
    (category filename : JSString) (up : Upstream) (trace : List FetchCall) :
    (∀ file sha,
      (githubRequest env (postPath env category filename) "GET".toList none up trace).1
        = .ok file →
      getField file "sha".toList = .ok sha →
      (deletePost env category filename up trace).2 =
        trace ++
          [githubCall env (postPath env category filename) "GET".toList none,
           githubCall env (postPath env category filename) "DELETE".toList
            (some (.obj
              [("message".toList, .str ("Delete post: ".toList ++ filename)),
               ("sha".toList, sha)]))] ∧
      ∀ body content encoded,
        request.json = .ok body → getField body "content".toList = .ok content →
        encodeContent rt content = .ok encoded →
        (updatePost rt env request category filename up trace).2 =
          trace ++
            [githubCall env (postPath env category filename) "GET".toList none,
             githubCall env (postPath env category filename) "PUT".toList
              (some (.obj
                [("message".toList, .str ("Update post: ".toList ++ filename)),
                 ("content".toList, .str encoded),
                 ("sha".toList, sha)]))]) ∧
    (∀ e,
      (githubRequest env (postPath env category filename) "GET".toList none up trace).1
        = .error e →
      deletePost env category filename up trace =
        (.error e,
          trace ++ [githubCall env (postPath env category filename) "GET".toList none]) ∧
      ∀ body content,
        request.json = .ok body → getField body "content".toList = .ok content →
        updatePost rt env request category filename up trace =
          (.error e,
            trace ++ [githubCall env (postPath env category filename) "GET".toList none])) ∧
    (∀ file e,
      (githubRequest env (postPath env category filename) "GET".toList none up trace).1
        = .ok file →
      getField file "sha".toList = .error e →
      deletePost env category filename up trace =
        (.error e,
          trace ++ [githubCall env (postPath env category filename) "GET".toList none]) ∧
      ∀ body content encoded,
        request.json = .ok body → getField body "content".toList = .ok content →
        encodeContent rt content = .ok encoded →
        updatePost rt env request category filename up trace =
          (.error e,
            trace ++ [githubCall env (postPath env category filename) "GET".toList none])) ∧
    (∀ file body content e,
      (githubRequest env (postPath env category filename) "GET".toList none up trace).1
        = .ok file →
      request.json = .ok body → getField body "content".toList = .ok content →
      encodeContent rt content = .error e →
      updatePost rt env request category filename up trace =
        (.error e,
          trace ++ [githubCall env (postPath env category filename) "GET".toList none])) ∧
    (∀ e, request.json = .error e →
      updatePost rt env request category filename up trace = (.error e, trace)) ∧
    (∀ body e, request.json = .ok body → getField body "content".toList = .error e →
      updatePost rt env request category filename up trace = (.error e, trace)) := by
  have hrun : (githubRequest env (postPath env category filename) "GET".toList none up trace).1 =
      (githubRequest env (postPath env category filename) "GET".toList none up []).1 := by
    rw [githubRequest_run]
  rw [hrun]
  refine ⟨?_, ?_, ?_, ?_, ?_, ?_⟩
  · intro file sha hr hs
    constructor
    · rw [deletePost_run, hr]
      simp only [hs]
    · intro body content encoded hj hc he
      rw [updatePost_run rt env request category filename up trace body content hj hc, hr]
      simp only [he, hs]
  · intro e hr
    constructor
    · rw [deletePost_run, hr]
    · intro body content hj hc
      rw [updatePost_run rt env request category filename up trace body content hj hc, hr]
  · intro file e hr hs
    constructor
    · rw [deletePost_run, hr]
      simp only [hs]
    · intro body content encoded hj hc he
      rw [updatePost_run rt env request category filename up trace body content hj hc, hr]
      simp only [he, hs]
  · intro file body content e hr hj hc he
    rw [updatePost_run rt env request category filename up trace body content hj hc, hr]
    simp only [he]
  · intro e hj
    unfold updatePost
    rw [hj, Async.ofExcept_error_bind]
    rfl
  · intro body e hj hc
    unfold updatePost
    rw [hj, Async.ofExcept_ok_bind, hc, Async.ofExcept_error_bind]
    rfl

set_option maxRecDepth 100000 in
/-- C11, amended, at `posts/tech/2024-01-01-test.md` with the new content `hi`,
whose encoding is `aGk=`. On the sample content host the read returns the `sha`
`sha-1`, and the update and the deletion each make the read and one write that
carries `sha-1`. On a content host that answers 404 the read is the only call
of either. -/
theorem C11_read_then_write_witness :
    encodeContent referenceRuntime (.str "hi".toList) = .ok "aGk=".toList ∧
    ((deletePost sampleEnv "tech".toList "2024-01-01-test.md".toList sampleUpstream []).2 =
      [] ++
        [githubCall sampleEnv (postPath sampleEnv "tech".toList "2024-01-01-test.md".toList)
          "GET".toList none,
         githubCall sampleEnv (postPath sampleEnv "tech".toList "2024-01-01-test.md".toList)
          "DELETE".toList
          (some (.obj
            [("message".toList, .str ("Delete post: ".toList ++ "2024-01-01-test.md".toList)),
             ("sha".toList, .str "sha-1".toList)]))]) ∧
    ((updatePost referenceRuntime sampleEnv putRequest "tech".toList
        "2024-01-01-test.md".toList sampleUpstream []).2 =
      [] ++
        [githubCall sampleEnv (postPath sampleEnv "tech".toList "2024-01-01-test.md".toList)
          "GET".toList none,
         githubCall sampleEnv (postPath sampleEnv "tech".toList "2024-01-01-test.md".toList)
          "PUT".toList
          (some (.obj
            [("message".toList, .str ("Update post: ".toList ++ "2024-01-01-test.md".toList)),
             ("content".toList, .str "aGk=".toList),
             ("sha".toList, .str "sha-1".toList)]))]) ∧
    (updatePost referenceRuntime sampleEnv putRequest "tech".toList
        "2024-01-01-test.md".toList notFoundUpstream [] =
      (.error (mkError "GitHub API error: Not Found".toList),
        [] ++ [githubCall sampleEnv
          (postPath sampleEnv "tech".toList "2024-01-01-test.md".toList) "GET".toList none])) :=
  ⟨by decide,
   ((C11_read_then_write referenceRuntime sampleEnv putRequest "tech".toList
      "2024-01-01-test.md".toList sampleUpstream []).1
      (.obj
        [("sha".toList, .str "sha-1".toList),
         ("content".toList, .str "LS0tCnRpdGxlOiBUCi0tLQoKaGk=\n".toList)])
      (.str "sha-1".toList) (by decide) (by decide)).1,
   ((C11_read_then_write referenceRuntime sampleEnv putRequest "tech".toList
      "2024-01-01-test.md".toList sampleUpstream []).1
      (.obj
        [("sha".toList, .str "sha-1".toList),
         ("content".toList, .str "LS0tCnRpdGxlOiBUCi0tLQoKaGk=\n".toList)])
      (.str "sha-1".toList) (by decide) (by decide)).2
      (.obj [("content".toList, .str "hi".toList)]) (.str "hi".toList) "aGk=".toList
      rfl (by decide) (by decide),
   ((C11_read_then_write referenceRuntime sampleEnv putRequest "tech".toList
      "2024-01-01-test.md".toList notFoundUpstream []).2.1
      (mkError "GitHub API error: Not Found".toList) (by decide)).2
      (.obj [("content".toList, .str "hi".toList)]) (.str "hi".toList) rfl (by decide)⟩

/-! ## C12: the error boundary of `handleRequest` -/

/-- C12, what the code does: for every request other than `OPTIONS` whose route
handler fails with an error `e`, the promise of `handleRequest` is rejected with
`e` after the same calls. Every branch of the `try` block returns the promise of
the handler without awaiting it, so the `catch` block does not run, and
`handleRequest` does not complete with the response of status 500 and body
`{ error: e.message }`. -/
theorem C12_handler_failure_escapes (rt : Runtime) (env : Env) (now : Nat) (request : Request)
    (up : Upstream) (trace trace' : List FetchCall) (e : JSError)
    (hm : request.method ≠ "OPTIONS".toList)
    (hfail :
      (request.pathname = "/auth/login".toList ∧
        handleLogin rt env now request up trace = (.error e, trace')) ∨
      (request.pathname = "/posts".toList ∧
        handlePosts rt env now request up trace = (.error e, trace')) ∨
      (startsWith request.pathname "/posts/".toList = true ∧
        handlePost rt env now request request.pathname up trace = (.error e, trace')) ∨
      (request.pathname = "/images".toList ∧
        handleImageUpload rt env now request up trace = (.error e, trace'))) :
    handleRequest rt env now request up trace = (.error e, trace') ∧
    handleRequest rt env now request up trace ≠
      (.ok (jsonResponse (errorBody e.message) 500), trace') := by
  have key : handleRequest rt env now request up trace = (.error e, trace') := by
    unfold handleRequest Async.tryReturn
    rw [if_neg hm]
    rcases hfail with ⟨hp, h⟩ | ⟨hp, h⟩ | ⟨hp, h⟩ | ⟨hp, h⟩
    · simp only [if_pos hp]
      exact h
    · rw [if_neg (by rw [hp]; decide), if_pos hp]
      exact h
    · by_cases h1 : request.pathname = "/auth/login".toList
      · rw [h1] at hp
        exact absurd hp (by decide)
      · by_cases h2 : request.pathname = "/posts".toList
        · rw [h2] at hp
          exact absurd hp (by decide)
        · simp only [if_neg h1, if_neg h2, hp, if_true]
          exact h
    · rw [if_neg (by rw [hp]; decide), if_neg (by rw [hp]; decide),
        if_neg (by rw [hp]; decide), if_pos hp]
      exact h
  refine ⟨key, ?_⟩
  rw [key]
  intro h
  cases h

/-- C12, what the code does, at `GET /posts/tech/missing.md` when the content
host answers 404 with the text `Not Found`: `githubRequest` throws
`GitHub API error: Not Found` and the promise of `handleRequest` is rejected
with it. -/
theorem C12_handler_failure_escapes_witness :
    handleRequest referenceRuntime sampleEnv sampleTime getMissing notFoundUpstream [] =
      (.error (mkError "GitHub API error: Not Found".toList),
        [githubCall sampleEnv (postPath sampleEnv "tech".toList "missing.md".toList)
          "GET".toList none]) ∧
    handleRequest referenceRuntime sampleEnv sampleTime getMissing notFoundUpstream [] ≠
      (.ok (jsonResponse (errorBody (mkError "GitHub API error: Not Found".toList).message) 500),
        [githubCall sampleEnv (postPath sampleEnv "tech".toList "missing.md".toList)
          "GET".toList none]) :=
  C12_handler_failure_escapes referenceRuntime sampleEnv sampleTime getMissing notFoundUpstream
    [] _ _ (by decide) (Or.inr (Or.inr (Or.inl ⟨by decide, by decide⟩)))

/-- The login with a body that is not JSON: the error of `request.json()` is the
outcome of `handleRequest`, and no response is produced. -/
theorem login_bad_body_escapes :
    handleRequest referenceRuntime sampleEnv sampleTime loginWithBadBody sampleUpstream [] =
      (.error { name := "SyntaxError".toList, message := "Unexpected token".toList }, []) := by
  decide

/-! ## C13: the name of a stored image -/

/-- The pieces of a split text, by the last separator of the text. -/
theorem split_afterLast (c : Char) (n : JSString) :
    match afterLast c n with
    | none => split c n = [n]
    | some e => ∃ p init, split c n = p :: init ++ [e] := by
  induction n with
  | nil => simp [afterLast, split]
  | cons a rest ih =>
    by_cases hac : a = c
    · cases hr : afterLast c rest with
      | none =>
        rw [hr] at ih
        simp only at ih
        simp only [afterLast, hr, if_pos hac, split, ih]
        exact ⟨[], [], by simp⟩
      | some e =>
        rw [hr] at ih
        obtain ⟨p, init, hs⟩ := ih
        simp only [afterLast, hr, split, if_pos hac, hs]
        exact ⟨[], p :: init, by simp⟩
    · cases hr : afterLast c rest with
      | none =>
        rw [hr] at ih
        simp only at ih
        simp only [afterLast, hr, if_neg hac, split, ih]
      | some e =>
        rw [hr] at ih
        obtain ⟨p, init, hs⟩ := ih
        simp only [afterLast, hr, split, if_neg hac, hs]
        exact ⟨a :: p, init, by simp⟩

/-- The expression `n.split('.').pop()`: the text after the last separator, and
the whole text when it has no separator. -/
theorem lastPiece_split (c : Char) (n : JSString) :
    lastPiece (split c n) = (afterLast c n).getD n := by
  have h := split_afterLast c n
  cases hr : afterLast c n with
  | none =>
    rw [hr] at h
    simp only at h
    simp [lastPiece, h]
  | some e =>
    rw [hr] at h
    obtain ⟨p, init, hs⟩ := h
    have e1 : p :: init ++ [e] = (p :: init) ++ [e] := rfl
    rw [lastPiece, hs, e1, List.getLastD_eq_getLast?, List.getLast?_append]
    simp

theorem afterLast_none_iff (c : Char) (n : JSString) : afterLast c n = none ↔ c ∉ n := by
  induction n with
  | nil => simp [afterLast]
  | cons a rest ih =>
    cases hr : afterLast c rest with
    | none =>
      have hnot := ih.1 hr
      by_cases hac : a = c
      · simp [afterLast, hr, hac]
      · simp [afterLast, hr, hac, hnot, Ne.symm hac]
    | some e =>
      have hin : c ∈ rest := by
        by_contra hcon
        rw [ih.2 hcon] at hr
        cases hr
      simp [afterLast, hr, hin]

/-- The text after the last separator has no separator, and the text is made of
a stem, the separator and it. -/
theorem afterLast_some (c : Char) (n e : JSString) (h : afterLast c n = some e) :
    c ∉ e ∧ ∃ stem, n = stem ++ c :: e := by
  induction n with
  | nil => simp [afterLast] at h
  | cons a rest ih =>
    cases hr : afterLast c rest with
    | none =>
      rw [afterLast, hr] at h
      simp only at h
      by_cases hac : a = c
      · rw [if_pos hac] at h
        simp only [Option.some.injEq] at h
        subst h
        exact ⟨(afterLast_none_iff c rest).1 hr, [], by simp [hac]⟩
      · rw [if_neg hac] at h
        cases h
    | some e' =>
      rw [afterLast, hr] at h
      simp only [Option.some.injEq] at h
      subst h
      obtain ⟨h1, stem, h2⟩ := ih hr
      exact ⟨h1, a :: stem, by rw [h2]; rfl⟩

/-- The statements of `handleImageUpload` for an upload with a credential and a
file: an error of `String.fromCharCode` ends the handler before any call, and
otherwise one `PUT` is made. -/
theorem handleRequest_upload (rt : Runtime) (env : Env) (now : Nat) (request : Request)
    (header : JSString) (form : FormData) (file : FormFile) (up : Upstream)
    (trace : List FetchCall)
    (hm : request.method = "POST".toList) (hp : request.pathname = "/images".toList)
    (hh : request.authorization = some header) (hne : header ≠ [])
    (hform : request.formData = .ok form) (hfile : form.file = some file) :
    (∀ e, fromCharCodes rt (asBytes file.bytes) = .error e →
      handleRequest rt env now request up trace = (.error e, trace)) ∧
    (∀ binary base64, fromCharCodes rt (asBytes file.bytes) = .ok binary →
      btoa binary = .ok base64 →
      (handleRequest rt env now request up trace).2 =
        trace ++ [githubCall env
          ("/repos/".toList ++ env.GITHUB_REPO ++ "/contents/images/".toList ++
            storedImageName rt now form file)
          "PUT".toList
          (some (.obj
            [("message".toList,
              .str ("Upload image: ".toList ++ storedImageName rt now form file)),
             ("content".toList, .str base64)]))]) := by
  obtain ⟨v, hv⟩ := requireAuth_present rt env now request header hh hne
  have hstart : handleRequest rt env now request = uploadImage rt env now request := by
    unfold handleRequest Async.tryReturn handleImageUpload
    rw [if_neg (by rw [hm]; decide), if_neg (by rw [hp]; decide), if_neg (by rw [hp]; decide),
      if_neg (by rw [hp]; decide), if_pos hp, if_neg (by rw [hm]; decide), hv,
      Async.ofExcept_ok_bind]
  rw [hstart]
  unfold uploadImage
  rw [hform, Async.ofExcept_ok_bind]
  simp only [hfile, lastPiece_split]
  constructor
  · intro e he
    rw [he, Async.ofExcept_error_bind]
    rfl
  · intro binary base64 hb h64
    rw [hb, Async.ofExcept_ok_bind, h64, Async.ofExcept_ok_bind]
    simp only [bind, Async.bind]
    rw [githubRequest_run]
    unfold storedImageName
    cases (githubRequest env
      ("/repos/".toList ++ env.GITHUB_REPO ++ "/contents/images/".toList ++
        (orElse form.date ((split 'T' (rt.toISOString now)).headD []) ++
          '-' :: natToString now ++ '.' :: (afterLast '.' file.name).getD file.name))
      "PUT".toList
      (some (.obj
        [("message".toList, .str ("Upload image: ".toList ++
          (orElse form.date ((split 'T' (rt.toISOString now)).headD []) ++
            '-' :: natToString now ++ '.' :: (afterLast '.' file.name).getD file.name))),
         ("content".toList, .str base64)])) up []).1 with
    | error e => rfl
    | ok result =>
      simp only [Async.ofExcept]
      cases getField result "content".toList with
      | error e => rfl
      | ok content =>
        simp only
        cases getField content "download_url".toList <;> rfl

/-- The call `String.fromCharCode(...bytes)` on the bytes of a file. -/
theorem fromCharCodes_asBytes (rt : Runtime) (bytes : List Nat) :
    fromCharCodes rt (asBytes bytes) =
      if rt.maxArguments < bytes.length then .error rangeError
      else .ok ((asBytes bytes).map Char.ofNat) := by
  simp [fromCharCodes, asBytes]

set_option maxRecDepth 100000 in
/-- C13, as stated, fails for a name without a `.`: the upload of a file named
`README` with the date field `2024-01-15` at clock value 1700000000000, under a
valid token, is stored as `images/2024-01-15-1700000000000.README`. The name has
no `.`, so no text follows a last `.` in it; the code takes the whole name as
the extension. It fails as well for a file of more bytes than a call takes
arguments: the upload of 200000 bytes throws the `RangeError` of
`String.fromCharCode(...)`, and nothing is stored under any path. -/
theorem C13_counterexample_name_without_dot :
    requireAuth referenceRuntime sampleEnv sampleTime
      (uploadRequest ("Bearer ".toList ++ sampleToken)
        { file := some readmeFile, date := some "2024-01-15".toList }) = .ok samplePayload ∧
    (handleRequest referenceRuntime sampleEnv sampleTime
      (uploadRequest ("Bearer ".toList ++ sampleToken)
        { file := some readmeFile, date := some "2024-01-15".toList })
      sampleUpstream []).2.map (fun call => (call.method, call.url)) =
      [("PUT".toList,
        "https://api.github.com/repos/owner/blog/contents/images/2024-01-15-1700000000000.README".toList)] ∧
    '.' ∉ readmeFile.name ∧
    afterLast '.' readmeFile.name = none ∧
    handleRequest referenceRuntime sampleEnv sampleTime
      (uploadRequest ("Bearer ".toList ++ sampleToken)
        { file := some largeFile, date := some "2024-01-15".toList })
      sampleUpstream [] = (.error rangeError, []) := by
  refine ⟨by decide!, by decide!, by decide, by decide, ?_⟩
  refine (handleRequest_upload referenceRuntime sampleEnv sampleTime
    (uploadRequest ("Bearer ".toList ++ sampleToken)
      { file := some largeFile, date := some "2024-01-15".toList })
    ("Bearer ".toList ++ sampleToken)
    { file := some largeFile, date := some "2024-01-15".toList } largeFile sampleUpstream []
    rfl rfl rfl (by decide) rfl rfl).1 rangeError ?_
  have hsize : referenceRuntime.maxArguments < largeFile.bytes.length := by
    show 125000 < (List.replicate 200000 0).length
    rw [List.length_replicate]
    decide
  rw [fromCharCodes_asBytes, if_pos hsize]

/-- C13, amended: for every upload `POST /images` with an `Authorization` header
and a form with a file named `n`, at clock value `ms`. When the file has no more
bytes than a call takes arguments, exactly one call is made to the content host:
a `PUT` on the path `images/{d}-{ms}.{ext}` of the repository, where `d` is the
date field of the form when it is present and not empty and the text before `T`
of the current ISO time otherwise, and `ext` is the text after the last `.` of
`n` when `n` has a `.`, and the whole of `n` when it has none. When the file has
more bytes, `String.fromCharCode(...)` throws a `RangeError` and no call is
made. -/
theorem C13_stored_image_path (rt : Runtime) (env : Env) (now : Nat) (request : Request)
    (header : JSString) (form : FormData) (file : FormFile) (up : Upstream)
    (trace : List FetchCall)
    (hm : request.method = "POST".toList) (hp : request.pathname = "/images".toList)
    (hh : request.authorization = some header) (hne : header ≠ [])
    (hform : request.formData = .ok form) (hfile : form.file = some file) :
    (file.bytes.length ≤ rt.maxArguments →
      (handleRequest rt env now request up trace).2 =
        trace ++ [githubCall env
          ("/repos/".toList ++ env.GITHUB_REPO ++ "/contents/images/".toList ++
            storedImageName rt now form file)
          "PUT".toList
          (some (.obj
            [("message".toList,
              .str ("Upload image: ".toList ++ storedImageName rt now form file)),
             ("content".toList, .str (encodeBytes (asBytes file.bytes)))]))]) ∧
    (rt.maxArguments < file.bytes.length →
      handleRequest rt env now request up trace = (.error rangeError, trace)) ∧
    (∀ e, afterLast '.' file.name = some e →
      '.' ∉ e ∧ (∃ stem, file.name = stem ++ '.' :: e) ∧
      storedImageName rt now form file =
        orElse form.date ((split 'T' (rt.toISOString now)).headD []) ++
          '-' :: natToString now ++ '.' :: e) ∧
    ('.' ∉ file.name →
      storedImageName rt now form file =
        orElse form.date ((split 'T' (rt.toISOString now)).headD []) ++
          '-' :: natToString now ++ '.' :: file.name) := by
  obtain ⟨hbig, hsmall⟩ := handleRequest_upload rt env now request header form file up trace
    hm hp hh hne hform hfile
  refine ⟨?_, ?_, ?_, ?_⟩
  · intro hsize
    apply hsmall ((asBytes file.bytes).map Char.ofNat)
    · rw [fromCharCodes_asBytes, if_neg (by omega)]
    · exact btoa_bytes _ (asBytes_lt file.bytes)
  · intro hsize
    apply hbig
    rw [fromCharCodes_asBytes, if_pos hsize]
  · intro e he
    obtain ⟨h1, h2⟩ := afterLast_some '.' file.name e he
    exact ⟨h1, h2, by rw [storedImageName, he]; rfl⟩
  · intro hno
    rw [storedImageName, (afterLast_none_iff '.' file.name).2 hno]
    rfl

set_option maxRecDepth 100000 in
/-- C13, amended, at the upload of `photo.final.JPG` without a date field at
2023-11-14T22:13:20Z: the extension is `JPG` and the date is `2023-11-14`. -/
theorem C13_stored_image_path_witness :
    storedImageName referenceRuntime sampleTime
      { file := some { name := "photo.final.JPG".toList, bytes := [255, 216, 255] }, date := none }
      { name := "photo.final.JPG".toList, bytes := [255, 216, 255] } =
      "2023-11-14-1700000000000.JPG".toList ∧
    (handleRequest referenceRuntime sampleEnv sampleTime
      (uploadRequest "Bearer x".toList
        { file := some { name := "photo.final.JPG".toList, bytes := [255, 216, 255] },
          date := none })
      sampleUpstream []).2 =
      [] ++ [githubCall sampleEnv
        ("/repos/".toList ++ sampleEnv.GITHUB_REPO ++ "/contents/images/".toList ++
          storedImageName referenceRuntime sampleTime
            { file := some { name := "photo.final.JPG".toList, bytes := [255, 216, 255] },
              date := none }
            { name := "photo.final.JPG".toList, bytes := [255, 216, 255] })
        "PUT".toList
        (some (.obj
          [("message".toList, .str ("Upload image: ".toList ++
              storedImageName referenceRuntime sampleTime
                { file := some { name := "photo.final.JPG".toList, bytes := [255, 216, 255] },
                  date := none }
                { name := "photo.final.JPG".toList, bytes := [255, 216, 255] })),
           ("content".toList, .str (encodeBytes (asBytes [255, 216, 255])))]))] :=
  ⟨by decide!,
    (C13_stored_image_path referenceRuntime sampleEnv sampleTime
      (uploadRequest "Bearer x".toList
        { file := some { name := "photo.final.JPG".toList, bytes := [255, 216, 255] },
          date := none })
      "Bearer x".toList
      { file := some { name := "photo.final.JPG".toList, bytes := [255, 216, 255] }, date := none }
      { name := "photo.final.JPG".toList, bytes := [255, 216, 255] }
      sampleUpstream [] rfl rfl rfl (by decide) rfl rfl).1 (by decide)⟩

/-! ## C15: the exact round trip of the codec -/

/-- C15: for every title, date and category that have no line break and equal
their own trim, and for every content whatsoever, `parseMarkdown` of the output
of `formatMarkdown` has a metadata object with exactly the three keys `title`,
`date` and `category`, bound to the given values, and the content `trim content`.
The regular expression ends the metadata block at the delimiter line that
`formatMarkdown` wrote after the three metadata lines, whatever delimiter lines
the content holds: its first group is these three lines and its second group is
the line break and the content. -/
theorem C15_exact_roundtrip (title date category content : JSString)
    (ht : '\n' ∉ title) (hd : '\n' ∉ date) (hc : '\n' ∉ category)
    (ht' : trim title = title) (hd' : trim date = date) (hc' : trim category = category) :
    parseMarkdown (formatMarkdown title date category content) =
      { metadata := [("title".toList, title), ("date".toList, date),
          ("category".toList, category)],
        content := trim content } ∧
    keysOf (parseMarkdown (formatMarkdown title date category content)).metadata =
      ["title".toList, "date".toList, "category".toList] ∧
    frontMatterRegex (formatMarkdown title date category content) =
      some (frontMatterOf title date category, '\n' :: content) := by
  have h := parseMarkdown_formatMarkdown title date category content ht hd hc
  rw [ht', hd', hc'] at h
  refine ⟨h, ?_, frontMatterRegex_formatMarkdown title date category content ht hd hc⟩
  rw [h]
  rfl

/-- C15 at a post whose title has a colon and whose content holds two delimiter
lines: the metadata block still ends at the delimiter line of `formatMarkdown`. -/
theorem C15_exact_roundtrip_witness :
    parseMarkdown (formatMarkdown "Re: notes".toList "2024-01-01".toList "tech".toList
        "intro\n---\nkey: value\n---\nrest\n".toList) =
      { metadata := [("title".toList, "Re: notes".toList), ("date".toList, "2024-01-01".toList),
          ("category".toList, "tech".toList)],
        content := trim "intro\n---\nkey: value\n---\nrest\n".toList } ∧
    keysOf (parseMarkdown (formatMarkdown "Re: notes".toList "2024-01-01".toList "tech".toList
        "intro\n---\nkey: value\n---\nrest\n".toList)).metadata =
      ["title".toList, "date".toList, "category".toList] ∧
    frontMatterRegex (formatMarkdown "Re: notes".toList "2024-01-01".toList "tech".toList
        "intro\n---\nkey: value\n---\nrest\n".toList) =
      some (frontMatterOf "Re: notes".toList "2024-01-01".toList "tech".toList,
        '\n' :: "intro\n---\nkey: value\n---\nrest\n".toList) :=
  C15_exact_roundtrip "Re: notes".toList "2024-01-01".toList "tech".toList
    "intro\n---\nkey: value\n---\nrest\n".toList (by decide) (by decide) (by decide)
    (by decide) (by decide) (by decide)

/-! ## The spread of the metadata -/

theorem getProp_eq_none_of_not_mem {α : Type} (o : Props α) (k : JSString)
    (h : k ∉ keysOf o) : getProp o k = none := by
  induction o with
  | nil => rfl
  | cons p rest ih =>
    obtain ⟨k0, v0⟩ := p
    simp only [keysOf, List.map_cons, List.mem_cons, not_or] at h
    simp only [getProp, if_neg (Ne.symm h.1)]
    exact ih h.2

theorem mem_keysOf_defineProp {α : Type} (o : Props α) (k x : JSString) (v : α) :
    x ∈ keysOf (defineProp o k v) ↔ x = k ∨ x ∈ keysOf o := by
  induction o with
  | nil =>
    have e : keysOf (defineProp ([] : Props α) k v) = [k] := rfl
    have e0 : keysOf ([] : Props α) = [] := rfl
    rw [e, e0]
    simp only [List.mem_singleton, List.not_mem_nil, or_false]
  | cons p rest ih =>
    obtain ⟨k0, v0⟩ := p
    have e0 : keysOf ((k0, v0) :: rest) = k0 :: keysOf rest := rfl
    rw [e0]
    unfold defineProp
    by_cases h0 : k0 = k
    · rw [if_pos h0]
      have e : keysOf ((k, v) :: rest) = k :: keysOf rest := rfl
      rw [e, h0]
      simp only [List.mem_cons]
      tauto
    · rw [if_neg h0]
      by_cases hb : (comesBefore k k0 && !hasProp rest k) = true
      · rw [if_pos hb]
        have e : keysOf ((k, v) :: (k0, v0) :: rest) = k :: k0 :: keysOf rest := rfl
        rw [e]
        simp only [List.mem_cons]
      · rw [if_neg hb]
        have e : keysOf ((k0, v0) :: defineProp rest k v) = k0 :: keysOf (defineProp rest k v) :=
          rfl
        rw [e]
        simp only [List.mem_cons, ih]
        tauto

theorem not_mem_keysOf_of_hasProp_false {α : Type} (o : Props α) (k : JSString)
    (h : hasProp o k = false) : k ∉ keysOf o := by
  induction o with
  | nil =>
    intro hm
    cases hm
  | cons p rest ih =>
    obtain ⟨k0, v0⟩ := p
    have e0 : keysOf ((k0, v0) :: rest) = k0 :: keysOf rest := rfl
    rw [e0]
    unfold hasProp at h ih
    simp only [getProp] at h
    by_cases h0 : k0 = k
    · rw [if_pos h0] at h
      cases h
    · rw [if_neg h0] at h
      simp only [List.mem_cons, not_or]
      exact ⟨Ne.symm h0, ih h⟩

theorem nodup_keysOf_defineProp {α : Type} (o : Props α) (k : JSString) (v : α)
    (h : (keysOf o).Nodup) : (keysOf (defineProp o k v)).Nodup := by
  induction o with
  | nil =>
    have e : keysOf (defineProp ([] : Props α) k v) = [k] := rfl
    rw [e]
    exact List.nodup_singleton k
  | cons p rest ih =>
    obtain ⟨k0, v0⟩ := p
    have e0 : keysOf ((k0, v0) :: rest) = k0 :: keysOf rest := rfl
    rw [e0, List.nodup_cons] at h
    unfold defineProp
    by_cases h0 : k0 = k
    · rw [if_pos h0]
      have e : keysOf ((k, v) :: rest) = k :: keysOf rest := rfl
      rw [e, List.nodup_cons, ← h0]
      exact h
    · rw [if_neg h0]
      by_cases hb : (comesBefore k k0 && !hasProp rest k) = true
      · rw [if_pos hb]
        have hno : hasProp rest k = false := by
          simp only [Bool.and_eq_true, Bool.not_eq_true'] at hb
          exact hb.2
        have hk : k ∉ keysOf rest := not_mem_keysOf_of_hasProp_false rest k hno
        have e : keysOf ((k, v) :: (k0, v0) :: rest) = k :: k0 :: keysOf rest := rfl
        rw [e, List.nodup_cons, List.nodup_cons]
        refine ⟨?_, h.1, h.2⟩
        simp only [List.mem_cons, not_or]
        exact ⟨Ne.symm h0, hk⟩
      · rw [if_neg hb]
        have e : keysOf ((k0, v0) :: defineProp rest k v) = k0 :: keysOf (defineProp rest k v) :=
          rfl
        rw [e, List.nodup_cons]
        refine ⟨?_, ih h.2⟩
        rw [mem_keysOf_defineProp]
        intro hx
        rcases hx with hx | hx
        · exact h0 hx
        · exact h.1 hx

theorem nodup_keysOf_parseLine (metadata : Props JSString) (line : JSString)
    (h : (keysOf metadata).Nodup) : (keysOf (parseLine metadata line)).Nodup := by
  rcases parseLine_cases metadata line with e | ⟨key, value, _, _, _, e⟩
  · rw [e]
    exact h
  · rw [e, assignProp]
    split_ifs
    · exact h
    · exact nodup_keysOf_defineProp _ _ _ h

theorem nodup_keysOf_foldl_parseLine (lines : List JSString) (metadata : Props JSString)
    (h : (keysOf metadata).Nodup) : (keysOf (lines.foldl parseLine metadata)).Nodup := by
  induction lines generalizing metadata with
  | nil => exact h
  | cons l rest ih => exact ih _ (nodup_keysOf_parseLine metadata l h)

/-- The keys of the metadata that `parseMarkdown` returns are distinct. -/
theorem nodup_keysOf_parseMarkdown (markdown : JSString) :
    (keysOf (parseMarkdown markdown).metadata).Nodup := by
  unfold parseMarkdown
  cases frontMatterRegex markdown with
  | none => exact List.nodup_nil
  | some p => exact nodup_keysOf_foldl_parseLine _ [] List.nodup_nil

/-- The metadata of a document whose front matter has keys that are array
indices: they are enumerated first, in ascending order, and the other keys
follow in the order of their lines. -/
theorem parseMarkdown_orders_index_keys :
    (parseMarkdown "---\nb: x\n10: y\n2: z\n01: w\n---\n".toList).metadata =
      [("2".toList, "z".toList), ("10".toList, "y".toList), ("b".toList, "x".toList),
       ("01".toList, "w".toList)] ∧
    arrayIndex "4294967294".toList = some 4294967294 ∧
    arrayIndex "4294967295".toList = none ∧
    arrayIndex "0".toList = some 0 ∧
    arrayIndex "00".toList = none ∧
    arrayIndex "-1".toList = none ∧
    arrayIndex [] = none := by
  decide

/-- A property after the spread of a metadata object with distinct keys: the
value of the metadata when it has the key, the value from before otherwise. -/
theorem getProp_spreadInto (o : Props JSValue) (metadata : Props JSString) (k : JSString)
    (h : (keysOf metadata).Nodup) :
    getProp (spreadInto o metadata) k =
      match getProp metadata k with
      | some v => some (.str v)
      | none => getProp o k := by
  induction metadata generalizing o with
  | nil => rfl
  | cons p rest ih =>
    obtain ⟨k0, v0⟩ := p
    simp only [keysOf, List.map_cons, List.nodup_cons] at h
    have e : spreadInto o ((k0, v0) :: rest) = spreadInto (defineProp o k0 (.str v0)) rest := rfl
    rw [e, ih _ h.2, getProp_defineProp]
    by_cases hk : k0 = k
    · subst hk
      rw [getProp_eq_none_of_not_mem rest k0 h.1]
      simp [getProp]
    · simp only [getProp, if_neg hk]

/-- The match of `/^(\d{4}-\d{2}-\d{2})/` is the leading date of the name. -/
theorem datePrefix_eq_leadingDate (name : JSString) : datePrefix name = leadingDate name := by
  have hr : List.range 10 = [0, 1, 2, 3, 4, 5, 6, 7, 8, 9] := by decide
  rcases name with _ | ⟨c0, _ | ⟨c1, _ | ⟨c2, _ | ⟨c3, _ | ⟨c4, _ | ⟨c5, _ | ⟨c6, _ | ⟨c7,
    _ | ⟨c8, _ | ⟨c9, rest⟩⟩⟩⟩⟩⟩⟩⟩⟩⟩
  case cons.cons.cons.cons.cons.cons.cons.cons.cons.cons =>
    by_cases h4 : c4 = '-'
    · by_cases h7 : c7 = '-'
      · subst h4 h7
        simp only [datePrefix, leadingDate, isDateShape, hr]
        simp [List.take, List.get?]
      · have e : datePrefix (c0 :: c1 :: c2 :: c3 :: c4 :: c5 :: c6 :: c7 :: c8 :: c9 :: rest)
            = [] := by
          unfold datePrefix
          split
          · rename_i heq
            simp only [List.cons.injEq] at heq
            exact absurd heq.2.2.2.2.2.2.2.1 h7
          · rfl
        rw [e]
        simp only [leadingDate, isDateShape, hr]
        simp [List.take, List.get?, h7]
    · have e : datePrefix (c0 :: c1 :: c2 :: c3 :: c4 :: c5 :: c6 :: c7 :: c8 :: c9 :: rest)
          = [] := by
        unfold datePrefix
        split
        · rename_i heq
          simp only [List.cons.injEq] at heq
          exact absurd heq.2.2.2.2.1 h4
        · rfl
      rw [e]
      simp only [leadingDate, isDateShape, hr]
      simp [List.take, List.get?, h4]
  all_goals simp [datePrefix, leadingDate, isDateShape]

/-- The entry that the loop of `getPostsList` pushes for a listed file. -/
theorem listFile_some (category : JSString) (file : JSValue) (post : ListedPost)
    (h : listFile category file = .ok (some post)) :
    post = entryOf category file ∧ endsWith (fileName file) ".md".toList = true := by
  by_cases hd : isFileDescriptor file = true
  · rw [listFile_descriptor category file hd] at h
    by_cases hmd : endsWith (fileName file) ".md".toList = true
    · rw [if_pos hmd] at h
      simp only [Except.ok.injEq, Option.some.injEq] at h
      exact ⟨h.symm, hmd⟩
    · rw [if_neg hmd] at h
      simp only [Except.ok.injEq] at h
      cases h
  · exfalso
    unfold isFileDescriptor at hd
    unfold listFile at h
    cases hn : getField file "name".toList with
    | error e =>
      rw [hn] at h
      cases h
    | ok name =>
      rw [hn] at h hd
      cases name <;> first | (exact hd rfl) | (cases h)

/-- A field of the object that `getPostsList` builds for a listed file: the
metadata, spread last, overrides the value written before it. -/
theorem getField_listedPostObject (post : ListedPost) (markdown : JSString) (k : JSString) :
    getField (listedPostObject post (parseMarkdown markdown)) k =
      .ok (overridden (parseMarkdown markdown).metadata k
        ((getProp
          [("id".toList, post.id),
           ("filename".toList, .str post.filename),
           ("category".toList, .str post.category),
           ("date".toList, .str (orElse (getProp (parseMarkdown markdown).metadata "date".toList)
              post.date)),
           ("title".toList, .str (orElse (getProp (parseMarkdown markdown).metadata "title".toList)
              (replaceFirst ".md".toList [] post.filename))),
           ("content".toList, .str (parseMarkdown markdown).content)] k).getD .undefined)) := by
  unfold listedPostObject getField overridden
  simp only
  rw [getProp_spreadInto _ _ _ (nodup_keysOf_parseMarkdown markdown)]
  cases getProp (parseMarkdown markdown).metadata k <;> rfl

/-! ## C14: the date and the title of a listed post -/

/-- C14: for every listed file that `getPostsList` keeps and every downloaded
text, the `date` of the returned post is the value of the front-matter key
`date` when the front matter has that key, whatever its value, and otherwise
the leading `YYYY-MM-DD` prefix of the file name, which is the empty text when
the name has no such prefix; its `title` is the value of the front-matter key
`title` when the front matter has that key, and otherwise the file name with its
first `.md` removed. -/
theorem C14_date_title_fallback (category : JSString) (file : JSValue) (post : ListedPost)
    (text : JSString) (hl : listFile category file = .ok (some post)) :
    post.filename = fileName file ∧
    getField (listedPostObject post (parseMarkdown text)) "date".toList =
      .ok (overridden (parseMarkdown text).metadata "date".toList
        (.str (leadingDate post.filename))) ∧
    getField (listedPostObject post (parseMarkdown text)) "title".toList =
      .ok (overridden (parseMarkdown text).metadata "title".toList
        (.str (replaceFirst ".md".toList [] post.filename))) := by
  obtain ⟨hp, _⟩ := listFile_some category file post hl
  have hdate : post.date = leadingDate post.filename := by
    rw [hp, ← datePrefix_eq_leadingDate]
    rfl
  refine ⟨by rw [hp]; rfl, ?_, ?_⟩
  · rw [getField_listedPostObject]
    unfold overridden
    cases hm : getProp (parseMarkdown text).metadata "date".toList with
    | some v => rfl
    | none =>
      simp only [getProp, orElse, hdate]
      simp
  · rw [getField_listedPostObject]
    unfold overridden
    cases hm : getProp (parseMarkdown text).metadata "title".toList with
    | some v => rfl
    | none =>
      simp only [getProp, orElse]
      simp

set_option maxRecDepth 100000 in
/-- C14 at the listed file `2024-01-01-a.md`. With a front matter that has an
empty `date` and no `title`, the date is empty and the title is `2024-01-01-a`;
with a text without front matter the date is `2024-01-01`. A name such as
`b.md` has no leading date. -/
theorem C14_date_title_fallback_witness :
    (getField (listedPostObject
        (entryOf "tech".toList
          (sampleFile "posts/tech".toList "2024-01-01-a.md".toList "sha-a".toList))
        (parseMarkdown "---\ndate: \n---\nbody".toList)) "date".toList = .ok (.str []) ∧
     getField (listedPostObject
        (entryOf "tech".toList
          (sampleFile "posts/tech".toList "2024-01-01-a.md".toList "sha-a".toList))
        (parseMarkdown "---\ndate: \n---\nbody".toList)) "title".toList =
        .ok (.str "2024-01-01-a".toList) ∧
     getField (listedPostObject
        (entryOf "tech".toList
          (sampleFile "posts/tech".toList "2024-01-01-a.md".toList "sha-a".toList))
        (parseMarkdown "body".toList)) "date".toList = .ok (.str "2024-01-01".toList) ∧
     leadingDate "b.md".toList = [] ∧ leadingDate "2024-1-01-x.md".toList = []) ∧
    ((entryOf "tech".toList
        (sampleFile "posts/tech".toList "2024-01-01-a.md".toList "sha-a".toList)).filename =
      fileName (sampleFile "posts/tech".toList "2024-01-01-a.md".toList "sha-a".toList) ∧
     getField (listedPostObject
        (entryOf "tech".toList
          (sampleFile "posts/tech".toList "2024-01-01-a.md".toList "sha-a".toList))
        (parseMarkdown "---\ndate: \n---\nbody".toList)) "date".toList =
      .ok (overridden (parseMarkdown "---\ndate: \n---\nbody".toList).metadata "date".toList
        (.str (leadingDate (entryOf "tech".toList
          (sampleFile "posts/tech".toList "2024-01-01-a.md".toList "sha-a".toList)).filename))) ∧
     getField (listedPostObject
        (entryOf "tech".toList
          (sampleFile "posts/tech".toList "2024-01-01-a.md".toList "sha-a".toList))
        (parseMarkdown "---\ndate: \n---\nbody".toList)) "title".toList =
      .ok (overridden (parseMarkdown "---\ndate: \n---\nbody".toList).metadata "title".toList
        (.str (replaceFirst ".md".toList [] (entryOf "tech".toList
          (sampleFile "posts/tech".toList "2024-01-01-a.md".toList "sha-a".toList)).filename)))) :=
  ⟨by decide!,
    C14_date_title_fallback "tech".toList
      (sampleFile "posts/tech".toList "2024-01-01-a.md".toList "sha-a".toList)
      (entryOf "tech".toList
        (sampleFile "posts/tech".toList "2024-01-01-a.md".toList "sha-a".toList))
      "---\ndate: \n---\nbody".toList (by decide)⟩

/-! ## C16: front-matter keys override the computed fields of a post -/

/-- C16: in the list of posts the metadata is spread last, so for every listed
file that `getPostsList` keeps, the `id`, `filename`, `category` and `content`
of the returned post are the `sha` of the listing, the file name, the category
and the body that `parseMarkdown` returns, unless the front matter has a key of
that name, whose value is then returned instead. In `getPost`, when the read
returns a file whose `content` decodes, the answer has status 200 and a post
whose `id`, `filename` and `category` are overridden by the front matter in the
same way, while its `content` is always the body that `parseMarkdown` returns. -/
theorem C16_metadata_overrides (env : Env) (category filename : JSString)
    (listed : JSValue) (post : ListedPost) (text : JSString)
    (up : Upstream) (trace : List FetchCall) (file encoded sha : JSValue) (decoded : JSString)
    (hl : listFile category listed = .ok (some post))
    (hr : (githubRequest env (postPath env category filename) "GET".toList none up trace).1 =
      .ok file)
    (he : getField file "content".toList = .ok encoded)
    (ha : atob (toStr encoded) = .ok decoded)
    (hs : getField file "sha".toList = .ok sha) :
    (post.id = fieldOf listed "sha".toList ∧ post.filename = fileName listed ∧
      post.category = category) ∧
    (getField (listedPostObject post (parseMarkdown text)) "id".toList =
        .ok (overridden (parseMarkdown text).metadata "id".toList post.id) ∧
     getField (listedPostObject post (parseMarkdown text)) "filename".toList =
        .ok (overridden (parseMarkdown text).metadata "filename".toList (.str post.filename)) ∧
     getField (listedPostObject post (parseMarkdown text)) "category".toList =
        .ok (overridden (parseMarkdown text).metadata "category".toList (.str post.category)) ∧
     getField (listedPostObject post (parseMarkdown text)) "content".toList =
        .ok (overridden (parseMarkdown text).metadata "content".toList
          (.str (parseMarkdown text).content))) ∧
    (∃ single,
      (getPost env category filename up trace).1 =
        .ok (jsonResponse (.obj [("post".toList, single)]) 200) ∧
      getField single "id".toList =
        .ok (overridden (parseMarkdown decoded).metadata "id".toList sha) ∧
      getField single "filename".toList =
        .ok (overridden (parseMarkdown decoded).metadata "filename".toList (.str filename)) ∧
      getField single "category".toList =
        .ok (overridden (parseMarkdown decoded).metadata "category".toList (.str category)) ∧
      getField single "content".toList = .ok (.str (parseMarkdown decoded).content)) := by
  obtain ⟨hp, _⟩ := listFile_some category listed post hl
  refine ⟨by rw [hp]; exact ⟨rfl, rfl, rfl⟩, ?_, ?_⟩
  · refine ⟨?_, ?_, ?_, ?_⟩ <;> rw [getField_listedPostObject] <;> rfl
  · refine ⟨.obj (defineProp
        (spreadInto
          [("id".toList, sha), ("filename".toList, .str filename),
           ("category".toList, .str category)]
          (parseMarkdown decoded).metadata)
        "content".toList (.str (parseMarkdown decoded).content)), ?_, ?_, ?_, ?_, ?_⟩
    · rw [githubRequest_run] at hr
      simp only at hr
      unfold getPost
      simp only [bind, Async.bind]
      rw [githubRequest_run, hr]
      simp only [he, ha, hs, Async.ofExcept, pure, Async.pure]
    · unfold getField overridden
      simp only
      rw [getProp_defineProp, getProp_spreadInto _ _ _ (nodup_keysOf_parseMarkdown decoded),
        if_neg (by decide)]
      cases getProp (parseMarkdown decoded).metadata "id".toList <;> rfl
    · unfold getField overridden
      simp only
      rw [getProp_defineProp, getProp_spreadInto _ _ _ (nodup_keysOf_parseMarkdown decoded),
        if_neg (by decide)]
      cases getProp (parseMarkdown decoded).metadata "filename".toList <;> rfl
    · unfold getField overridden
      simp only
      rw [getProp_defineProp, getProp_spreadInto _ _ _ (nodup_keysOf_parseMarkdown decoded),
        if_neg (by decide)]
      cases getProp (parseMarkdown decoded).metadata "category".toList <;> rfl
    · unfold getField
      simp only
      rw [getProp_defineProp, if_pos rfl]
      rfl

set_option maxRecDepth 100000 in
/-- C16 at a document whose front matter has the keys `id`, `filename` and
`content`. In the list of posts the three fields take the front-matter values
and the category stays `tech`; `getPost` returns the front-matter `id` and
`filename` and the parsed body as `content`. -/
theorem C16_metadata_overrides_witness :
    (getField (listedPostObject
        (entryOf "tech".toList
          (sampleFile "posts/tech".toList "2024-01-01-a.md".toList "sha-a".toList))
        (parseMarkdown overridingText)) "id".toList = .ok (.str "mine".toList) ∧
     getField (listedPostObject
        (entryOf "tech".toList
          (sampleFile "posts/tech".toList "2024-01-01-a.md".toList "sha-a".toList))
        (parseMarkdown overridingText)) "content".toList = .ok (.str "shadow".toList) ∧
     (getPost sampleEnv "tech".toList "2024-01-01-a.md".toList overridingUpstream []).1 =
      .ok (jsonResponse (.obj [("post".toList, .obj
        [("id".toList, .str "mine".toList),
         ("filename".toList, .str "other.md".toList),
         ("category".toList, .str "tech".toList),
         ("content".toList, .str "body".toList)])]) 200)) ∧
    (getField (listedPostObject
        (entryOf "tech".toList
          (sampleFile "posts/tech".toList "2024-01-01-a.md".toList "sha-a".toList))
        (parseMarkdown overridingText)) "id".toList =
        .ok (overridden (parseMarkdown overridingText).metadata "id".toList
          (entryOf "tech".toList
            (sampleFile "posts/tech".toList "2024-01-01-a.md".toList "sha-a".toList)).id) ∧
     getField (listedPostObject
        (entryOf "tech".toList
          (sampleFile "posts/tech".toList "2024-01-01-a.md".toList "sha-a".toList))
        (parseMarkdown overridingText)) "filename".toList =
        .ok (overridden (parseMarkdown overridingText).metadata "filename".toList
          (.str (entryOf "tech".toList
            (sampleFile "posts/tech".toList "2024-01-01-a.md".toList "sha-a".toList)).filename)) ∧
     getField (listedPostObject
        (entryOf "tech".toList
          (sampleFile "posts/tech".toList "2024-01-01-a.md".toList "sha-a".toList))
        (parseMarkdown overridingText)) "category".toList =
        .ok (overridden (parseMarkdown overridingText).metadata "category".toList
          (.str (entryOf "tech".toList
            (sampleFile "posts/tech".toList "2024-01-01-a.md".toList "sha-a".toList)).category)) ∧
     getField (listedPostObject
        (entryOf "tech".toList
          (sampleFile "posts/tech".toList "2024-01-01-a.md".toList "sha-a".toList))
        (parseMarkdown overridingText)) "content".toList =
        .ok (overridden (parseMarkdown overridingText).metadata "content".toList
          (.str (parseMarkdown overridingText).content))) :=
  ⟨by decide!,
    (C16_metadata_overrides sampleEnv "tech".toList "2024-01-01-a.md".toList
      (sampleFile "posts/tech".toList "2024-01-01-a.md".toList "sha-a".toList)
      (entryOf "tech".toList
        (sampleFile "posts/tech".toList "2024-01-01-a.md".toList "sha-a".toList))
      overridingText overridingUpstream []
      (.obj
        [("sha".toList, .str "sha-1".toList),
         ("content".toList,
          .str "LS0tCmlkOiBtaW5lCmZpbGVuYW1lOiBvdGhlci5tZApjb250ZW50OiBzaGFkb3cKLS0tCmJvZHk=".toList)])
      (.str "LS0tCmlkOiBtaW5lCmZpbGVuYW1lOiBvdGhlci5tZApjb250ZW50OiBzaGFkb3cKLS0tCmJvZHk=".toList)
      (.str "sha-1".toList) overridingText
      (by decide) (by decide) (by decide) (by decide!) (by decide)).2.1⟩

end MinimalBlog
